import Mathlib

/-!
# Bank management system: ledger model and its properties

A shallow embedding of `BankSystem.cpp`.

Modelling conventions

* `std::string` is a list of characters (`Str`).
* `int` is `Int` within the 32-bit range: `ToInt` reports a value outside the
  range as a failed extraction, as the stream does, and the increment of
  `lastAccountID` wraps around (`wrapInt`).
* `double` is `Double`, the binary64 numbers: the finite values with their exact
  rational value, the negative zero, the two infinities and the not-a-number
  values (with the sign bit the x86-64 instructions give them).  A sum is the
  exact sum rounded to the nearest binary64 number, a tie going to the even
  mantissa, and overflows to an infinity.  Text output of a `double`
  (`oss << balance`) is the stream default, six significant digits in the shorter
  of fixed and scientific form with trailing zeros removed (`showDouble`).  Text
  input (`iss >> balance`) is `readDouble`: the decimal number at the start of
  the text, rounded to the nearest binary64 number; it fails when there is no
  number or the number is out of range.
* A file is its content, a list of characters.  `WriteFile` (truncating mode)
  produces the content, `ReadFile` splits it into its non-empty lines.
* `std::map` is an association list; `operator[]` and assignment through it are
  `Map.get` and `Map.set`.
* Console input is passed to each operation as the list of values the prompts of
  that operation read, in order; an operation whose prompts exhaust the list does
  not complete (`none`).  A failed `assert` ends the program: the operation is
  `none` as well.
* The three files exist; `UpdateDatabase` is a function of the in-memory state,
  since it reads back what it has just written.
* `GetTime()` is the parameter `date` of the operations that call it.
-/

namespace Bank

/-- The model of `std::string`. -/
abbrev Str := List Char

/-! ## Utility functions -/

/-- Split a text at every occurrence of the character `d`. -/
def splitAt (d : Char) : Str → List Str
  | [] => [[]]
  | c :: cs =>
    if c = d then [] :: splitAt d cs
    else match splitAt d cs with
      | [] => [[c]]
      | f :: fs => (c :: f) :: fs

/-- The function `SplitString(line)` with its default delimiter `","`: cut at the
first comma, push the part before it, continue with the part after it; the
remainder is the last field. -/
def SplitString (line : Str) : List Str := splitAt ',' line

/-- The function `ReadFile`: the lines of the file, empty lines left out. -/
def ReadFile (content : Str) : List Str :=
  (splitAt '\n' content).filter (fun l => !l.isEmpty)

/-- The function `WriteFile(path, lines, false)`: every line followed by a line break. -/
def WriteFile (lines : List Str) : Str :=
  (lines.map (fun l => l ++ ['\n'])).flatten

/-- The value of a decimal digit character. -/
def digitVal (c : Char) : Nat := c.toNat - 48

/-- The number written by a run of decimal digits. -/
def natOfDigits (ds : Str) : Nat := ds.foldl (fun acc c => 10 * acc + digitVal c) 0

/-- The characters `isspace` accepts, skipped by formatted extraction. -/
def isSpace (c : Char) : Bool :=
  c = ' ' || c = '\t' || c = '\n' || c = '\x0b' || c = '\x0c' || c = '\r'

/-- An optional sign in front of a number: whether it is a minus, and the rest. -/
def readSign : Str → Bool × Str
  | '-' :: t => (true, t)
  | '+' :: t => (false, t)
  | s => (false, s)

/-- The output `oss << id` for an `int`. -/
def showInt (i : Int) : Str :=
  if i < 0 then '-' :: Nat.toDigits 10 i.natAbs else Nat.toDigits 10 i.natAbs

/-- The extraction `iss >> id` of an `int`: optional white space, an optional
sign, decimal digits; `none` when it fails (no digit, or a value that does not
fit 32 bits). -/
def readInt (str : Str) : Option Int :=
  let s := readSign (str.dropWhile isSpace)
  let ds := s.2.takeWhile Char.isDigit
  let v : Int := if s.1 then -(natOfDigits ds : Int) else (natOfDigits ds : Int)
  if ds.isEmpty then none
  else if v < -2147483648 ∨ 2147483647 < v then none
  else some v

/-- The function `ToInt`: the extracted `int`, `-1` when the extraction fails. -/
def ToInt (str : Str) : Int := (readInt str).getD (-1)

/-- The value of an `int` expression computed without regard to the range, taken
back into the 32-bit range. -/
def wrapInt (i : Int) : Int := (i + 2147483648) % 4294967296 - 2147483648

/-! ### The type `double` -/

/-- A binary64 number: a finite value other than the negative zero (`fin`, with
its exact value), the negative zero, an infinity or a not-a-number value (with
its sign bit). -/
inductive Double where
  | fin (q : ℚ)
  | negZero
  | inf (neg : Bool)
  | nan (neg : Bool)
deriving DecidableEq

/-- Nearest integer to `n / d`, a tie going to the even neighbour. -/
def roundHalfEven (n d : Nat) : Nat :=
  if 2 * (n % d) < d then n / d
  else if d < 2 * (n % d) then n / d + 1
  else if (n / d) % 2 = 0 then n / d else n / d + 1

/-- The position of the leading binary digit of a positive number: the `e` with
`2 ^ e ≤ n < 2 ^ (e + 1)`. -/
def log2 (n : Nat) : Nat := (Nat.toDigits 2 n).length - 1

/-- The binary exponent of the positive value `n / d`: the `e` with
`2 ^ e ≤ n / d < 2 ^ (e + 1)`. -/
def binExp (n d : Nat) : Int :=
  let e : Int := (log2 n : Int) - (log2 d : Int)
  if (if 0 ≤ e then n < d * 2 ^ e.toNat else n * 2 ^ (-e).toNat < d) then e - 1 else e

/-- The mantissa of the positive value `n / d` for the unit `2 ^ k`: the integer
nearest to `n / d / 2 ^ k`, a tie going to the even one. -/
def roundMantissa (n d : Nat) (k : Int) : Nat :=
  if 0 ≤ k then roundHalfEven n (d * 2 ^ k.toNat) else roundHalfEven (n * 2 ^ (-k).toNat) d

/-- The value `m * 2 ^ k`. -/
def scaled (m : Nat) (k : Int) : ℚ :=
  if 0 ≤ k then ((m * 2 ^ k.toNat : Nat) : ℚ) else (m : ℚ) / ((2 ^ (-k).toNat : Nat) : ℚ)

/-- The binary64 number nearest to the positive value `n / d` taken with the sign
`neg`: 53 significant bits, fewer below `2 ^ -1022`, a tie going to the even
mantissa; an infinity from `2 ^ 1024` on, a zero when nothing is left. -/
def roundNearest (neg : Bool) (n d : Nat) : Double :=
  let k : Int := max (binExp n d) (-1022) - 52
  let m : Nat := roundMantissa n d k
  if m = 0 then (if neg then Double.negZero else Double.fin 0)
  else if ((2 ^ 1024 : Nat) : ℚ) ≤ scaled m k then Double.inf neg
  else if neg then Double.fin (-scaled m k)
  else Double.fin (scaled m k)

/-- A literal such as `100.0`: the `double` nearest to the number written. -/
instance (n : Nat) : OfNat Double n :=
  ⟨if n = 0 then Double.fin 0 else roundNearest false n 1⟩

/-- The sum `x + y` of two `double`s. -/
def Double.add : Double → Double → Double
  | .nan s, _ => .nan s
  | _, .nan s => .nan s
  | .inf s, .inf t => if s = t then .inf s else .nan true
  | .inf s, _ => .inf s
  | _, .inf s => .inf s
  | .negZero, .negZero => .negZero
  | .negZero, .fin q => .fin q
  | .fin q, .negZero => .fin q
  | .fin a, .fin b =>
    if a + b = 0 then .fin 0
    else roundNearest (decide (a + b < 0)) (a + b).num.natAbs (a + b).den

instance : Add Double := ⟨Double.add⟩

/-- The value `-x`: the sign bit is flipped. -/
def Double.neg : Double → Double
  | .fin q => if q = 0 then .negZero else .fin (-q)
  | .negZero => .fin 0
  | .inf s => .inf (!s)
  | .nan s => .nan (!s)

instance : Neg Double := ⟨Double.neg⟩

/-- The difference `x - y` of two `double`s. -/
instance : Sub Double := ⟨fun x y => x + -y⟩

/-- The value of a finite `double`; `0` for the others. -/
def Double.toRat : Double → ℚ
  | .fin q => q
  | _ => 0

/-- The comparison `x < y` of two `double`s: false when one is not a number. -/
def Double.lt : Double → Double → Bool
  | .nan _, _ => false
  | _, .nan _ => false
  | .inf s, .inf t => s && !t
  | .inf s, _ => s
  | _, .inf t => !t
  | x, y => decide (x.toRat < y.toRat)

/-- The comparison `x <= y` of two `double`s: false when one is not a number. -/
def Double.le : Double → Double → Bool
  | .nan _, _ => false
  | _, .nan _ => false
  | .inf s, .inf t => s || !t
  | .inf s, _ => s
  | _, .inf t => !t
  | x, y => decide (x.toRat ≤ y.toRat)

instance : LT Double := ⟨fun x y => Double.lt x y = true⟩

instance : LE Double := ⟨fun x y => Double.le x y = true⟩

instance (x y : Double) : Decidable (x < y) := by
  unfold LT.lt instLTDouble; infer_instance

instance (x y : Double) : Decidable (x ≤ y) := by
  unfold LE.le instLEDouble; infer_instance

/-- Neither an infinity nor a not-a-number value. -/
def Double.isFinite : Double → Bool
  | .fin _ => true
  | .negZero => true
  | _ => false

/-! ### Text form of a `double` -/

/-- The least `k' ≥ k` with `q ≤ p * 10 ^ k'`, searched for `fuel` steps. -/
def negExp : Nat → Nat → Nat → Nat → Nat
  | 0, _, _, k => k
  | fuel + 1, p, q, k => if q ≤ p * 10 ^ k then k else negExp fuel p q (k + 1)

/-- The decimal exponent of `p / q`: the `e` with `10 ^ e ≤ p / q < 10 ^ (e + 1)`. -/
def decExp (p q : Nat) : Int :=
  if q ≤ p then ((Nat.toDigits 10 (p / q)).length : Int) - 1
  else -(negExp q p q 1 : Int)

/-- The value `p / q` scaled to `p / q * 10 ^ (5 - e)` and rounded. -/
def sixDigits (p q : Nat) (e : Int) : Nat :=
  if e ≤ 5 then roundHalfEven (p * 10 ^ (5 - e).toNat) q
  else roundHalfEven p (q * 10 ^ (e - 5).toNat)

/-- Remove the zeros at the end. -/
def stripZeros (ds : Str) : Str := (ds.reverse.dropWhile (fun c => c = '0')).reverse

/-- Integer part, then a point and the fraction digits when there are any. -/
def mantText (ip fp : Str) : Str := if fp.isEmpty then ip else ip ++ '.' :: fp

/-- The digits of the exponent part: at least two. -/
def expDigits (e : Int) : Str :=
  if e.natAbs < 10 then '0' :: Nat.toDigits 10 e.natAbs else Nat.toDigits 10 e.natAbs

/-- The exponent part of the scientific form: letter, sign and digits. -/
def expText (e : Int) : Str := 'e' :: (if e < 0 then '-' else '+') :: expDigits e

/-- Six significant digits of the positive value `p / q`, trailing zeros removed,
in scientific form when the exponent is below `-4` or at least `6`. -/
def showPos (p q : Nat) : Str :=
  let e0 := decExp p q
  let m0 := sixDigits p q e0
  let e := if 1000000 ≤ m0 then e0 + 1 else e0
  let ds := Nat.toDigits 10 (if 1000000 ≤ m0 then 100000 else m0)
  if e < -4 ∨ 6 ≤ e then
    mantText (ds.take 1) (stripZeros (ds.drop 1)) ++ expText e
  else if 0 ≤ e then
    mantText (ds.take (e.toNat + 1)) (stripZeros (ds.drop (e.toNat + 1)))
  else
    mantText ['0'] (List.replicate ((-e).toNat - 1) '0' ++ stripZeros ds)

/-- The text of a finite value at the default precision of the stream. -/
def showFinite (x : ℚ) : Str :=
  if x = 0 then ['0']
  else if x < 0 then '-' :: showPos x.num.natAbs x.den
  else showPos x.num.natAbs x.den

/-- The output `oss << x` for a `double`, at the default precision of the stream. -/
def showDouble : Double → Str
  | .fin q => showFinite q
  | .negZero => "-0".data
  | .inf neg => if neg then "-inf".data else "inf".data
  | .nan neg => if neg then "-nan".data else "nan".data

/-- The fraction part after the integer digits: its digits and the rest. -/
def readFraction : Str → Str × Str
  | '.' :: t => (t.takeWhile Char.isDigit, t.dropWhile Char.isDigit)
  | r => ([], r)

/-- The exponent part after the mantissa `mant`, applied to it; `none` when the
exponent letter is not followed by a number. -/
def readExponent (mant : ℚ) : Str → Option ℚ
  | [] => some mant
  | c :: t =>
    if c = 'e' ∨ c = 'E' then
      if ((readSign t).2.takeWhile Char.isDigit).isEmpty then none
      else if (readSign t).1 then
        some (mant / ((10 ^ natOfDigits ((readSign t).2.takeWhile Char.isDigit) : Nat) : ℚ))
      else some (mant * ((10 ^ natOfDigits ((readSign t).2.takeWhile Char.isDigit) : Nat) : ℚ))
    else some mant

/-- The unsigned number at the start of a text: digits, an optional point and
digits, an optional exponent; `none` when there is no digit or the exponent
letter is not followed by a number. -/
def parseFloat (s : Str) : Option ℚ :=
  let ip := s.takeWhile Char.isDigit
  let fr := readFraction (s.dropWhile Char.isDigit)
  if ip.isEmpty && fr.1.isEmpty then none
  else readExponent ((natOfDigits (ip ++ fr.1) : ℚ) / ((10 ^ fr.1.length : Nat) : ℚ)) fr.2

/-- The extraction `iss >> balance` of a `double`: optional white space, an
optional sign, a decimal number, rounded to the nearest `double`; `none` when it
fails (no number, or a number out of the range of `double`). -/
def readDouble (str : Str) : Option Double :=
  let s := readSign (str.dropWhile isSpace)
  match parseFloat s.2 with
  | none => none
  | some v =>
    if v = 0 then some (if s.1 then Double.negZero else Double.fin 0)
    else match roundNearest s.1 v.num.natAbs v.den with
      | .inf _ => none
      | x => some x

/-- The function `ToDouble`: the extracted `double`, `-1.0` when the extraction
fails. -/
def ToDouble (str : Str) : Double := (readDouble str).getD (-1)

/-- Fields separated by commas, as `oss << a << "," << b << ...` writes them. -/
def joinComma : List Str → Str
  | [] => []
  | [f] => f
  | f :: g :: fs => f ++ ',' :: joinComma (g :: fs)

/-! ## Classes -/

/-- One entry of an account's transaction history. -/
structure TransactionHistory where
  type : Str
  date : Str
  message : Str
  balance : Double
  amount : Double
  accID : Int
deriving DecidableEq

/-- The constructor `TransactionHistory(string line)`; `none` when
`assert(content.size() == 6)` fails. -/
def TransactionHistory.fromLine (line : Str) : Option TransactionHistory :=
  match SplitString line with
  | [c0, c1, c2, c3, c4, c5] =>
    some { accID := ToInt c0, type := c1, amount := ToDouble c2, message := c3,
           balance := ToDouble c4, date := c5 }
  | _ => none

/-- The method `TransactionHistory::ToString`. -/
def TransactionHistory.ToString (t : TransactionHistory) : Str :=
  joinComma [showInt t.accID, t.type, showDouble t.amount, t.message, showDouble t.balance, t.date]

/-- An account: identifier, balance and the ordered history. -/
structure Account where
  accountID : Int
  balance : Double
  transactionHistory : List TransactionHistory
deriving DecidableEq

/-- The constructor `Account()`. -/
instance : Inhabited Account := ⟨{ accountID := -1, balance := 0, transactionHistory := [] }⟩

/-- The constructor `Account(string line)`; `none` when
`assert(content.size() == 2)` fails. -/
def Account.fromLine (line : Str) : Option Account :=
  match SplitString line with
  | [c0, c1] => some { accountID := ToInt c0, balance := ToDouble c1, transactionHistory := [] }
  | _ => none

/-- The method `Account::AddTransaction`. -/
def Account.AddTransaction (a : Account) (t : TransactionHistory) : Account :=
  { a with transactionHistory := a.transactionHistory ++ [t] }

/-- The method `Account::GetTransactionHistory`: the history as lines. -/
def Account.GetTransactionHistory (a : Account) : List Str :=
  a.transactionHistory.map TransactionHistory.ToString

/-- The method `Account::ToString`. -/
def Account.ToString (a : Account) : Str := joinComma [showInt a.accountID, showDouble a.balance]

/-- The method `Account::UpdateBalance`: adds its argument to the balance. -/
def Account.UpdateBalance (a : Account) (newBalance : Double) : Account :=
  { a with balance := a.balance + newBalance }

/-- A user record. -/
structure User where
  firstName : Str
  lastName : Str
  email : Str
  userName : Str
  password : Str
  accID : Int
deriving DecidableEq

/-- The constructor `User()`. -/
instance : Inhabited User :=
  ⟨{ firstName := [], lastName := [], email := [], userName := [], password := [], accID := -1 }⟩

/-- The constructor `User(string line)`; `none` when `assert(content.size() == 6)`
fails. -/
def User.fromLine (line : Str) : Option User :=
  match SplitString line with
  | [c0, c1, c2, c3, c4, c5] =>
    some { firstName := c0, lastName := c1, email := c2, userName := c3, password := c4,
           accID := ToInt c5 }
  | _ => none

/-- The method `User::ToString`. -/
def User.ToString (u : User) : Str :=
  joinComma [u.firstName, u.lastName, u.email, u.userName, u.password, showInt u.accID]

/-! ## `std::map` -/

/-- The map operation `m.find(k)`: the value stored under `k`, if there is one. -/
def Map.find? {κ α : Type} [DecidableEq κ] (m : List (κ × α)) (k : κ) : Option α :=
  m.lookup k

/-- The map operation `m.count(k)`. -/
def Map.contains {κ α : Type} [DecidableEq κ] (m : List (κ × α)) (k : κ) : Bool :=
  (Map.find? m k).isSome

/-- The value `m[k]` reads: the stored value, or a value-initialised one. -/
def Map.get {κ α : Type} [DecidableEq κ] [Inhabited α] (m : List (κ × α)) (k : κ) : α :=
  (Map.find? m k).getD default

/-- A new key is placed before the first larger key. -/
def Map.insertOrdered {κ α : Type} [LT κ] [DecidableRel (fun a b : κ => a < b)]
    (k : κ) (v : α) : List (κ × α) → List (κ × α)
  | [] => [(k, v)]
  | e :: rest => if k < e.1 then (k, v) :: e :: rest else e :: Map.insertOrdered k v rest

/-- The map operation `m[k] = v`: the value of an existing key is replaced, a new
key is inserted at its place in the order. -/
def Map.set {κ α : Type} [DecidableEq κ] [LT κ] [DecidableRel (fun a b : κ => a < b)]
    (m : List (κ × α)) (k : κ) (v : α) : List (κ × α) :=
  if Map.contains m k then m.map (fun e => if e.1 = k then (k, v) else e)
  else Map.insertOrdered k v m

/-! ## The bank system -/

/-- The state of a `BankSystem` object. -/
structure BankSystem where
  currentUser : User
  currentAccount : Account
  userMap : List (Str × User)
  accountMap : List (Int × Account)
  lastAccountID : Int
deriving DecidableEq

/-- The constructor `BankSystem()`. -/
def BankSystem.init : BankSystem :=
  { currentUser := default, currentAccount := default, userMap := [], accountMap := [],
    lastAccountID := 0 }

/-- The loop of `LoadDatabase` over the user lines. -/
def loadUsers : List Str → List (Str × User) → Option (List (Str × User))
  | [], m => some m
  | l :: ls, m =>
    match User.fromLine l with
    | none => none
    | some user => loadUsers ls (Map.set m user.userName user)

/-- The loop of `LoadDatabase` over the account lines; it carries `lastAccountID`. -/
def loadAccounts : List Str → List (Int × Account) × Int → Option (List (Int × Account) × Int)
  | [], st => some st
  | l :: ls, st =>
    match Account.fromLine l with
    | none => none
    | some account =>
      loadAccounts ls (Map.set st.1 account.accountID account, max st.2 account.accountID)

/-- The loop of `LoadDatabase` over the history lines. -/
def loadHistory : List Str → List (Int × Account) → Option (List (Int × Account))
  | [], m => some m
  | l :: ls, m =>
    match TransactionHistory.fromLine l with
    | none => none
    | some t => loadHistory ls (Map.set m t.accID ((Map.get m t.accID).AddTransaction t))

/-- The function `LoadDatabase`, on the contents of `users.txt`, `accounts.txt` and
`history.txt`. -/
def LoadDatabase (s : BankSystem) (users accounts history : Str) : Option BankSystem :=
  match loadUsers (ReadFile users) [] with
  | none => none
  | some um =>
    match loadAccounts (ReadFile accounts) ([], s.lastAccountID) with
    | none => none
    | some am =>
      match loadHistory (ReadFile history) am.1 with
      | none => none
      | some am2 => some { s with userMap := um, accountMap := am2, lastAccountID := am.2 }

/-- The content `UpdateDatabase` writes to `users.txt`. -/
def usersFile (s : BankSystem) : Str := WriteFile (s.userMap.map (fun p => p.2.ToString))

/-- The content `UpdateDatabase` writes to `accounts.txt`. -/
def accountsFile (s : BankSystem) : Str := WriteFile (s.accountMap.map (fun p => p.2.ToString))

/-- The content `UpdateDatabase` writes to `history.txt`. -/
def historyFile (s : BankSystem) : Str :=
  WriteFile (s.accountMap.map (fun p => p.2.GetTransactionHistory)).flatten

/-- The function `UpdateDatabase`: rewrite the three files, then reload from them. -/
def UpdateDatabase (s : BankSystem) : Option BankSystem :=
  LoadDatabase s (usersFile s) (accountsFile s) (historyFile s)

/-- The first value a prompt loop accepts: values for which `retry` holds are
answered with a message and the prompt is repeated. -/
def firstAccepted {α : Type} (retry : α → Bool) : List α → Option α
  | [] => none
  | a :: rest => if retry a then firstAccepted retry rest else some a

/-- The body of `DepositMoney` after its prompt loop has accepted `amount`. -/
def depositBody (s : BankSystem) (amount : Double) (date : Str) : Option BankSystem :=
  let acc := s.currentAccount.UpdateBalance amount
  let transaction : TransactionHistory :=
    { type := "Deposit".data, message := [], amount := amount, date := date,
      accID := s.currentUser.accID, balance := acc.balance }
  let acc := acc.AddTransaction transaction
  UpdateDatabase { s with currentAccount := acc,
                          accountMap := Map.set s.accountMap acc.accountID acc }

/-- The function `DepositMoney`: `amounts` are the values entered at the prompt. -/
def DepositMoney (s : BankSystem) (amounts : List Double) (date : Str) : Option BankSystem :=
  match firstAccepted (fun amount => decide (amount > 1000000)) amounts with
  | none => none
  | some amount => depositBody s amount date

/-- The body of `WithdrawMoney` after its prompt loop has accepted `amount`. -/
def withdrawBody (s : BankSystem) (amount : Double) (date : Str) : Option BankSystem :=
  let acc := s.currentAccount.UpdateBalance (-amount)
  let transaction : TransactionHistory :=
    { type := "Withdraw".data, message := [], amount := amount, date := date,
      accID := s.currentUser.accID, balance := acc.balance }
  let acc := acc.AddTransaction transaction
  UpdateDatabase { s with currentAccount := acc,
                          accountMap := Map.set s.accountMap acc.accountID acc }

/-- The function `WithdrawMoney`: `amounts` are the values entered at the prompt. -/
def WithdrawMoney (s : BankSystem) (amounts : List Double) (date : Str) : Option BankSystem :=
  match firstAccepted (fun amount => decide (s.currentAccount.balance < amount)) amounts with
  | none => none
  | some amount => withdrawBody s amount date

/-- The in-memory updates of `TransferMoney`, before `UpdateDatabase`. -/
def transferUpdate (s : BankSystem) (amount : Double) (receiver : Str) (date : Str) : BankSystem :=
  let acc := s.currentAccount.UpdateBalance (-amount)
  let senderTransaction : TransactionHistory :=
    { type := "Transfer".data, message := " to (".data ++ receiver ++ ") ".data,
      amount := amount, date := date, accID := s.currentUser.accID, balance := acc.balance }
  let acc := acc.AddTransaction senderTransaction
  let am1 := Map.set s.accountMap acc.accountID acc
  let receiverAccountID := (Map.get s.userMap receiver).accID
  let am2 := Map.set am1 receiverAccountID ((Map.get am1 receiverAccountID).UpdateBalance amount)
  let receiverBalance := (Map.get am2 receiverAccountID).balance
  let receiverTransaction : TransactionHistory :=
    { type := "Receive".data, message := " from (".data ++ s.currentUser.userName ++ ") ".data,
      amount := amount, date := date, accID := receiverAccountID, balance := receiverBalance }
  let am3 := Map.set am2 receiverAccountID
    ((Map.get am2 receiverAccountID).AddTransaction receiverTransaction)
  { s with currentAccount := acc, accountMap := am3 }

/-- The function `TransferMoney`: `amounts` and `receivers` are the values entered
at its two prompts. -/
def TransferMoney (s : BankSystem) (amounts : List Double) (receivers : List Str) (date : Str) :
    Option BankSystem :=
  match firstAccepted (fun amount => decide (s.currentAccount.balance < amount)) amounts with
  | none => none
  | some amount =>
    match firstAccepted (fun receiver => !Map.contains s.userMap receiver) receivers with
    | none => none
    | some receiver => UpdateDatabase (transferUpdate s amount receiver date)

/-- The function `SignUp`: `userNames` and `deposits` are the values entered at its
two prompt loops; `password`, `firstName`, `lastName`, `email` are what
`User::ReadData` ends with. -/
def SignUp (s : BankSystem) (userNames : List Str) (password firstName lastName email : Str)
    (deposits : List Double) : Option BankSystem :=
  match firstAccepted (fun userName => Map.contains s.userMap userName) userNames with
  | none => none
  | some userName =>
    let lastAccountID := wrapInt (s.lastAccountID + 1)
    let currentUser : User :=
      { firstName := firstName, lastName := lastName, email := email, userName := userName,
        password := password, accID := lastAccountID }
    match firstAccepted (fun initialDeposit : Double => decide (initialDeposit < 100)) deposits with
    | none => none
    | some initialDeposit =>
      let currentAccount : Account :=
        { accountID := lastAccountID, balance := initialDeposit, transactionHistory := [] }
      UpdateDatabase
        { currentUser := currentUser, currentAccount := currentAccount,
          userMap := Map.set s.userMap userName currentUser,
          accountMap := Map.set s.accountMap currentUser.accID currentAccount,
          lastAccountID := lastAccountID }

/-- The function `Login`: `attempts` are the user name and password pairs entered. -/
def Login (s : BankSystem) : List (Str × Str) → Option BankSystem
  | [] => none
  | (userName, password) :: rest =>
    if !Map.contains s.userMap userName then Login s rest
    else if (Map.get s.userMap userName).password ≠ password then
      Login { s with currentUser := default, currentAccount := default } rest
    else
      let currentUser := Map.get s.userMap userName
      some { s with currentUser := currentUser,
                    currentAccount := Map.get s.accountMap currentUser.accID,
                    accountMap := if Map.contains s.accountMap currentUser.accID then s.accountMap
                      else Map.set s.accountMap currentUser.accID default }

/-- The function `Logout`. -/
def Logout (s : BankSystem) : BankSystem :=
  { s with currentUser := default, currentAccount := default }

/-- The function `ChangeUserName`: `newUserNames` are the values entered at the prompt. -/
def ChangeUserName (s : BankSystem) (newUserNames : List Str) : Option BankSystem :=
  match firstAccepted (fun newUserName =>
      Map.contains s.userMap newUserName || decide (s.currentUser.userName = newUserName))
      newUserNames with
  | none => none
  | some newUserName =>
    let currentUser := { s.currentUser with userName := newUserName }
    some { s with currentUser := currentUser,
                  userMap := Map.set s.userMap currentUser.userName currentUser }

/-! ## Predicates used in the statements -/

/-- Every character of the text is a decimal digit. -/
def AllDigits (ds : Str) : Prop := ∀ c ∈ ds, c.isDigit = true

/-- The characters the text of a `double` is made of. -/
def FloatChar (c : Char) : Prop := c.isDigit = true ∨ c = '.' ∨ c = 'e' ∨ c = '+' ∨ c = '-'

/-- The values of the C++ type `int`. -/
def IntOK (i : Int) : Prop := -2147483648 ≤ i ∧ i ≤ 2147483647

instance (i : Int) : Decidable (IntOK i) := by unfold IntOK; infer_instance

/-- A text field that survives the record format: no comma and no line break. -/
def Clean (s : Str) : Prop := ',' ∉ s ∧ '\n' ∉ s

instance (s : Str) : Decidable (Clean s) := by unfold Clean; infer_instance

/-- The text without the line break at its end, if it has one. -/
def chomp (s : Str) : Str :=
  match s.reverse with
  | '\n' :: r => r.reverse
  | _ => s

/-- The value a `double` has after `UpdateDatabase` has written it and read it back. -/
def reread (x : Double) : Double := ToDouble (showDouble x)

/-- A history entry with the line break at the end of its date removed. -/
def TransactionHistory.chomped (t : TransactionHistory) : TransactionHistory :=
  { t with date := chomp t.date }

/-- A history entry after it has been written and read back. -/
def TransactionHistory.reread (t : TransactionHistory) : TransactionHistory :=
  { t with amount := Bank.reread t.amount, balance := Bank.reread t.balance, date := chomp t.date }

/-- An account after it has been written and read back. -/
def Account.reread (a : Account) : Account :=
  { a with balance := Bank.reread a.balance,
           transactionHistory := a.transactionHistory.map TransactionHistory.reread }

/-- An account as `LoadDatabase` has it after the account lines, before the history
lines: the identifier, the balance as read, no entry yet. -/
def Account.header (a : Account) : Account :=
  { accountID := a.accountID, balance := Bank.reread a.balance, transactionHistory := [] }

/-- The account with further entries at the end of its history. -/
def Account.addAll (a : Account) (ts : List TransactionHistory) : Account :=
  { a with transactionHistory := a.transactionHistory ++ ts }

/-- A user record the format can hold: clean text fields, an `int` identifier. -/
def User.WF (u : User) : Prop :=
  Clean u.firstName ∧ Clean u.lastName ∧ Clean u.email ∧ Clean u.userName ∧ Clean u.password ∧
    IntOK u.accID

instance (u : User) : Decidable u.WF := by unfold User.WF; infer_instance

/-- A history entry of account `k` the format can hold; the date may end with the
line break `ctime` puts there. -/
def TransactionHistory.WF (k : Int) (t : TransactionHistory) : Prop :=
  t.accID = k ∧ Clean t.type ∧ Clean t.message ∧ Clean (chomp t.date)

instance (k : Int) (t : TransactionHistory) : Decidable (t.WF k) := by
  unfold TransactionHistory.WF; infer_instance

/-- An account stored under key `k` that the format can hold. -/
def Account.WF (k : Int) (a : Account) : Prop :=
  a.accountID = k ∧ IntOK k ∧ ∀ t ∈ a.transactionHistory, t.WF k

instance (k : Int) (a : Account) : Decidable (a.WF k) := by unfold Account.WF; infer_instance

/-- The keys of a `std::map` are strictly increasing. -/
def KeysSorted {κ α : Type} [LT κ] (m : List (κ × α)) : Prop :=
  (m.map Prod.fst).Pairwise (fun a b => a < b)

instance {κ α : Type} [LT κ] [DecidableRel (fun a b : κ => a < b)] (m : List (κ × α)) :
    Decidable (KeysSorted m) := by unfold KeysSorted; infer_instance

/-- The two maps of a store are ordered maps whose records the files can hold:
every user is stored under its user name, every account under its identifier, and
no identifier exceeds `lastAccountID`. -/
def BankSystem.WF (s : BankSystem) : Prop :=
  KeysSorted s.userMap ∧ (∀ e ∈ s.userMap, e.2.userName = e.1 ∧ e.2.WF) ∧
  KeysSorted s.accountMap ∧ (∀ e ∈ s.accountMap, e.2.WF e.1 ∧ e.1 ≤ s.lastAccountID)

instance (s : BankSystem) : Decidable s.WF := by unfold BankSystem.WF; infer_instance

/-- A session is open: the current user and the current account are records the
files can hold, the account is the user's, and its identifier has been allocated. -/
def BankSystem.Session (s : BankSystem) : Prop :=
  s.currentUser.WF ∧ s.currentAccount.WF s.currentUser.accID ∧
    s.currentUser.accID ≤ s.lastAccountID

instance (s : BankSystem) : Decidable s.Session := by unfold BankSystem.Session; infer_instance

/-- Every user's account is in `accountMap`. -/
def BankSystem.AccountsExist (s : BankSystem) : Prop :=
  ∀ e ∈ s.userMap, Map.contains s.accountMap e.2.accID = true

instance (s : BankSystem) : Decidable s.AccountsExist := by
  unfold BankSystem.AccountsExist; infer_instance

/-- The account `accountMap` holds for the current user is the session's
`currentAccount`, as it is or as it is after it has been written and read back. -/
def BankSystem.Coherent (s : BankSystem) : Prop :=
  Map.find? s.accountMap s.currentUser.accID = some s.currentAccount ∨
  Map.find? s.accountMap s.currentUser.accID = some s.currentAccount.reread

instance (s : BankSystem) : Decidable s.Coherent := by unfold BankSystem.Coherent; infer_instance

/-- No account of the store has the balance `-1.0`, the value `ToDouble` returns
for a text it cannot read (the text `inf` of a balance that has overflowed). -/
def BankSystem.readBack (s : BankSystem) : Bool :=
  s.accountMap.all (fun e => decide (e.2.balance ≠ -1))

/-- The amount of a history entry with its sign, as the operation added it to
the balance: `amount` for a deposit, `-amount` for a withdrawal. -/
def signedAmount (t : TransactionHistory) : Double :=
  if t.type = "Deposit".data then t.amount
  else if t.type = "Withdraw".data then -t.amount
  else 0

/-- The balance that results from `start` when the signed amounts of a history
are added to it one after the other, in order, each sum being a `double`. -/
def replay (start : Double) (h : List TransactionHistory) : Double :=
  h.foldl (fun b t => b + signedAmount t) start

/-- A call of one of the operations, with the input its prompts read. -/
inductive Op where
  | signUp (userNames : List Str) (password firstName lastName email : Str) (deposits : List Double)
  | deposit (amounts : List Double) (date : Str)
  | withdraw (amounts : List Double) (date : Str)
  | transfer (amounts : List Double) (receivers : List Str) (date : Str)

/-- Run one call. -/
def Op.run (s : BankSystem) : Op → Option BankSystem
  | .signUp userNames password firstName lastName email deposits =>
    SignUp s userNames password firstName lastName email deposits
  | .deposit amounts date => DepositMoney s amounts date
  | .withdraw amounts date => WithdrawMoney s amounts date
  | .transfer amounts receivers date => TransferMoney s amounts receivers date

/-- Run a sequence of calls; `none` as soon as one of them does not complete. -/
def runOps (s : BankSystem) : List Op → Option BankSystem
  | [] => some s
  | op :: ops =>
    match op.run s with
    | none => none
    | some s' => runOps s' ops

/-- The amounts entered at the prompts of a deposit or a transfer. -/
def Op.creditAmounts : Op → List Double
  | .deposit amounts _ => amounts
  | .transfer amounts _ _ => amounts
  | _ => []

/-- The amounts entered at the prompts of a call. -/
def Op.amounts : Op → List Double
  | .signUp _ _ _ _ _ deposits => deposits
  | .deposit amounts _ => amounts
  | .withdraw amounts _ => amounts
  | .transfer amounts _ _ => amounts

/-- Whether the call is a deposit or a withdrawal. -/
def Op.isDepositOrWithdraw : Op → Bool
  | .deposit _ _ => true
  | .withdraw _ _ => true
  | _ => false

/-- Whether the call is a deposit, a withdrawal or a transfer. -/
def Op.isMoneyCall : Op → Bool
  | .signUp _ _ _ _ _ _ => false
  | _ => true

/-- The timestamp of a deposit, a withdrawal or a transfer. -/
def Op.date : Op → Str
  | .deposit _ date => date
  | .withdraw _ date => date
  | .transfer _ _ date => date
  | _ => []

/-- The user names entered at the receiver prompt of a transfer. -/
def Op.receivers : Op → List Str
  | .transfer _ receivers _ => receivers
  | _ => []

/-! ## Sample data for the concrete checks -/

/-- A timestamp as `ctime` formats it, line break included. -/
def sampleDate : Str := "Sat Oct 31 03:10:00 2026\n".data

/-- A password `ValidatePassword` accepts. -/
def samplePassword : Str := "Pw1!aaaa".data

/-- The user `alice`, owner of account 2. -/
def alice : User :=
  { firstName := "Al".data, lastName := "Ice".data, email := "a@x.org".data,
    userName := "alice".data, password := samplePassword, accID := 2 }

/-- The user `bob`, owner of account 1. -/
def bob : User :=
  { firstName := "Bo".data, lastName := "B".data, email := "b@x.org".data,
    userName := "bob".data, password := samplePassword, accID := 1 }

/-- The store after `bob` signed up with the deposit `b` and `alice` with the
deposit `a`; the session of `alice` is open. -/
def twoUsers (a b : Double) : BankSystem :=
  { currentUser := alice,
    currentAccount := { accountID := 2, balance := a, transactionHistory := [] },
    userMap := [("alice".data, alice), ("bob".data, bob)],
    accountMap := [(1, { accountID := 1, balance := b, transactionHistory := [] }),
                   (2, { accountID := 2, balance := a, transactionHistory := [] })],
    lastAccountID := 2 }

/-- The in-memory store of `SignUp` for a first user `bob` with the deposit `b`,
at the point where `UpdateDatabase` is called. -/
def oneUser (b : Double) : BankSystem :=
  { currentUser := bob,
    currentAccount := { accountID := 1, balance := b, transactionHistory := [] },
    userMap := [("bob".data, bob)],
    accountMap := [(1, { accountID := 1, balance := b, transactionHistory := [] })],
    lastAccountID := 1 }

/-- The calls `bob` makes on an empty store: he signs up with the deposit 100,
deposits 50 and withdraws 30. -/
def sampleOps : List Op :=
  [Op.signUp ["bob".data] samplePassword "Bo".data "B".data "b@x.org".data [100],
   Op.deposit [50] sampleDate, Op.withdraw [30] sampleDate]

/-- The store after `sampleOps`: the entries of the session account carry the
date as `ctime` gave it, those of `accountMap` the date as read from the file. -/
def sampleAfterOps : BankSystem :=
  { currentUser := bob,
    currentAccount :=
      { accountID := 1, balance := 120,
        transactionHistory :=
          [⟨"Deposit".data, sampleDate, [], 150, 50, 1⟩,
           ⟨"Withdraw".data, sampleDate, [], 120, 30, 1⟩] },
    userMap := [("bob".data, bob)],
    accountMap :=
      [(1, { accountID := 1, balance := 120,
             transactionHistory :=
               [⟨"Deposit".data, chomp sampleDate, [], 150, 50, 1⟩,
                ⟨"Withdraw".data, chomp sampleDate, [], 120, 30, 1⟩] })],
    lastAccountID := 1 }

/-! ## Text: splitting and joining -/

theorem splitAt_ne_nil (d : Char) (s : Str) : splitAt d s ≠ [] := by
  induction s with
  | nil => simp [splitAt]
  | cons c cs ih =>
    simp only [splitAt]
    split
    · simp
    · split <;> simp

theorem splitAt_append (d : Char) (a b : Str) :
    splitAt d (a ++ d :: b) = splitAt d a ++ splitAt d b := by
  induction a with
  | nil => simp [splitAt]
  | cons c cs ih =>
    simp only [List.cons_append, splitAt]
    by_cases hc : c = d
    · simp [hc, ih]
    · simp only [hc, if_false]
      have ih2 : splitAt d (cs.append (d :: b)) = splitAt d cs ++ splitAt d b := ih
      rw [ih2]
      cases hs : splitAt d cs with
      | nil => exact absurd hs (splitAt_ne_nil d cs)
      | cons f fs => simp

theorem splitAt_clean (d : Char) (s : Str) (h : d ∉ s) : splitAt d s = [s] := by
  induction s with
  | nil => simp [splitAt]
  | cons c cs ih =>
    simp only [List.mem_cons, not_or] at h
    have hc : c ≠ d := fun e => h.1 e.symm
    simp [splitAt, hc, ih h.2]

theorem SplitString_joinComma (f : Str) (fs : List Str) (h : ∀ g ∈ f :: fs, ',' ∉ g) :
    SplitString (joinComma (f :: fs)) = f :: fs := by
  induction fs generalizing f with
  | nil =>
    simpa [joinComma, SplitString] using splitAt_clean ',' f (h f (by simp))
  | cons g gs ih =>
    have hg : ∀ x ∈ g :: gs, ',' ∉ x := fun x hx => h x (List.mem_cons_of_mem _ hx)
    have := ih g hg
    simp only [SplitString] at this ⊢
    simp only [joinComma, splitAt_append, this, splitAt_clean ',' f (h f (by simp))]
    rfl

theorem ReadFile_nil : ReadFile [] = [] := by simp [ReadFile, splitAt]

theorem ReadFile_append (a b : Str) : ReadFile (a ++ '\n' :: b) = ReadFile a ++ ReadFile b := by
  simp [ReadFile, splitAt_append]

theorem ReadFile_WriteFile (lines : List Str) :
    ReadFile (WriteFile lines) = (lines.map ReadFile).flatten := by
  induction lines with
  | nil => simp [WriteFile, ReadFile_nil]
  | cons l ls ih =>
    have : WriteFile (l :: ls) = l ++ '\n' :: WriteFile ls := by simp [WriteFile]
    rw [this, ReadFile_append, ih]; simp

theorem ReadFile_line (l : Str) (hne : l ≠ []) (h : '\n' ∉ l) : ReadFile l = [l] := by
  simp [ReadFile, splitAt_clean _ l h, hne]

theorem ReadFile_line_nl (l : Str) (hne : l ≠ []) (h : '\n' ∉ l) :
    ReadFile (l ++ ['\n']) = [l] := by
  rw [ReadFile_append, ReadFile_line l hne h, ReadFile_nil]; rfl

/-! ## Numbers as text -/

theorem digitChar_isDigit (k : Nat) (h : k < 10) : (Nat.digitChar k).isDigit = true := by
  interval_cases k <;> decide

theorem digitVal_digitChar (k : Nat) (h : k < 10) : digitVal (Nat.digitChar k) = k := by
  interval_cases k <;> decide

theorem isDigit_not_special (c : Char) (h : c.isDigit = true) :
    isSpace c = false ∧ c ≠ '-' ∧ c ≠ '+' ∧ c ≠ '.' ∧ c ≠ ',' ∧ c ≠ '\n' ∧ c ≠ 'e' ∧ c ≠ 'E' := by
  refine ⟨?_, ?_, ?_, ?_, ?_, ?_, ?_, ?_⟩
  · simp only [isSpace, Bool.or_eq_false_iff, decide_eq_false_iff_not]
    refine ⟨⟨⟨⟨⟨?_, ?_⟩, ?_⟩, ?_⟩, ?_⟩, ?_⟩ <;> (rintro rfl; exact absurd h (by decide))
  all_goals (rintro rfl; exact absurd h (by decide))

theorem natOfDigits_append (a b : Str) :
    natOfDigits (a ++ b) = natOfDigits a * 10 ^ b.length + natOfDigits b := by
  have key : ∀ (b : Str) (x : Nat),
      b.foldl (fun acc c => 10 * acc + digitVal c) x = x * 10 ^ b.length + natOfDigits b := by
    intro b
    induction b with
    | nil => intro x; simp [natOfDigits]
    | cons c cs ih =>
      intro x
      simp only [List.foldl_cons, natOfDigits, List.length_cons]
      rw [ih (10 * x + digitVal c), ih (10 * 0 + digitVal c)]
      ring
  simp only [natOfDigits, List.foldl_append]
  exact key b _

theorem toDigitsCore_append (fuel n : Nat) (ds : Str) :
    Nat.toDigitsCore 10 fuel n ds = Nat.toDigitsCore 10 fuel n [] ++ ds := by
  induction fuel generalizing n ds with
  | zero => simp [Nat.toDigitsCore]
  | succ f ih =>
    simp only [Nat.toDigitsCore]
    split
    · simp
    · rw [ih (n / 10) (_ :: ds), ih (n / 10) [_]]; simp

theorem toDigitsCore_spec (fuel n : Nat) (h : n < fuel) :
    natOfDigits (Nat.toDigitsCore 10 fuel n []) = n ∧
    AllDigits (Nat.toDigitsCore 10 fuel n []) ∧ Nat.toDigitsCore 10 fuel n [] ≠ [] := by
  induction fuel generalizing n with
  | zero => omega
  | succ f ih =>
    have hm : n % 10 < 10 := Nat.mod_lt _ (by decide)
    simp only [Nat.toDigitsCore]
    split
    · rename_i h0
      refine ⟨?_, ?_, by simp⟩
      · simp only [natOfDigits, List.foldl_cons, List.foldl_nil, digitVal_digitChar _ hm]; omega
      · intro c hc
        simp only [List.mem_singleton] at hc
        rw [hc]; exact digitChar_isDigit _ hm
    · rename_i h0
      have hlt : n / 10 < f := by omega
      obtain ⟨h1, h2, h3⟩ := ih (n / 10) hlt
      rw [toDigitsCore_append]
      refine ⟨?_, ?_, by simp [h3]⟩
      · rw [natOfDigits_append, h1]
        simp only [natOfDigits, List.foldl_cons, List.foldl_nil, digitVal_digitChar _ hm,
          List.length_singleton]
        omega
      · intro c hc
        simp only [List.mem_append, List.mem_singleton] at hc
        rcases hc with hc | hc
        · exact h2 c hc
        · rw [hc]; exact digitChar_isDigit _ hm

theorem natOfDigits_toDigits (n : Nat) : natOfDigits (Nat.toDigits 10 n) = n :=
  (toDigitsCore_spec (n + 1) n (Nat.lt_succ_self n)).1

theorem allDigits_toDigits (n : Nat) : AllDigits (Nat.toDigits 10 n) :=
  (toDigitsCore_spec (n + 1) n (Nat.lt_succ_self n)).2.1

theorem toDigits_ne_nil (n : Nat) : Nat.toDigits 10 n ≠ [] :=
  (toDigitsCore_spec (n + 1) n (Nat.lt_succ_self n)).2.2

theorem takeWhile_allDigits (ds rest : Str) (h : AllDigits ds)
    (hr : ∀ c r, rest = c :: r → c.isDigit = false) :
    (ds ++ rest).takeWhile Char.isDigit = ds ∧ (ds ++ rest).dropWhile Char.isDigit = rest := by
  induction ds with
  | nil =>
    cases rest with
    | nil => simp
    | cons c r => simp [List.takeWhile, List.dropWhile, hr c r rfl]
  | cons d ds ih =>
    have hd : d.isDigit = true := h d (by simp)
    have := ih (fun c hc => h c (List.mem_cons_of_mem _ hc))
    simp [List.takeWhile, List.dropWhile, hd, this.1, this.2]

theorem dropWhile_isSpace_digits (ds : Str) (h : AllDigits ds) :
    ds.dropWhile isSpace = ds := by
  cases ds with
  | nil => rfl
  | cons c r => simp [List.dropWhile, (isDigit_not_special c (h c (by simp))).1]

theorem readSign_digits (ds : Str) (h : AllDigits ds) : readSign ds = (false, ds) := by
  cases ds with
  | nil => rfl
  | cons c r =>
    have hc := isDigit_not_special c (h c (by simp))
    unfold readSign
    split
    · rename_i heq; exact absurd (List.cons.inj heq).1 hc.2.1
    · rename_i heq; exact absurd (List.cons.inj heq).1 hc.2.2.1
    · rfl

/-- The text of an `int` is read back as that `int`; the text of a number outside
the 32-bit range is not read. -/
theorem readInt_showInt (i : Int) : readInt (showInt i) = if IntOK i then some i else none := by
  have hd := allDigits_toDigits i.natAbs
  have hne := toDigits_ne_nil i.natAbs
  have htw : (Nat.toDigits 10 i.natAbs).takeWhile Char.isDigit = Nat.toDigits 10 i.natAbs := by
    have := (takeWhile_allDigits _ [] hd (by simp)).1
    simpa using this
  have hemp : (Nat.toDigits 10 i.natAbs).isEmpty = false := by
    cases hx : Nat.toDigits 10 i.natAbs with
    | nil => exact absurd hx hne
    | cons _ _ => rfl
  unfold IntOK
  by_cases hi : i < 0
  · have h1 : readSign (List.dropWhile isSpace ('-' :: Nat.toDigits 10 i.natAbs)) =
        (true, Nat.toDigits 10 i.natAbs) := by
      simp [List.dropWhile, show isSpace '-' = false by decide, readSign]
    simp only [readInt, showInt, hi, if_true, h1, htw, hemp, natOfDigits_toDigits]
    split_ifs <;> first | contradiction | rfl | (exfalso; omega) | (simp only [Option.some.injEq]; omega)
  · have h1 : readSign (List.dropWhile isSpace (Nat.toDigits 10 i.natAbs)) =
        (false, Nat.toDigits 10 i.natAbs) := by
      rw [dropWhile_isSpace_digits _ hd, readSign_digits _ hd]
    simp only [readInt, showInt, hi, if_false, h1, htw, hemp, natOfDigits_toDigits]
    split_ifs <;> first | contradiction | rfl | (exfalso; omega) | (simp only [Option.some.injEq]; omega)

theorem ToInt_showInt (i : Int) (h : IntOK i) : ToInt (showInt i) = i := by
  simp only [ToInt, readInt_showInt, h, if_true, Option.getD_some]

theorem wrapInt_eq (i : Int) (h : IntOK i) : wrapInt i = i := by
  unfold IntOK at h
  unfold wrapInt
  omega

theorem showInt_clean (i : Int) (c : Char) (hc : c ∈ showInt i) : c ≠ ',' ∧ c ≠ '\n' := by
  have hd := allDigits_toDigits i.natAbs
  unfold showInt at hc
  split at hc
  · simp only [List.mem_cons] at hc
    rcases hc with hc | hc
    · rw [hc]; decide
    · exact ⟨(isDigit_not_special c (hd c hc)).2.2.2.2.1, (isDigit_not_special c (hd c hc)).2.2.2.2.2.1⟩
  · exact ⟨(isDigit_not_special c (hd c hc)).2.2.2.2.1, (isDigit_not_special c (hd c hc)).2.2.2.2.2.1⟩

/-! ## The text of a `double` -/

theorem FloatChar.clean {c : Char} (h : FloatChar c) : c ≠ ',' ∧ c ≠ '\n' := by
  rcases h with h | h | h | h | h
  · exact ⟨(isDigit_not_special c h).2.2.2.2.1, (isDigit_not_special c h).2.2.2.2.2.1⟩
  all_goals (subst h; decide)

theorem allDigits_stripZeros (ds : Str) (h : AllDigits ds) : AllDigits (stripZeros ds) := by
  intro c hc
  unfold stripZeros at hc
  rw [List.mem_reverse] at hc
  exact h c (List.mem_reverse.mp ((List.dropWhile_sublist _).subset hc))

theorem allDigits_take (n : Nat) (ds : Str) (h : AllDigits ds) : AllDigits (ds.take n) :=
  fun c hc => h c (List.mem_of_mem_take hc)

theorem allDigits_drop (n : Nat) (ds : Str) (h : AllDigits ds) : AllDigits (ds.drop n) :=
  fun c hc => h c (List.mem_of_mem_drop hc)

theorem allDigits_append (a b : Str) (ha : AllDigits a) (hb : AllDigits b) : AllDigits (a ++ b) := by
  intro c hc
  rcases List.mem_append.mp hc with h | h
  · exact ha c h
  · exact hb c h

theorem allDigits_replicate (n : Nat) : AllDigits (List.replicate n '0') := by
  intro c hc
  rw [(List.mem_replicate.mp hc).2]; decide

theorem take_succ_ne_nil (n : Nat) (ds : Str) (h : ds ≠ []) : ds.take (n + 1) ≠ [] := by
  cases ds with
  | nil => exact absurd rfl h
  | cons c r => simp

theorem expText_eq (e : Int) : expText e = 'e' :: (if e < 0 then '-' else '+') :: expDigits e := rfl

theorem allDigits_expDigits (e : Int) : AllDigits (expDigits e) ∧ expDigits e ≠ [] := by
  unfold expDigits
  split
  · refine ⟨?_, by simp⟩
    intro c hc
    rcases List.mem_cons.mp hc with h | h
    · rw [h]; decide
    · exact allDigits_toDigits _ c h
  · exact ⟨allDigits_toDigits _, toDigits_ne_nil _⟩

theorem floatChar_mantText (ip fp : Str) (hip : AllDigits ip) (hfp : AllDigits fp) :
    ∀ c ∈ mantText ip fp, FloatChar c := by
  intro c hc
  unfold mantText at hc
  split at hc
  · exact Or.inl (hip c hc)
  · rcases List.mem_append.mp hc with h | h
    · exact Or.inl (hip c h)
    · rcases List.mem_cons.mp h with h | h
      · exact Or.inr (Or.inl h)
      · exact Or.inl (hfp c h)

theorem floatChar_expText (e : Int) : ∀ c ∈ expText e, FloatChar c := by
  intro c hc
  rw [expText_eq] at hc
  rcases List.mem_cons.mp hc with h | h
  · exact Or.inr (Or.inr (Or.inl h))
  · rcases List.mem_cons.mp h with h | h
    · split at h
      · exact Or.inr (Or.inr (Or.inr (Or.inr h)))
      · exact Or.inr (Or.inr (Or.inr (Or.inl h)))
    · exact Or.inl ((allDigits_expDigits e).1 c h)

/-- The shape of the text of a positive `double`: a mantissa with a non-empty
integer part, followed by nothing or by an exponent part. -/
theorem showPos_shape (p q : Nat) :
    ∃ ip fp tail, showPos p q = mantText ip fp ++ tail ∧ AllDigits ip ∧ ip ≠ [] ∧ AllDigits fp ∧
      (tail = [] ∨ ∃ e, tail = expText e) := by
  unfold showPos
  simp only []
  generalize hds : Nat.toDigits 10 (if 1000000 ≤ sixDigits p q (decExp p q) then 100000
    else sixDigits p q (decExp p q)) = ds
  have hd : AllDigits ds := hds ▸ allDigits_toDigits _
  have hne : ds ≠ [] := hds ▸ toDigits_ne_nil _
  generalize (if 1000000 ≤ sixDigits p q (decExp p q) then decExp p q + 1 else decExp p q) = e
  split
  · exact ⟨_, _, _, rfl, allDigits_take _ _ hd, take_succ_ne_nil 0 ds hne,
      allDigits_stripZeros _ (allDigits_drop _ _ hd), Or.inr ⟨e, rfl⟩⟩
  · split
    · exact ⟨_, _, [], (List.append_nil _).symm, allDigits_take _ _ hd, take_succ_ne_nil _ ds hne,
        allDigits_stripZeros _ (allDigits_drop _ _ hd), Or.inl rfl⟩
    · refine ⟨['0'], _, [], (List.append_nil _).symm, ?_, by simp,
        allDigits_append _ _ (allDigits_replicate _) (allDigits_stripZeros _ hd), Or.inl rfl⟩
      intro c hc
      rw [List.mem_singleton.mp hc]; decide

theorem floatChar_showPos (p q : Nat) : ∀ c ∈ showPos p q, FloatChar c := by
  obtain ⟨ip, fp, tail, h, hip, _, hfp, ht⟩ := showPos_shape p q
  rw [h]
  intro c hc
  rcases List.mem_append.mp hc with hc | hc
  · exact floatChar_mantText ip fp hip hfp c hc
  · rcases ht with ht | ⟨e, ht⟩
    · rw [ht] at hc; exact absurd hc (List.not_mem_nil c)
    · rw [ht] at hc; exact floatChar_expText e c hc

theorem floatChar_showFinite (x : ℚ) : ∀ c ∈ showFinite x, FloatChar c := by
  intro c hc
  unfold showFinite at hc
  split at hc
  · rw [List.mem_singleton.mp hc]; exact Or.inl (by decide)
  · split at hc
    · rcases List.mem_cons.mp hc with h | h
      · exact Or.inr (Or.inr (Or.inr (Or.inr h)))
      · exact floatChar_showPos _ _ c h
    · exact floatChar_showPos _ _ c hc

/-- The text of a `double` has no comma and no line break. -/
theorem showDouble_clean (x : Double) (c : Char) (hc : c ∈ showDouble x) :
    c ≠ ',' ∧ c ≠ '\n' := by
  cases x with
  | fin q => exact (floatChar_showFinite q c hc).clean
  | negZero =>
    simp only [showDouble, List.mem_cons, List.mem_singleton, List.not_mem_nil, or_false] at hc
    rcases hc with h | h <;> (subst h; decide)
  | inf neg =>
    cases neg <;>
      simp only [showDouble, if_true, if_false, List.mem_cons, List.mem_singleton,
        List.not_mem_nil, or_false, Bool.false_eq_true] at hc
    · rcases hc with h | h | h <;> (subst h; decide)
    · rcases hc with h | h | h | h <;> (subst h; decide)
  | nan neg =>
    cases neg <;>
      simp only [showDouble, if_true, if_false, List.mem_cons, List.mem_singleton,
        List.not_mem_nil, or_false, Bool.false_eq_true] at hc
    · rcases hc with h | h | h <;> (subst h; decide)
    · rcases hc with h | h | h | h <;> (subst h; decide)

theorem readExponent_expText (mant : ℚ) (hm : 0 ≤ mant) (e : Int) :
    ∃ v, 0 ≤ v ∧ readExponent mant (expText e) = some v := by
  obtain ⟨hd, hne⟩ := allDigits_expDigits e
  have hsign : readSign ((if e < 0 then '-' else '+') :: expDigits e) = (decide (e < 0), expDigits e) := by
    by_cases he : e < 0 <;> simp [he, readSign]
  have htw : (expDigits e).takeWhile Char.isDigit = expDigits e := by
    simpa using (takeWhile_allDigits _ [] hd (by simp)).1
  have hemp : (expDigits e).isEmpty = false := by
    cases hx : expDigits e with
    | nil => exact absurd hx hne
    | cons _ _ => rfl
  rw [expText_eq]
  simp only [readExponent, true_or, if_true, hsign, htw, hemp]
  have hp : (0 : ℚ) ≤ ((10 ^ natOfDigits (expDigits e) : Nat) : ℚ) := Nat.cast_nonneg _
  by_cases he : e < 0
  · exact ⟨_, div_nonneg hm hp, by simp [he]⟩
  · exact ⟨_, mul_nonneg hm hp, by simp [he]⟩

theorem parseFloat_mantText (ip fp tail : Str) (hip : AllDigits ip) (hne : ip ≠ [])
    (hfp : AllDigits fp) (ht : tail = [] ∨ ∃ e, tail = expText e) :
    ∃ v, 0 ≤ v ∧ parseFloat (mantText ip fp ++ tail) = some v := by
  have htail : ∀ c r, tail = c :: r → c.isDigit = false ∧ c ≠ '.' := by
    intro c r h
    rcases ht with ht | ⟨e, ht⟩
    · rw [ht] at h; exact absurd h (by simp)
    · rw [ht, expText_eq] at h
      rw [← (List.cons.inj h).1]; decide
  -- the text is the integer digits followed by a rest that does not start with a digit
  have hsplit : ∃ rest, mantText ip fp ++ tail = ip ++ rest ∧
      (∀ c r, rest = c :: r → c.isDigit = false) ∧ readFraction rest = (fp, tail) := by
    cases fp with
    | nil =>
      refine ⟨tail, by simp [mantText], fun c r h => (htail c r h).1, ?_⟩
      cases tail with
      | nil => rfl
      | cons c r =>
        have := (htail c r rfl).2
        unfold readFraction
        split
        · rename_i heq; exact absurd (List.cons.inj heq).1 this
        · rfl
    | cons d ds =>
      refine ⟨'.' :: (d :: ds) ++ tail, by simp [mantText], ?_, ?_⟩
      · intro c r h
        rw [← (List.cons.inj h).1]; decide
      · have := takeWhile_allDigits (d :: ds) tail hfp (fun c r h => (htail c r h).1)
        simp only [readFraction, List.cons_append] at this ⊢
        rw [this.1, this.2]
  obtain ⟨rest, hrest, hhead, hfr⟩ := hsplit
  have htd := takeWhile_allDigits ip rest hip hhead
  have hemp : ip.isEmpty = false := by
    cases ip with
    | nil => exact absurd rfl hne
    | cons _ _ => rfl
  have hm : (0 : ℚ) ≤ (natOfDigits (ip ++ fp) : ℚ) / ((10 ^ fp.length : Nat) : ℚ) :=
    div_nonneg (Nat.cast_nonneg _) (Nat.cast_nonneg _)
  simp only [parseFloat, hrest, htd.1, htd.2, hfr, hemp, Bool.false_and]
  rcases ht with ht | ⟨e, ht⟩
  · exact ⟨_, hm, by simp [ht, readExponent]⟩
  · rw [ht]
    obtain ⟨v, hv, h⟩ := readExponent_expText _ hm e
    exact ⟨v, hv, by simpa using h⟩

theorem parseFloat_showPos (p q : Nat) : ∃ v, 0 ≤ v ∧ parseFloat (showPos p q) = some v := by
  obtain ⟨ip, fp, tail, h, hip, hne, hfp, ht⟩ := showPos_shape p q
  rw [h]
  exact parseFloat_mantText ip fp tail hip hne hfp ht

theorem showPos_head (p q : Nat) : ∃ c r, showPos p q = c :: r ∧ c.isDigit = true := by
  obtain ⟨ip, fp, tail, h, hip, hne, _, _⟩ := showPos_shape p q
  cases ip with
  | nil => exact absurd rfl hne
  | cons c r =>
    refine ⟨c, (mantText (c :: r) fp ++ tail).tail, ?_, hip c (by simp)⟩
    rw [h]; unfold mantText; split <;> simp

theorem Double.zero_eq : (0 : Double) = Double.fin 0 := rfl

theorem Double.le_fin (a b : ℚ) : (Double.fin a ≤ Double.fin b) ↔ a ≤ b := by
  show Double.le (Double.fin a) (Double.fin b) = true ↔ a ≤ b
  simp [Double.le, Double.toRat]

theorem Double.lt_fin (a b : ℚ) : (Double.fin a < Double.fin b) ↔ a < b := by
  show Double.lt (Double.fin a) (Double.fin b) = true ↔ a < b
  simp [Double.lt, Double.toRat]

theorem scaled_pos (m : Nat) (k : Int) (h : m ≠ 0) : 0 < scaled m k := by
  unfold scaled
  split
  · exact Nat.cast_pos.mpr (Nat.mul_pos (Nat.pos_of_ne_zero h) (pow_pos (by decide) _))
  · exact div_pos (Nat.cast_pos.mpr (Nat.pos_of_ne_zero h))
      (Nat.cast_pos.mpr (pow_pos (by decide) _))

/-- Rounding with the sign `+`: zero, the infinity or a positive number. -/
theorem roundNearest_false (n d : Nat) :
    roundNearest false n d = Double.fin 0 ∨ roundNearest false n d = Double.inf false ∨
      ∃ q, 0 < q ∧ roundNearest false n d = Double.fin q := by
  unfold roundNearest
  simp only [Bool.false_eq_true, if_false]
  split_ifs with h1 h2
  · exact Or.inl rfl
  · exact Or.inr (Or.inl rfl)
  · exact Or.inr (Or.inr ⟨_, scaled_pos _ _ h1, rfl⟩)

/-- Rounding with the sign `-`: the negative zero, the negative infinity or a
negative number. -/
theorem roundNearest_true (n d : Nat) :
    roundNearest true n d = Double.negZero ∨ roundNearest true n d = Double.inf true ∨
      ∃ q, q < 0 ∧ roundNearest true n d = Double.fin q := by
  unfold roundNearest
  simp only [if_true]
  split_ifs with h1 h2
  · exact Or.inl rfl
  · exact Or.inr (Or.inl rfl)
  · exact Or.inr (Or.inr ⟨_, neg_neg_of_pos (scaled_pos _ _ h1), rfl⟩)

/-- Rounding a positive value with the sign `+` gives a number that is not negative. -/
theorem roundNearest_nonneg (n d : Nat) : (0 : Double) ≤ roundNearest false n d := by
  rw [Double.zero_eq]
  rcases roundNearest_false n d with h | h | ⟨q, hq, h⟩ <;> rw [h]
  · exact (Double.le_fin 0 0).mpr (le_refl _)
  · rfl
  · exact (Double.le_fin 0 q).mpr (le_of_lt hq)

/-- A `double` that is not negative is written as a text which, when the
extraction succeeds, is read back as a `double` that is not negative. -/
theorem readDouble_showDouble_nonneg (x y : Double) (hx : (0 : Double) ≤ x)
    (h : readDouble (showDouble x) = some y) : (0 : Double) ≤ y := by
  cases x with
  | fin q =>
    have hq : 0 ≤ q := by
      rw [Double.zero_eq] at hx
      exact (Double.le_fin 0 q).mp hx
    by_cases h0 : q = 0
    · subst h0
      have : readDouble (showDouble (Double.fin 0)) = some (Double.fin 0) := by decide!
      rw [this] at h
      simp only [Option.some.injEq] at h
      subst h
      rw [Double.zero_eq]
      exact (Double.le_fin 0 0).mpr (le_refl _)
    · have hlt : ¬ q < 0 := not_lt.mpr hq
      obtain ⟨c, r, hcr, hc⟩ := showPos_head q.num.natAbs q.den
      obtain ⟨v, hv, hp⟩ := parseFloat_showPos q.num.natAbs q.den
      have h1 : readSign (List.dropWhile isSpace (showPos q.num.natAbs q.den)) =
          (false, showPos q.num.natAbs q.den) := by
        have hs := isDigit_not_special c hc
        rw [hcr]
        simp only [List.dropWhile, hs.1]
        unfold readSign
        split
        · rename_i heq; exact absurd (List.cons.inj heq).1 hs.2.1
        · rename_i heq; exact absurd (List.cons.inj heq).1 hs.2.2.1
        · rfl
      simp only [showDouble, showFinite, h0, hlt, if_false, readDouble, h1, hp] at h
      by_cases hv0 : v = 0
      · simp only [hv0, if_true, Bool.false_eq_true, if_false, Option.some.injEq] at h
        subst h
        rw [Double.zero_eq]
        exact (Double.le_fin 0 0).mpr (le_refl _)
      · simp only [hv0, if_false] at h
        have hr := roundNearest_nonneg v.num.natAbs v.den
        generalize roundNearest false v.num.natAbs v.den = z at h hr
        cases z <;> simp only [Option.some.injEq] at h
        · subst h; exact hr
        · subst h; exact hr
        · exact absurd h (by simp)
        · subst h; exact hr
  | negZero =>
    have : readDouble (showDouble Double.negZero) = some Double.negZero := by decide!
    rw [this] at h
    simp only [Option.some.injEq] at h
    subst h
    rfl
  | inf neg =>
    cases neg
    · have : readDouble (showDouble (Double.inf false)) = none := by decide!
      rw [this] at h
      exact absurd h (by simp)
    · exact absurd hx (by decide)
  | nan neg => exact absurd hx (by cases neg <;> decide)

/-! ## The ordered map -/

section MapLemmas

variable {κ α : Type} [DecidableEq κ]

theorem lookup_cons_eq (k a : κ) (b : α) (es : List (κ × α)) :
    List.lookup k ((a, b) :: es) = if k = a then some b else List.lookup k es := by
  by_cases h : k = a
  · simp [List.lookup, h]
  · have hb : (k == a) = false := by simpa using h
    simp [List.lookup, hb, h]

theorem lookup_eq_none_iff (m : List (κ × α)) (k : κ) :
    m.lookup k = none ↔ k ∉ m.map Prod.fst := by
  induction m with
  | nil => simp
  | cons e es ih =>
    obtain ⟨a, b⟩ := e
    rw [lookup_cons_eq]
    by_cases h : k = a
    · simp [h]
    · simp only [h, if_false, ih, List.map_cons, List.mem_cons, false_or]

theorem Map.contains_iff (m : List (κ × α)) (k : κ) :
    Map.contains m k = true ↔ k ∈ m.map Prod.fst := by
  have := lookup_eq_none_iff m k
  unfold Map.contains Map.find?
  cases h : m.lookup k with
  | none => simpa using this.mp h
  | some v =>
    simp only [Option.isSome_some, true_iff]
    by_contra hn
    rw [this.mpr hn] at h
    exact absurd h (by simp)

theorem lookup_map_value (f : α → α) (m : List (κ × α)) (k : κ) :
    (m.map (fun e => (e.1, f e.2))).lookup k = (m.lookup k).map f := by
  induction m with
  | nil => rfl
  | cons e es ih =>
    obtain ⟨a, b⟩ := e
    simp only [List.map_cons, lookup_cons_eq, ih]
    split <;> rfl

theorem lookup_mem (m : List (κ × α)) (k : κ) (v : α) (h : m.lookup k = some v) : (k, v) ∈ m := by
  induction m with
  | nil => simp at h
  | cons e es ih =>
    obtain ⟨a, b⟩ := e
    rw [lookup_cons_eq] at h
    by_cases hk : k = a
    · simp only [hk, if_true, Option.some.injEq] at h
      simp [hk, h]
    · simp only [hk, if_false] at h
      exact List.mem_cons_of_mem _ (ih h)

theorem Map.find?_mem (m : List (κ × α)) (k : κ) (v : α) (h : Map.find? m k = some v) :
    (k, v) ∈ m := lookup_mem m k v h

theorem Map.find?_map_value (f : α → α) (m : List (κ × α)) (k : κ) :
    Map.find? (m.map (fun e => (e.1, f e.2))) k = (Map.find? m k).map f :=
  lookup_map_value f m k

theorem Map.get_mem [Inhabited α] (m : List (κ × α)) (k : κ)
    (h : Map.contains m k = true) : (k, Map.get m k) ∈ m := by
  unfold Map.contains at h
  unfold Map.get
  cases hl : Map.find? m k with
  | none => simp [hl] at h
  | some v => exact Map.find?_mem m k v hl

theorem Map.find?_of_contains [Inhabited α] (m : List (κ × α)) (k : κ)
    (h : Map.contains m k = true) : Map.find? m k = some (Map.get m k) := by
  unfold Map.contains at h
  unfold Map.get
  cases hl : Map.find? m k with
  | none => simp [hl] at h
  | some v => rfl

theorem Map.lookup_replace (m : List (κ × α)) (k : κ) (v : α) (k' : κ) :
    (m.map (fun e => if e.1 = k then (k, v) else e)).lookup k' =
      if k' = k then (m.lookup k).map (fun _ => v) else m.lookup k' := by
  induction m with
  | nil => simp
  | cons x xs ih =>
    obtain ⟨a, b⟩ := x
    simp only [List.map_cons]
    by_cases ha : a = k
    · subst ha
      simp only [if_true, lookup_cons_eq]
      by_cases h : k' = a
      · simp [h]
      · simp [h, ih]
    · simp only [ha, if_false, lookup_cons_eq, ih]
      by_cases h : k' = a
      · subst h
        simp [ha, Ne.symm ha]
      · by_cases h2 : k' = k
        · subst h2
          simp [Ne.symm ha]
        · simp [h, h2]

theorem Map.keys_replace (m : List (κ × α)) (k : κ) (v : α) :
    (m.map (fun e => if e.1 = k then (k, v) else e)).map Prod.fst = m.map Prod.fst := by
  induction m with
  | nil => rfl
  | cons x xs ih =>
    simp only [List.map_cons, ih]
    by_cases h : x.1 = k <;> simp [h]

variable [LT κ] [DecidableRel (fun a b : κ => a < b)]

theorem Map.mem_insertOrdered (k : κ) (v : α) (m : List (κ × α)) (e : κ × α) :
    e ∈ Map.insertOrdered k v m ↔ e = (k, v) ∨ e ∈ m := by
  induction m with
  | nil => simp [Map.insertOrdered]
  | cons x xs ih =>
    simp only [Map.insertOrdered]
    split
    · simp
    · simp only [List.mem_cons, ih]; tauto

theorem Map.mem_set (m : List (κ × α)) (k : κ) (v : α) (e : κ × α) (h : e ∈ Map.set m k v) :
    e = (k, v) ∨ (e ∈ m ∧ e.1 ≠ k) := by
  unfold Map.set at h
  split at h
  · obtain ⟨x, hx, rfl⟩ := List.mem_map.mp h
    by_cases hk : x.1 = k
    · simp [hk]
    · simp [hk, hx]
  · rename_i hc
    rcases (Map.mem_insertOrdered k v m e).mp h with h | h
    · exact Or.inl h
    · refine Or.inr ⟨h, fun hk => hc ?_⟩
      exact (Map.contains_iff m k).mpr (List.mem_map.mpr ⟨e, h, hk⟩)

theorem Map.lookup_insertOrdered (k : κ) (v : α) (m : List (κ × α)) (k' : κ)
    (hk : m.lookup k = none) :
    (Map.insertOrdered k v m).lookup k' = if k' = k then some v else m.lookup k' := by
  induction m with
  | nil => simp [Map.insertOrdered, lookup_cons_eq]
  | cons x xs ih =>
    obtain ⟨a, b⟩ := x
    rw [lookup_cons_eq] at hk
    have hka : k ≠ a := by
      intro h; simp [h] at hk
    have hxs : xs.lookup k = none := by simpa [hka] using hk
    simp only [Map.insertOrdered]
    split
    · simp only [lookup_cons_eq]
    · simp only [lookup_cons_eq, ih hxs]
      by_cases h : k' = a
      · subst h
        simp [Ne.symm hka]
      · simp [h]

theorem Map.lookup_set (m : List (κ × α)) (k : κ) (v : α) (k' : κ) :
    (Map.set m k v).lookup k' = if k' = k then some v else m.lookup k' := by
  unfold Map.set
  split
  · rename_i hc
    rw [Map.lookup_replace]
    by_cases h : k' = k
    · simp only [h, if_true]
      unfold Map.contains Map.find? at hc
      cases hl : m.lookup k with
      | none => simp [hl] at hc
      | some w => rfl
    · simp [h]
  · rename_i hc
    have : m.lookup k = none := by
      unfold Map.contains Map.find? at hc
      cases hl : m.lookup k with
      | none => rfl
      | some w => simp [hl] at hc
    exact Map.lookup_insertOrdered k v m k' this

theorem Map.find?_set (m : List (κ × α)) (k : κ) (v : α) (k' : κ) :
    Map.find? (Map.set m k v) k' = if k' = k then some v else Map.find? m k' :=
  Map.lookup_set m k v k'

theorem Map.contains_set (m : List (κ × α)) (k : κ) (v : α) (k' : κ) :
    Map.contains (Map.set m k v) k' = (decide (k' = k) || Map.contains m k') := by
  unfold Map.contains
  rw [Map.find?_set]
  by_cases h : k' = k <;> simp [h]

theorem Map.get_set (m : List (κ × α)) [Inhabited α] (k : κ) (v : α) (k' : κ) :
    Map.get (Map.set m k v) k' = if k' = k then v else Map.get m k' := by
  unfold Map.get Map.find?
  rw [Map.lookup_set]
  split <;> rfl

/-- In a map with distinct keys, assigning to a key changes that entry in place. -/
theorem Map.set_mid (A B : List (κ × α)) (k : κ) (x v : α)
    (hA : k ∉ A.map Prod.fst) :
    Map.set (A ++ (k, x) :: B) k v = A ++ (k, v) :: B.map (fun e => if e.1 = k then (k, v) else e) := by
  have hc : Map.contains (A ++ (k, x) :: B) k = true :=
    (Map.contains_iff _ k).mpr (by simp)
  simp only [Map.set, hc, if_true, List.map_append, List.map_cons]
  congr 1
  have : ∀ e ∈ A, (fun e : κ × α => if e.1 = k then (k, v) else e) e = id e := by
    intro e he
    have : e.1 ≠ k := fun h => hA (h ▸ List.mem_map.mpr ⟨e, he, rfl⟩)
    simp [this]
  rw [List.map_congr_left this, List.map_id]

variable [IsStrictTotalOrder κ (fun a b : κ => a < b)]

theorem Map.insertOrdered_sorted (k : κ) (v : α) (m : List (κ × α)) (hs : KeysSorted m)
    (hk : k ∉ m.map Prod.fst) : KeysSorted (Map.insertOrdered k v m) := by
  induction m with
  | nil => simp [Map.insertOrdered, KeysSorted]
  | cons x xs ih =>
    unfold KeysSorted at hs ⊢
    simp only [List.map_cons, List.pairwise_cons, List.mem_cons, not_or] at hs hk
    simp only [Map.insertOrdered]
    split
    · rename_i hlt
      simp only [List.map_cons, List.pairwise_cons, List.mem_cons]
      refine ⟨?_, hs.1, hs.2⟩
      rintro b (rfl | hb)
      · exact hlt
      · exact trans_of (fun a b : κ => a < b) hlt (hs.1 b hb)
    · rename_i hlt
      have hxk : x.1 < k := by
        rcases trichotomous_of (fun a b : κ => a < b) k x.1 with h | h | h
        · exact absurd h hlt
        · exact absurd h hk.1
        · exact h
      have ih' := ih hs.2 hk.2
      unfold KeysSorted at ih'
      simp only [List.map_cons, List.pairwise_cons]
      refine ⟨?_, ih'⟩
      intro b hb
      obtain ⟨e, he, rfl⟩ := List.mem_map.mp hb
      rcases (Map.mem_insertOrdered k v xs e).mp he with h | h
      · rw [h]; exact hxk
      · exact hs.1 _ (List.mem_map.mpr ⟨e, h, rfl⟩)

theorem Map.set_sorted (m : List (κ × α)) (k : κ) (v : α) (hs : KeysSorted m) :
    KeysSorted (Map.set m k v) := by
  unfold Map.set
  split
  · unfold KeysSorted
    rw [Map.keys_replace]; exact hs
  · rename_i hc
    exact Map.insertOrdered_sorted k v m hs (fun h => hc ((Map.contains_iff m k).mpr h))

/-- Assigning, in order, the entries of an ordered map to a map whose keys are all
smaller rebuilds it entry by entry. -/
theorem Map.set_last (m : List (κ × α)) (k : κ) (v : α) (h : ∀ e ∈ m, e.1 < k) :
    Map.set m k v = m ++ [(k, v)] := by
  have hc : Map.contains m k = false := by
    by_contra hc
    have := (Map.contains_iff m k).mp (by simpa using hc)
    obtain ⟨e, he, hek⟩ := List.mem_map.mp this
    exact irrefl_of (fun a b : κ => a < b) k (hek ▸ h e he)
  simp only [Map.set, hc, Bool.false_eq_true, if_false]
  induction m with
  | nil => rfl
  | cons x xs ih =>
    have hx : ¬ k < x.1 := fun hlt =>
      irrefl_of (fun a b : κ => a < b) k (trans_of (fun a b : κ => a < b) hlt (h x (by simp)))
    have hc' : Map.contains xs k = false := by
      by_contra hc'
      have := (Map.contains_iff xs k).mp (by simpa using hc')
      exact absurd ((Map.contains_iff (x :: xs) k).mpr (List.mem_cons_of_mem _ this)) (by simp [hc])
    simp only [Map.insertOrdered, hx, if_false, List.cons_append]
    rw [ih (fun e he => h e (List.mem_cons_of_mem _ he)) hc']

theorem Map.rebuild (acc l : List (κ × α)) (hs : KeysSorted (acc ++ l)) :
    l.foldl (fun m e => Map.set m e.1 e.2) acc = acc ++ l := by
  induction l generalizing acc with
  | nil => simp
  | cons x xs ih =>
    have hlast : ∀ e ∈ acc, e.1 < x.1 := by
      intro e he
      unfold KeysSorted at hs
      rw [List.map_append, List.pairwise_append] at hs
      exact hs.2.2 e.1 (List.mem_map.mpr ⟨e, he, rfl⟩) x.1 (by simp)
    simp only [List.foldl_cons]
    rw [Map.set_last acc x.1 x.2 hlast]
    have : acc ++ [(x.1, x.2)] ++ xs = acc ++ x :: xs := by simp
    rw [ih (acc ++ [(x.1, x.2)]) (by rw [this]; exact hs), this]

end MapLemmas

theorem KeysSorted.nodup {κ α : Type} [LT κ] [IsStrictTotalOrder κ (fun a b : κ => a < b)]
    {m : List (κ × α)} (hs : KeysSorted m) : (m.map Prod.fst).Nodup := by
  unfold KeysSorted at hs
  refine List.Pairwise.imp ?_ hs
  intro a b h e
  rw [e] at h
  exact irrefl_of (fun a b : κ => a < b) b h

/-! ## Records as lines -/

theorem chomp_spec (s : Str) : s = chomp s ∨ s = chomp s ++ ['\n'] := by
  unfold chomp
  split
  · rename_i r h
    right
    have := congrArg List.reverse h
    simpa using this
  · exact Or.inl rfl

theorem chomp_clean (s : Str) (h : Clean s) : chomp s = s := by
  rcases chomp_spec s with h1 | h1
  · exact h1.symm
  · exfalso
    apply h.2
    rw [h1]; simp

theorem chomp_append_nl (s : Str) : chomp (s ++ ['\n']) = s := by
  simp [chomp]

theorem mem_joinComma (fs : List Str) (c : Char) (h : c ∈ joinComma fs) :
    c = ',' ∨ ∃ f ∈ fs, c ∈ f := by
  induction fs with
  | nil => simp [joinComma] at h
  | cons f gs ih =>
    cases gs with
    | nil => exact Or.inr ⟨f, by simp, by simpa [joinComma] using h⟩
    | cons g gs =>
      simp only [joinComma, List.mem_append, List.mem_cons] at h
      rcases h with h | h | h
      · exact Or.inr ⟨f, by simp, h⟩
      · exact Or.inl h
      · rcases ih h with h | ⟨x, hx, hc⟩
        · exact Or.inl h
        · exact Or.inr ⟨x, List.mem_cons_of_mem _ hx, hc⟩

theorem joinComma_ne_nil (f g : Str) (fs : List Str) : joinComma (f :: g :: fs) ≠ [] := by
  simp [joinComma]

theorem joinComma_no_nl (fs : List Str) (h : ∀ f ∈ fs, '\n' ∉ f) : '\n' ∉ joinComma fs := by
  intro hc
  rcases mem_joinComma fs _ hc with h1 | ⟨f, hf, h1⟩
  · exact absurd h1 (by decide)
  · exact h f hf h1

theorem showInt_no_comma (i : Int) : ',' ∉ showInt i := fun h => (showInt_clean i _ h).1 rfl

theorem showInt_no_nl (i : Int) : '\n' ∉ showInt i := fun h => (showInt_clean i _ h).2 rfl

theorem showDouble_no_comma (x : Double) : ',' ∉ showDouble x := fun h => (showDouble_clean x _ h).1 rfl

theorem showDouble_no_nl (x : Double) : '\n' ∉ showDouble x := fun h => (showDouble_clean x _ h).2 rfl

/-! ### Users -/

theorem ReadFile_userLine (u : User) (h : u.WF) : ReadFile u.ToString = [u.ToString] := by
  obtain ⟨h1, h2, h3, h4, h5, _⟩ := h
  apply ReadFile_line _ (joinComma_ne_nil _ _ _)
  apply joinComma_no_nl
  intro f hf
  simp only [List.mem_cons, List.mem_singleton, List.not_mem_nil, or_false] at hf
  rcases hf with rfl | rfl | rfl | rfl | rfl | rfl
  · exact h1.2
  · exact h2.2
  · exact h3.2
  · exact h4.2
  · exact h5.2
  · exact showInt_no_nl _

theorem fromLine_userLine (u : User) (h : u.WF) : User.fromLine u.ToString = some u := by
  obtain ⟨h1, h2, h3, h4, h5, h6⟩ := h
  have hs : SplitString u.ToString =
      [u.firstName, u.lastName, u.email, u.userName, u.password, showInt u.accID] := by
    apply SplitString_joinComma
    intro f hf
    simp only [List.mem_cons, List.mem_singleton, List.not_mem_nil, or_false] at hf
    rcases hf with rfl | rfl | rfl | rfl | rfl | rfl
    · exact h1.1
    · exact h2.1
    · exact h3.1
    · exact h4.1
    · exact h5.1
    · exact showInt_no_comma _
  simp only [User.fromLine, hs, ToInt_showInt _ h6]

/-! ### Accounts -/

theorem ReadFile_accountLine (a : Account) : ReadFile a.ToString = [a.ToString] := by
  apply ReadFile_line _ (joinComma_ne_nil _ _ _)
  apply joinComma_no_nl
  intro f hf
  simp only [List.mem_cons, List.mem_singleton, List.not_mem_nil, or_false] at hf
  rcases hf with rfl | rfl
  · exact showInt_no_nl _
  · exact showDouble_no_nl _

theorem fromLine_accountLine (a : Account) :
    Account.fromLine a.ToString =
      some { a.header with accountID := ToInt (showInt a.accountID) } := by
  have hs : SplitString a.ToString = [showInt a.accountID, showDouble a.balance] := by
    apply SplitString_joinComma
    intro f hf
    simp only [List.mem_cons, List.mem_singleton, List.not_mem_nil, or_false] at hf
    rcases hf with rfl | rfl
    · exact showInt_no_comma _
    · exact showDouble_no_comma _
  simp only [Account.fromLine, hs, Bank.reread, Account.header]

/-! ### History entries -/

theorem ReadFile_entryLine (t : TransactionHistory) (k : Int) (h : t.WF k) :
    ReadFile t.ToString = [t.chomped.ToString] := by
  obtain ⟨_, h2, h3, h4⟩ := h
  have hnl : '\n' ∉ t.chomped.ToString := by
    apply joinComma_no_nl
    intro f hf
    simp only [List.mem_cons, List.mem_singleton, List.not_mem_nil, or_false] at hf
    rcases hf with rfl | rfl | rfl | rfl | rfl | rfl
    · exact showInt_no_nl _
    · exact h2.2
    · exact showDouble_no_nl _
    · exact h3.2
    · exact showDouble_no_nl _
    · exact h4.2
  rcases chomp_spec t.date with hd | hd
  · have : t.ToString = t.chomped.ToString := by
      simp only [TransactionHistory.ToString, TransactionHistory.chomped, ← hd]
    rw [this]
    exact ReadFile_line _ (joinComma_ne_nil _ _ _) hnl
  · have : t.ToString = t.chomped.ToString ++ ['\n'] := by
      simp only [TransactionHistory.ToString, TransactionHistory.chomped, joinComma,
        List.append_assoc, List.cons_append]
      rw [← hd]
    rw [this]
    exact ReadFile_line_nl _ (joinComma_ne_nil _ _ _) hnl

theorem fromLine_entryLine (t : TransactionHistory) (k : Int) (h : t.WF k)
    (hk : IntOK k) :
    TransactionHistory.fromLine (t.chomped.ToString) =
      some t.reread := by
  obtain ⟨h1, h2, h3, h4⟩ := h
  have hs : SplitString (t.chomped.ToString) =
      [showInt t.accID, t.type, showDouble t.amount, t.message, showDouble t.balance,
        chomp t.date] := by
    apply SplitString_joinComma
    intro f hf
    simp only [List.mem_cons, List.mem_singleton, List.not_mem_nil, or_false] at hf
    rcases hf with rfl | rfl | rfl | rfl | rfl | rfl
    · exact showInt_no_comma _
    · exact h2.1
    · exact showDouble_no_comma _
    · exact h3.1
    · exact showDouble_no_comma _
    · exact h4.1
  unfold TransactionHistory.fromLine
  rw [hs]
  simp only [TransactionHistory.reread, Bank.reread, ToInt_showInt _ (h1 ▸ hk)]

/-! ## Reloading what `UpdateDatabase` wrote -/

theorem flatten_map_singleton {β : Type} (xs : List β) (f g : β → Str)
    (h : ∀ x ∈ xs, ReadFile (f x) = [g x]) :
    ((xs.map f).map ReadFile).flatten = xs.map g := by
  induction xs with
  | nil => rfl
  | cons x xs ih =>
    simp only [List.map_cons, List.flatten_cons, h x (by simp)]
    rw [ih (fun y hy => h y (List.mem_cons_of_mem _ hy))]
    rfl

theorem loadUsers_ToString (m acc : List (Str × User))
    (h : ∀ e ∈ m, e.2.userName = e.1 ∧ e.2.WF) :
    loadUsers (m.map (fun p => p.2.ToString)) acc =
      some (m.foldl (fun a e => Map.set a e.1 e.2) acc) := by
  induction m generalizing acc with
  | nil => rfl
  | cons e es ih =>
    have he := h e (by simp)
    simp only [List.map_cons, loadUsers, fromLine_userLine e.2 he.2, List.foldl_cons, he.1]
    exact ih _ (fun x hx => h x (List.mem_cons_of_mem _ hx))

theorem loadAccounts_ToString (m : List (Int × Account)) (acc : List (Int × Account)) (last : Int)
    (h : ∀ e ∈ m, e.2.accountID = e.1 ∧ IntOK e.1 ∧ e.1 ≤ last) :
    loadAccounts (m.map (fun p => p.2.ToString)) (acc, last) =
      some (m.foldl (fun a e => Map.set a e.1 e.2.header) acc, last) := by
  induction m generalizing acc with
  | nil => rfl
  | cons e es ih =>
    obtain ⟨h1, h2, h3⟩ := h e (by simp)
    have hl : Account.fromLine e.2.ToString = some e.2.header := by
      rw [fromLine_accountLine, h1, ToInt_showInt _ h2]
      simp [Account.header, h1]
    have hk : e.2.header.accountID = e.1 := h1
    simp only [List.map_cons, loadAccounts, hl, List.foldl_cons, hk, max_eq_left h3]
    exact ih _ (fun x hx => h x (List.mem_cons_of_mem _ hx))

theorem Map.get_mid {α : Type} [Inhabited α] (A B : List (Int × α)) (k : Int) (x : α)
    (hA : k ∉ A.map Prod.fst) : Map.get (A ++ (k, x) :: B) k = x := by
  unfold Map.get Map.find?
  induction A with
  | nil => simp [lookup_cons_eq]
  | cons a as ih =>
    obtain ⟨a1, a2⟩ := a
    simp only [List.map_cons, List.mem_cons, not_or] at hA
    simp only [List.cons_append, lookup_cons_eq, hA.1, if_false]
    exact ih hA.2

theorem Map.set_mid_nodup {α : Type} (A B : List (Int × α)) (k : Int) (x v : α)
    (hA : k ∉ A.map Prod.fst) (hB : k ∉ B.map Prod.fst) :
    Map.set (A ++ (k, x) :: B) k v = A ++ (k, v) :: B := by
  rw [Map.set_mid A B k x v hA]
  congr 2
  have : ∀ e ∈ B, (fun e : Int × α => if e.1 = k then (k, v) else e) e = id e := by
    intro e he
    have : e.1 ≠ k := fun h => hB (h ▸ List.mem_map.mpr ⟨e, he, rfl⟩)
    simp [this]
  rw [List.map_congr_left this, List.map_id]

theorem loadHistory_account (A B : List (Int × Account)) (k : Int) (x : Account)
    (ts : List TransactionHistory) (rest : List Str)
    (hA : k ∉ A.map Prod.fst) (hB : k ∉ B.map Prod.fst) (hts : ∀ t ∈ ts, t.WF k) (hk : IntOK k) :
    loadHistory (ts.map (fun t => t.chomped.ToString) ++ rest) (A ++ (k, x) :: B) =
      loadHistory rest (A ++ (k, x.addAll (ts.map TransactionHistory.reread)) :: B) := by
  induction ts generalizing x with
  | nil => simp [Account.addAll]
  | cons t ts ih =>
    have ht := hts t (by simp)
    have hid : t.reread.accID = k := ht.1
    simp only [List.map_cons, List.cons_append, loadHistory,
      fromLine_entryLine t k ht hk, hid, Map.get_mid A B k x hA,
      Map.set_mid_nodup A B k x _ hA hB]
    have e := ih (x.AddTransaction t.reread) (fun y hy => hts y (List.mem_cons_of_mem _ hy))
    refine e.trans ?_
    simp [Account.AddTransaction, Account.addAll, List.append_assoc]

theorem loadHistory_all (A accs : List (Int × Account))
    (hnodup : ((A ++ accs).map Prod.fst).Nodup) (hwf : ∀ e ∈ accs, e.2.WF e.1) :
    loadHistory ((accs.map (fun e => e.2.transactionHistory.map
        (fun t => t.chomped.ToString))).flatten)
      (A ++ accs.map (fun e => (e.1, e.2.header))) =
      some (A ++ accs.map (fun e => (e.1, e.2.reread))) := by
  induction accs generalizing A with
  | nil => simp [loadHistory]
  | cons e es ih =>
    obtain ⟨h1, h2, h3⟩ := hwf e (by simp)
    simp only [List.map_append, List.map_cons, List.nodup_append, List.nodup_cons] at hnodup
    have hA : e.1 ∉ A.map Prod.fst := fun h => hnodup.2.2 h (by simp)
    have hB : e.1 ∉ (es.map (fun e => (e.1, e.2.header))).map Prod.fst := by
      simp only [List.map_map]
      exact hnodup.2.1.1
    simp only [List.map_cons, List.flatten_cons]
    rw [loadHistory_account A _ e.1 _ e.2.transactionHistory _ hA hB h3 h2]
    have hnodup' : ((A ++ [(e.1, e.2.reread)] ++ es).map Prod.fst).Nodup := by
      simp only [List.map_append, List.map_cons, List.map_nil, List.append_assoc,
        List.singleton_append]
      simp only [List.nodup_append, List.nodup_cons]
      exact hnodup
    have := ih (A ++ [(e.1, e.2.reread)]) hnodup' (fun x hx => hwf x (List.mem_cons_of_mem _ hx))
    simp only [List.append_assoc, List.singleton_append] at this
    rw [← this]
    simp [Account.reread, Account.header, Account.addAll]

theorem ReadFile_usersFile (s : BankSystem) (h : ∀ e ∈ s.userMap, e.2.WF) :
    ReadFile (usersFile s) = s.userMap.map (fun p => p.2.ToString) := by
  unfold usersFile
  rw [ReadFile_WriteFile]
  exact flatten_map_singleton _ _ _ (fun e he => ReadFile_userLine e.2 (h e he))

theorem ReadFile_accountsFile (s : BankSystem) :
    ReadFile (accountsFile s) = s.accountMap.map (fun p => p.2.ToString) := by
  unfold accountsFile
  rw [ReadFile_WriteFile]
  exact flatten_map_singleton _ _ _ (fun e _ => ReadFile_accountLine e.2)

theorem ReadFile_historyFile (s : BankSystem) (h : ∀ e ∈ s.accountMap, e.2.WF e.1) :
    ReadFile (historyFile s) = (s.accountMap.map (fun e => e.2.transactionHistory.map
        (fun t => t.chomped.ToString))).flatten := by
  unfold historyFile
  rw [ReadFile_WriteFile]
  have hall : ∀ t ∈ (s.accountMap.map (fun e => e.2.transactionHistory)).flatten,
      ReadFile t.ToString = [t.chomped.ToString] := by
    intro t ht
    obtain ⟨l, hl, htl⟩ := List.mem_flatten.mp ht
    obtain ⟨e, he, rfl⟩ := List.mem_map.mp hl
    exact ReadFile_entryLine t e.1 ((h e he).2.2 t htl)
  have h1 : (s.accountMap.map (fun p => p.2.GetTransactionHistory)).flatten =
      ((s.accountMap.map (fun e => e.2.transactionHistory)).flatten).map
        TransactionHistory.ToString := by
    simp only [Account.GetTransactionHistory, List.map_flatten, List.map_map, Function.comp_def]
  have h2 : (s.accountMap.map (fun e => e.2.transactionHistory.map
      (fun t => t.chomped.ToString))).flatten =
      ((s.accountMap.map (fun e => e.2.transactionHistory)).flatten).map
        (fun t => t.chomped.ToString) := by
    simp only [List.map_flatten, List.map_map, Function.comp_def]
  rw [h1, h2]
  exact flatten_map_singleton _ _ _ hall

/-- Reloading a well-formed store succeeds.  Users come back unchanged; every
account comes back with its numbers as their six-digit text reads and the dates
of its entries without the final line break. -/
theorem UpdateDatabase_eq (s : BankSystem) (h : s.WF) :
    UpdateDatabase s =
      some { s with accountMap := s.accountMap.map (fun e => (e.1, e.2.reread)) } := by
  obtain ⟨hus, huw, has, haw⟩ := h
  have h1 : loadUsers (ReadFile (usersFile s)) [] = some s.userMap := by
    rw [ReadFile_usersFile s (fun e he => (huw e he).2), loadUsers_ToString _ _ huw]
    have := Map.rebuild [] s.userMap (by simpa using hus)
    simpa using this
  have h2 : loadAccounts (ReadFile (accountsFile s)) ([], s.lastAccountID) =
      some (s.accountMap.map (fun e => (e.1, e.2.header)), s.lastAccountID) := by
    rw [ReadFile_accountsFile, loadAccounts_ToString _ _ _
      (fun e he => ⟨(haw e he).1.1, (haw e he).1.2.1, (haw e he).2⟩)]
    have hs' : KeysSorted ([] ++ s.accountMap.map (fun e => (e.1, e.2.header))) := by
      unfold KeysSorted
      simp only [List.nil_append, List.map_map]
      exact has
    have := Map.rebuild [] _ hs'
    rw [List.foldl_map] at this
    simp only [List.nil_append] at this
    rw [this]
  have h3 := loadHistory_all [] s.accountMap (by simpa using has.nodup)
    (fun e he => (haw e he).1)
  rw [← ReadFile_historyFile s (fun e he => (haw e he).1)] at h3
  simp only [List.nil_append] at h3
  simp only [UpdateDatabase, LoadDatabase, h1, h2, h3]

/-! ## What the operations do to a well-formed store -/

theorem LoadDatabase_session (s s' : BankSystem) (users accounts history : Str)
    (h : LoadDatabase s users accounts history = some s') :
    s'.currentUser = s.currentUser ∧ s'.currentAccount = s.currentAccount := by
  unfold LoadDatabase at h
  split at h
  · exact absurd h (by simp)
  · split at h
    · exact absurd h (by simp)
    · split at h
      · exact absurd h (by simp)
      · simp only [Option.some.injEq] at h
        rw [← h]; exact ⟨rfl, rfl⟩

theorem UpdateDatabase_session (s s' : BankSystem) (h : UpdateDatabase s = some s') :
    s'.currentUser = s.currentUser ∧ s'.currentAccount = s.currentAccount :=
  LoadDatabase_session s s' _ _ _ h

theorem chomp_chomp (s : Str) (h : Clean (chomp s)) : chomp (chomp s) = chomp s :=
  chomp_clean _ h

theorem WF_reread_entry {k : Int} {t : TransactionHistory} (h : t.WF k) :
    t.reread.WF k := by
  obtain ⟨h1, h2, h3, h4⟩ := h
  refine ⟨h1, h2, h3, ?_⟩
  show Clean (chomp (chomp t.date))
  rw [chomp_chomp _ h4]; exact h4

theorem WF_reread_account {k : Int} {a : Account} (h : a.WF k) : a.reread.WF k := by
  obtain ⟨h1, h2, h3⟩ := h
  refine ⟨h1, h2, ?_⟩
  intro t ht
  obtain ⟨u, hu, rfl⟩ := List.mem_map.mp ht
  exact WF_reread_entry (h3 u hu)

/-- The store with an account assigned into the map is still well formed. -/
theorem WF_setAccount {s : BankSystem} (h : s.WF) (k : Int) (a cur : Account)
    (ha : a.WF k) (hk : k ≤ s.lastAccountID) :
    BankSystem.WF { s with currentAccount := cur, accountMap := Map.set s.accountMap k a } := by
  obtain ⟨h1, h2, h3, h4⟩ := h
  refine ⟨h1, h2, Map.set_sorted _ _ _ h3, ?_⟩
  intro e he
  rcases Map.mem_set _ _ _ _ he with rfl | ⟨hm, _⟩
  · exact ⟨ha, hk⟩
  · exact h4 e hm

/-- The store after a reload is still well formed. -/
theorem WF_reread_store {s : BankSystem} (h : s.WF) :
    BankSystem.WF { s with accountMap := s.accountMap.map (fun e => (e.1, e.2.reread)) } := by
  obtain ⟨h1, h2, h3, h4⟩ := h
  refine ⟨h1, h2, ?_, ?_⟩
  · unfold KeysSorted
    simp only [List.map_map]
    exact h3
  · intro e he
    obtain ⟨x, hx, rfl⟩ := List.mem_map.mp he
    exact ⟨WF_reread_account (h4 x hx).1, (h4 x hx).2⟩

theorem WF_addEntry {k : Int} {a : Account} (h : a.WF k) (x : Double) (t : TransactionHistory)
    (ht : t.WF k) : ((a.UpdateBalance x).AddTransaction t).WF k := by
  obtain ⟨h1, h2, h3⟩ := h
  refine ⟨h1, h2, ?_⟩
  intro u hu
  simp only [Account.AddTransaction, Account.UpdateBalance, List.mem_append,
    List.mem_singleton] at hu
  rcases hu with hu | rfl
  · exact h3 u hu
  · exact ht

theorem WF_addTransaction {k : Int} {a : Account} (h : a.WF k) (t : TransactionHistory)
    (ht : t.WF k) : (a.AddTransaction t).WF k := by
  obtain ⟨h1, h2, h3⟩ := h
  refine ⟨h1, h2, ?_⟩
  intro u hu
  simp only [Account.AddTransaction, List.mem_append, List.mem_singleton] at hu
  rcases hu with hu | rfl
  · exact h3 u hu
  · exact ht

/-- The operation `DepositMoney` with an accepted amount, on a well-formed store: the session
account gets the amount and one entry, the map gets that account, and the map is
then what the files give back. -/
theorem depositBody_eq (s : BankSystem) (amount : Double) (date : Str) (h : s.WF) (hs : s.Session)
    (hd : Clean (chomp date)) :
    depositBody s amount date =
      some { s with
        currentAccount := (s.currentAccount.UpdateBalance amount).AddTransaction
          ⟨"Deposit".data, date, [], s.currentAccount.balance + amount, amount,
            s.currentUser.accID⟩,
        accountMap := (Map.set s.accountMap s.currentUser.accID
          ((s.currentAccount.UpdateBalance amount).AddTransaction
            ⟨"Deposit".data, date, [], s.currentAccount.balance + amount, amount,
              s.currentUser.accID⟩)).map (fun e => (e.1, e.2.reread)) } := by
  obtain ⟨hu, ha, hk⟩ := hs
  have hid : s.currentAccount.accountID = s.currentUser.accID := ha.1
  have hent : TransactionHistory.WF s.currentUser.accID
      ⟨"Deposit".data, date, [], s.currentAccount.balance + amount, amount,
        s.currentUser.accID⟩ :=
    ⟨rfl, (by decide : Clean "Deposit".data), (by decide : Clean []), hd⟩
  have hwf := WF_setAccount h s.currentUser.accID _
    ((s.currentAccount.UpdateBalance amount).AddTransaction
      ⟨"Deposit".data, date, [], s.currentAccount.balance + amount, amount,
        s.currentUser.accID⟩) (WF_addEntry ha amount _ hent) hk
  have := UpdateDatabase_eq _ hwf
  simp only [depositBody, Account.UpdateBalance, Account.AddTransaction, hid] at this ⊢
  exact this

/-- The operation `WithdrawMoney` with an accepted amount, on a well-formed store. -/
theorem withdrawBody_eq (s : BankSystem) (amount : Double) (date : Str) (h : s.WF) (hs : s.Session)
    (hd : Clean (chomp date)) :
    withdrawBody s amount date =
      some { s with
        currentAccount := (s.currentAccount.UpdateBalance (-amount)).AddTransaction
          ⟨"Withdraw".data, date, [], s.currentAccount.balance + -amount, amount,
            s.currentUser.accID⟩,
        accountMap := (Map.set s.accountMap s.currentUser.accID
          ((s.currentAccount.UpdateBalance (-amount)).AddTransaction
            ⟨"Withdraw".data, date, [], s.currentAccount.balance + -amount, amount,
              s.currentUser.accID⟩)).map (fun e => (e.1, e.2.reread)) } := by
  obtain ⟨hu, ha, hk⟩ := hs
  have hid : s.currentAccount.accountID = s.currentUser.accID := ha.1
  have hent : TransactionHistory.WF s.currentUser.accID
      ⟨"Withdraw".data, date, [], s.currentAccount.balance + -amount, amount,
        s.currentUser.accID⟩ :=
    ⟨rfl, (by decide : Clean "Withdraw".data), (by decide : Clean []), hd⟩
  have hwf := WF_setAccount h s.currentUser.accID _
    ((s.currentAccount.UpdateBalance (-amount)).AddTransaction
      ⟨"Withdraw".data, date, [], s.currentAccount.balance + -amount, amount,
        s.currentUser.accID⟩) (WF_addEntry ha (-amount) _ hent) hk
  have := UpdateDatabase_eq _ hwf
  simp only [withdrawBody, Account.UpdateBalance, Account.AddTransaction, hid] at this ⊢
  exact this

theorem clean_append (a b : Str) (ha : Clean a) (hb : Clean b) : Clean (a ++ b) := by
  unfold Clean at *
  simp only [List.mem_append, not_or]
  exact ⟨⟨ha.1, hb.1⟩, ⟨ha.2, hb.2⟩⟩

/-- The in-memory state `TransferMoney` builds from a well-formed store is well
formed, provided the receiver's account exists. -/
theorem transferUpdate_WF (s : BankSystem) (amount : Double) (receiver date : Str) (h : s.WF)
    (hs : s.Session) (hd : Clean (chomp date)) (hr : Map.contains s.userMap receiver = true)
    (hacc : Map.contains s.accountMap (Map.get s.userMap receiver).accID = true ∨
      (Map.get s.userMap receiver).accID = s.currentUser.accID) :
    (transferUpdate s amount receiver date).WF := by
  obtain ⟨hu, ha, hk⟩ := hs
  have hwf := h
  obtain ⟨h1, h2, h3, h4⟩ := h
  have hid : s.currentAccount.accountID = s.currentUser.accID := ha.1
  have hrec : receiver = (Map.get s.userMap receiver).userName ∧ (Map.get s.userMap receiver).WF := by
    have hm : (receiver, Map.get s.userMap receiver) ∈ s.userMap := Map.get_mem _ _ hr
    exact ⟨(h2 _ hm).1.symm, (h2 _ hm).2⟩
  have hrclean : Clean receiver := by rw [hrec.1]; exact hrec.2.2.2.2.1
  -- the sender's entry and account
  have hsend : TransactionHistory.WF s.currentUser.accID
      ⟨"Transfer".data, date, " to (".data ++ receiver ++ ") ".data,
        s.currentAccount.balance + -amount, amount, s.currentUser.accID⟩ :=
    ⟨rfl, (by decide : Clean "Transfer".data),
      clean_append _ _ (clean_append _ _ (by decide) hrclean) (by decide), hd⟩
  have hacc1 := WF_addEntry ha (-amount) _ hsend
  have hwf1 := WF_setAccount hwf s.currentUser.accID _ s.currentAccount hacc1 hk
  -- the receiver's account is in the map after the first assignment
  have hin : Map.contains (Map.set s.accountMap s.currentUser.accID
      ((s.currentAccount.UpdateBalance (-amount)).AddTransaction
        ⟨"Transfer".data, date, " to (".data ++ receiver ++ ") ".data,
          s.currentAccount.balance + -amount, amount, s.currentUser.accID⟩))
      (Map.get s.userMap receiver).accID = true := by
    rw [Map.contains_set]
    rcases hacc with hc | hc
    · simp [hc]
    · simp [hc]
  have hget := hwf1.2.2.2 _ (Map.get_mem _ _ hin)
  have hrcv : TransactionHistory.WF (Map.get s.userMap receiver).accID
      ⟨"Receive".data, date, " from (".data ++ s.currentUser.userName ++ ") ".data,
        (Map.get (Map.set (Map.set s.accountMap s.currentUser.accID
          ((s.currentAccount.UpdateBalance (-amount)).AddTransaction
            ⟨"Transfer".data, date, " to (".data ++ receiver ++ ") ".data,
              s.currentAccount.balance + -amount, amount, s.currentUser.accID⟩))
          (Map.get s.userMap receiver).accID
          ((Map.get (Map.set s.accountMap s.currentUser.accID
            ((s.currentAccount.UpdateBalance (-amount)).AddTransaction
              ⟨"Transfer".data, date, " to (".data ++ receiver ++ ") ".data,
                s.currentAccount.balance + -amount, amount, s.currentUser.accID⟩))
            (Map.get s.userMap receiver).accID).UpdateBalance amount))
          (Map.get s.userMap receiver).accID).balance,
        amount, (Map.get s.userMap receiver).accID⟩ :=
    ⟨rfl, (by decide : Clean "Receive".data),
      clean_append _ _ (clean_append _ _ (by decide) hu.2.2.2.1) (by decide), hd⟩
  have hB2 : Account.WF (Map.get s.userMap receiver).accID
      ((Map.get (Map.set s.accountMap s.currentUser.accID
        ((s.currentAccount.UpdateBalance (-amount)).AddTransaction
          ⟨"Transfer".data, date, " to (".data ++ receiver ++ ") ".data,
            s.currentAccount.balance + -amount, amount, s.currentUser.accID⟩))
        (Map.get s.userMap receiver).accID).UpdateBalance amount) := hget.1
  have hwf2 := WF_setAccount hwf1 _ _ s.currentAccount hB2 hget.2
  have hB3 := WF_addTransaction hB2 _ hrcv
  have hwf3 := WF_setAccount hwf2 _ _ ((s.currentAccount.UpdateBalance (-amount)).AddTransaction
    ⟨"Transfer".data, date, " to (".data ++ receiver ++ ") ".data,
      s.currentAccount.balance + -amount, amount, s.currentUser.accID⟩) hB3 hget.2
  simp only [transferUpdate, Account.UpdateBalance, Account.AddTransaction, hid, Map.get_set,
    if_true] at hwf3 ⊢
  exact hwf3

/-! ## What a completed operation did to the session -/

theorem firstAccepted_mem {α : Type} (retry : α → Bool) (l : List α) (a : α)
    (h : firstAccepted retry l = some a) : a ∈ l ∧ retry a = false := by
  induction l with
  | nil => simp [firstAccepted] at h
  | cons x xs ih =>
    simp only [firstAccepted] at h
    split at h
    · exact ⟨List.mem_cons_of_mem _ (ih h).1, (ih h).2⟩
    · rename_i hx
      simp only [Option.some.injEq] at h
      subst h
      exact ⟨by simp, by simpa using hx⟩

theorem DepositMoney_session (s s' : BankSystem) (amounts : List Double) (date : Str)
    (h : DepositMoney s amounts date = some s') :
    ∃ a ∈ amounts, ¬ (1000000 : Double) < a ∧ s'.currentUser = s.currentUser ∧ s'.currentAccount =
      (s.currentAccount.UpdateBalance a).AddTransaction
        ⟨"Deposit".data, date, [], s.currentAccount.balance + a, a, s.currentUser.accID⟩ := by
  unfold DepositMoney at h
  split at h
  · exact absurd h (by simp)
  · rename_i a ha
    obtain ⟨hm, hr⟩ := firstAccepted_mem _ _ _ ha
    have := UpdateDatabase_session _ _ h
    exact ⟨a, hm, by simpa using hr, this.1, this.2⟩

theorem WithdrawMoney_session (s s' : BankSystem) (amounts : List Double) (date : Str)
    (h : WithdrawMoney s amounts date = some s') :
    ∃ a ∈ amounts, ¬ s.currentAccount.balance < a ∧ s'.currentUser = s.currentUser ∧
      s'.currentAccount = (s.currentAccount.UpdateBalance (-a)).AddTransaction
        ⟨"Withdraw".data, date, [], s.currentAccount.balance + -a, a, s.currentUser.accID⟩ := by
  unfold WithdrawMoney at h
  split at h
  · exact absurd h (by simp)
  · rename_i a ha
    obtain ⟨hm, hr⟩ := firstAccepted_mem _ _ _ ha
    have := UpdateDatabase_session _ _ h
    exact ⟨a, hm, by simpa using hr, this.1, this.2⟩

theorem SignUp_session (s s0 : BankSystem) (userNames : List Str)
    (password firstName lastName email : Str) (deposits : List Double)
    (h : SignUp s userNames password firstName lastName email deposits = some s0) :
    s0.currentAccount.transactionHistory = [] ∧
      firstAccepted (fun d : Double => decide (d < 100)) deposits = some s0.currentAccount.balance := by
  unfold SignUp at h
  split at h
  · exact absurd h (by simp)
  · split at h
    · exact absurd h (by simp)
    · rename_i d hd
      have := (UpdateDatabase_session _ _ h).2
      rw [this]
      exact ⟨rfl, hd⟩

/-! ## Sums and comparisons of `double`s -/

theorem Double.add_def (x y : Double) : x + y = Double.add x y := rfl

theorem Double.neg_def (x : Double) : -x = Double.neg x := rfl

theorem Double.sub_def (x y : Double) : x - y = Double.add x (Double.neg y) := rfl

theorem Double.lt_def (x y : Double) : x < y ↔ Double.lt x y = true := Iff.rfl

theorem Double.le_def (x y : Double) : x ≤ y ↔ Double.le x y = true := Iff.rfl

/-- The sum of two finite values whose exact sum is positive is zero (when
nothing is left after rounding), the positive infinity or a positive value. -/
theorem Double.add_fin_pos (a b : ℚ) (h : 0 < a + b) :
    Double.add (Double.fin a) (Double.fin b) = Double.fin 0 ∨
    Double.add (Double.fin a) (Double.fin b) = Double.inf false ∨
    ∃ q, 0 < q ∧ Double.add (Double.fin a) (Double.fin b) = Double.fin q := by
  have h0 : a + b ≠ 0 := ne_of_gt h
  have h1 : ¬ a + b < 0 := not_lt.mpr (le_of_lt h)
  simp only [Double.add, h0, if_false, h1, decide_False]
  exact roundNearest_false _ _

theorem Double.add_fin_neg (a b : ℚ) (h : a + b < 0) :
    Double.add (Double.fin a) (Double.fin b) = Double.negZero ∨
    Double.add (Double.fin a) (Double.fin b) = Double.inf true ∨
    ∃ q, q < 0 ∧ Double.add (Double.fin a) (Double.fin b) = Double.fin q := by
  have h0 : a + b ≠ 0 := ne_of_lt h
  simp only [Double.add, h0, if_false, h, decide_True]
  exact roundNearest_true _ _

theorem Double.add_fin_zero (a b : ℚ) (h : a + b = 0) :
    Double.add (Double.fin a) (Double.fin b) = Double.fin 0 := by
  simp only [Double.add, h, if_true]

/-- Sign of a difference: what is left of `b` after an amount `a` that is not
greater than `b` has been taken off is not-a-number, the positive infinity, a
finite value that is not negative, or the negative zero (when `b` is). -/
theorem Double.sub_of_not_lt (a b : Double) (h : ¬ b < a) :
    (∃ s, b - a = Double.nan s) ∨ b - a = Double.inf false ∨
      (∃ q, 0 ≤ q ∧ b - a = Double.fin q) ∨ (b - a = Double.negZero ∧ b = Double.negZero) ∨
      (∃ s, b = Double.nan s) := by
  rw [Double.lt_def] at h
  rw [Double.sub_def]
  cases b with
  | nan s => exact Or.inr (Or.inr (Or.inr (Or.inr ⟨s, rfl⟩)))
  | inf s =>
    cases a with
    | nan t => exact Or.inl ⟨!t, by cases s <;> rfl⟩
    | inf t =>
      cases s <;> cases t <;> simp [Double.lt, Double.add, Double.neg] at h ⊢
    | negZero => cases s <;> simp [Double.lt, Double.add, Double.neg] at h ⊢
    | fin y =>
      cases s <;> simp only [Double.lt, Double.add, Double.neg] at h ⊢
      · by_cases hy : y = 0 <;> simp [hy, Double.add]
      · simp at h
  | negZero =>
    cases a with
    | nan t => exact Or.inl ⟨!t, rfl⟩
    | inf t => cases t <;> simp [Double.lt, Double.add, Double.neg] at h ⊢
    | negZero => exact Or.inr (Or.inr (Or.inl ⟨0, le_refl _, rfl⟩))
    | fin y =>
      simp only [Double.lt, Double.toRat, decide_eq_true_eq, not_lt] at h
      by_cases hy : y = 0
      · simp [hy, Double.add, Double.neg]
      · refine Or.inr (Or.inr (Or.inl ⟨-y, by linarith, ?_⟩))
        simp [hy, Double.add, Double.neg]
  | fin x =>
    cases a with
    | nan t => exact Or.inl ⟨!t, rfl⟩
    | inf t => cases t <;> simp [Double.lt, Double.add, Double.neg] at h ⊢
    | negZero =>
      simp only [Double.lt, Double.toRat, decide_eq_true_eq, not_lt] at h
      simp only [Double.neg]
      rcases eq_or_lt_of_le h with h0 | h0
      · refine Or.inr (Or.inr (Or.inl ⟨0, le_refl _, ?_⟩))
        rw [← h0]
        exact Double.add_fin_zero 0 0 (by norm_num)
      · rcases Double.add_fin_pos x 0 (by linarith) with e | e | ⟨q, hq, e⟩
        · exact Or.inr (Or.inr (Or.inl ⟨0, le_refl _, e⟩))
        · exact Or.inr (Or.inl e)
        · exact Or.inr (Or.inr (Or.inl ⟨q, le_of_lt hq, e⟩))
    | fin y =>
      simp only [Double.lt, Double.toRat, decide_eq_true_eq, not_lt] at h
      by_cases hy : y = 0
      · subst hy
        refine Or.inr (Or.inr (Or.inl ⟨x, h, ?_⟩))
        simp [Double.add, Double.neg]
      · simp only [Double.neg, hy, if_false]
        rcases eq_or_lt_of_le h with h0 | h0
        · refine Or.inr (Or.inr (Or.inl ⟨0, le_refl _, ?_⟩))
          exact Double.add_fin_zero x (-y) (by rw [h0]; ring)
        · rcases Double.add_fin_pos x (-y) (by linarith) with e | e | ⟨q, hq, e⟩
          · exact Or.inr (Or.inr (Or.inl ⟨0, le_refl _, e⟩))
          · exact Or.inr (Or.inl e)
          · exact Or.inr (Or.inr (Or.inl ⟨q, le_of_lt hq, e⟩))

/-- Sign of a difference: taking off `b` an amount `c` greater than `b` leaves
the negative infinity, a negative finite value, or the negative zero (and `b` is
then a finite value other than the negative zero). -/
theorem Double.sub_of_lt (b c : Double) (h : b < c) :
    b - c = Double.inf true ∨ (∃ q, q < 0 ∧ b - c = Double.fin q) ∨
      (b - c = Double.negZero ∧ ∃ x, b = Double.fin x) := by
  rw [Double.lt_def] at h
  rw [Double.sub_def]
  cases b with
  | nan s => simp [Double.lt] at h
  | inf s =>
    cases c with
    | nan t => simp [Double.lt] at h
    | inf t => cases s <;> cases t <;> simp [Double.lt, Double.add, Double.neg] at h ⊢
    | negZero => cases s <;> simp [Double.lt, Double.add, Double.neg] at h ⊢
    | fin z =>
      cases s <;> simp only [Double.lt, Double.add, Double.neg] at h ⊢
      · simp at h
      · by_cases hz : z = 0 <;> simp [hz, Double.add]
  | negZero =>
    cases c with
    | nan t => simp [Double.lt] at h
    | inf t => cases t <;> simp [Double.lt, Double.add, Double.neg] at h ⊢
    | negZero => simp [Double.lt, Double.toRat] at h
    | fin z =>
      simp only [Double.lt, Double.toRat, decide_eq_true_eq] at h
      have hz : z ≠ 0 := ne_of_gt h
      refine Or.inr (Or.inl ⟨-z, by linarith, ?_⟩)
      simp [hz, Double.add, Double.neg]
  | fin x =>
    cases c with
    | nan t => simp [Double.lt] at h
    | inf t => cases t <;> simp [Double.lt, Double.add, Double.neg] at h ⊢
    | negZero =>
      simp only [Double.lt, Double.toRat, decide_eq_true_eq] at h
      simp only [Double.neg]
      rcases Double.add_fin_neg x 0 (by linarith) with e | e | ⟨q, hq, e⟩
      · exact Or.inr (Or.inr ⟨e, x, rfl⟩)
      · exact Or.inl e
      · exact Or.inr (Or.inl ⟨q, hq, e⟩)
    | fin z =>
      simp only [Double.lt, Double.toRat, decide_eq_true_eq] at h
      by_cases hz : z = 0
      · subst hz
        refine Or.inr (Or.inl ⟨x, h, ?_⟩)
        simp [Double.add, Double.neg]
      · simp only [Double.neg, hz, if_false]
        rcases Double.add_fin_neg x (-z) (by linarith) with e | e | ⟨q, hq, e⟩
        · exact Or.inr (Or.inr ⟨e, x, rfl⟩)
        · exact Or.inl e
        · exact Or.inr (Or.inl ⟨q, hq, e⟩)

/-- An amount `c` greater than `b` and an amount `a` that is not greater than `b`
leave different balances. -/
theorem Double.sub_ne_sub (a b c : Double) (h1 : b < c) (h2 : ¬ b < a) : b - a ≠ b - c := by
  intro e
  have hb : ¬ ∃ s, b = Double.nan s := by
    rintro ⟨s, rfl⟩
    rw [Double.lt_def] at h1
    simp [Double.lt] at h1
  rcases Double.sub_of_lt b c h1 with r | ⟨q, hq, r⟩ | ⟨r, x, hx⟩ <;>
    rcases Double.sub_of_not_lt a b h2 with ⟨s, l⟩ | l | ⟨p, hp, l⟩ | ⟨l, lb⟩ | l <;>
    first
    | exact absurd l hb
    | (rw [hx] at lb; cases lb)
    | (rw [l, r] at e; cases e; done)
    | (rw [l, r] at e; cases e; exact absurd hq (not_lt.mpr hp))

/-- An amount that is not positive is not greater than a balance that is not
negative. -/
theorem Double.not_lt_of_nonpos (a b : Double) (ha : a ≤ 0) (hb : (0 : Double) ≤ b) : ¬ b < a := by
  rw [Double.zero_eq, Double.le_def] at ha hb
  rw [Double.lt_def]
  cases a <;> cases b <;> simp [Double.le, Double.lt, Double.toRat] at ha hb ⊢
  all_goals first | linarith | simp_all

/-- The `double`s that are not negative: the finite values from zero on, the
negative zero and the positive infinity. -/
theorem Double.nonneg_iff (x : Double) :
    (0 : Double) ≤ x ↔ (∃ q, 0 ≤ q ∧ x = Double.fin q) ∨ x = Double.negZero ∨
      x = Double.inf false := by
  rw [Double.zero_eq, Double.le_def]
  cases x with
  | fin q => simp [Double.le, Double.toRat]
  | negZero => simp [Double.le, Double.toRat]
  | inf s => cases s <;> simp [Double.le]
  | nan s => simp [Double.le]

theorem Double.fin_nonneg (q : ℚ) (h : 0 ≤ q) : (0 : Double) ≤ Double.fin q :=
  (Double.nonneg_iff _).mpr (Or.inl ⟨q, h, rfl⟩)

theorem Double.add_fin_nonneg (a b : ℚ) (h : 0 ≤ a + b) :
    (0 : Double) ≤ Double.add (Double.fin a) (Double.fin b) := by
  rcases eq_or_lt_of_le h with h0 | h0
  · rw [Double.add_fin_zero a b h0.symm]
    exact Double.fin_nonneg 0 (le_refl _)
  · rcases Double.add_fin_pos a b h0 with e | e | ⟨q, hq, e⟩ <;> rw [e]
    · exact Double.fin_nonneg 0 (le_refl _)
    · exact (Double.nonneg_iff _).mpr (Or.inr (Or.inr rfl))
    · exact Double.fin_nonneg q (le_of_lt hq)

/-- The sum of two `double`s that are not negative is not negative. -/
theorem Double.add_nonneg (x y : Double) (hx : (0 : Double) ≤ x) (hy : (0 : Double) ≤ y) :
    (0 : Double) ≤ x + y := by
  rw [Double.add_def]
  rcases (Double.nonneg_iff x).mp hx with ⟨p, hp, rfl⟩ | rfl | rfl <;>
    rcases (Double.nonneg_iff y).mp hy with ⟨q, hq, rfl⟩ | rfl | rfl
  · exact Double.add_fin_nonneg p q (by linarith)
  · exact Double.fin_nonneg p hp
  · exact (Double.nonneg_iff _).mpr (Or.inr (Or.inr rfl))
  · exact Double.fin_nonneg q hq
  · exact (Double.nonneg_iff _).mpr (Or.inr (Or.inl rfl))
  · exact (Double.nonneg_iff _).mpr (Or.inr (Or.inr rfl))
  · exact (Double.nonneg_iff _).mpr (Or.inr (Or.inr rfl))
  · exact (Double.nonneg_iff _).mpr (Or.inr (Or.inr rfl))
  · exact (Double.nonneg_iff _).mpr (Or.inr (Or.inr rfl))

/-- What is left of a balance that is not negative after a finite amount that is
not greater than it has been taken off is not negative. -/
theorem Double.sub_nonneg (a b : Double) (hb : (0 : Double) ≤ b) (h : ¬ b < a)
    (ha : a.isFinite = true) : (0 : Double) ≤ b - a := by
  rw [Double.lt_def] at h
  rw [Double.sub_def]
  rcases (Double.nonneg_iff b).mp hb with ⟨p, hp, rfl⟩ | rfl | rfl
  · cases a with
    | fin y =>
      simp only [Double.lt, Double.toRat, decide_eq_true_eq, not_lt] at h
      by_cases hy : y = 0
      · subst hy
        simp only [Double.neg, if_true, Double.add]
        exact Double.fin_nonneg p hp
      · simp only [Double.neg, hy, if_false]
        exact Double.add_fin_nonneg p (-y) (by linarith)
    | negZero =>
      simp only [Double.neg]
      exact Double.add_fin_nonneg p 0 (by linarith)
    | inf s => simp [Double.isFinite] at ha
    | nan s => simp [Double.isFinite] at ha
  · cases a with
    | fin y =>
      simp only [Double.lt, Double.toRat, decide_eq_true_eq, not_lt] at h
      by_cases hy : y = 0
      · subst hy
        simp only [Double.neg, if_true, Double.add]
        exact (Double.nonneg_iff _).mpr (Or.inr (Or.inl rfl))
      · simp only [Double.neg, hy, if_false, Double.add]
        exact Double.fin_nonneg (-y) (by linarith)
    | negZero =>
      simp only [Double.neg, Double.add]
      exact Double.fin_nonneg 0 (le_refl _)
    | inf s => simp [Double.isFinite] at ha
    | nan s => simp [Double.isFinite] at ha
  · cases a with
    | fin y =>
      by_cases hy : y = 0 <;> simp only [Double.neg, hy, if_true, if_false, Double.add] <;>
        exact (Double.nonneg_iff _).mpr (Or.inr (Or.inr rfl))
    | negZero =>
      simp only [Double.neg, Double.add]
      exact (Double.nonneg_iff _).mpr (Or.inr (Or.inr rfl))
    | inf s => simp [Double.isFinite] at ha
    | nan s => simp [Double.isFinite] at ha

/-- A finite initial deposit that `SignUp` accepts is not negative. -/
theorem Double.nonneg_of_not_lt_hundred (d : Double) (h : ¬ d < 100) (hd : d.isFinite = true) :
    (0 : Double) ≤ d := by
  have h100 : (100 : Double) = Double.fin 100 := by decide!
  rw [h100, Double.lt_def] at h
  cases d with
  | fin q =>
    simp only [Double.lt, Double.toRat, decide_eq_true_eq, not_lt] at h
    exact Double.fin_nonneg q (by linarith)
  | negZero => exact (Double.nonneg_iff _).mpr (Or.inr (Or.inl rfl))
  | inf s => simp [Double.isFinite] at hd
  | nan s => simp [Double.isFinite] at hd

/-- A balance that is not negative is read back from its text as a balance that
is not negative, or not read: `ToDouble` then gives `-1`. -/
theorem reread_nonneg (x : Double) (hx : (0 : Double) ≤ x) :
    (0 : Double) ≤ reread x ∨ reread x = -1 := by
  unfold reread ToDouble
  cases h : readDouble (showDouble x) with
  | none => exact Or.inr rfl
  | some y => exact Or.inl (readDouble_showDouble_nonneg x y hx h)

/-- Sums are rounded and can overflow: `1e16 + 1` is `1e16`, `100.1 + 0.1` is
`100.19999999999999`, and `1.5e308 + 1.5e308` is the infinity, whose text `inf`
is not read back. -/
theorem Double.add_examples :
    ToDouble "1e16".data + 1 = ToDouble "1e16".data ∧
    ToDouble "100.1".data + ToDouble "0.1".data = ToDouble "100.19999999999999".data ∧
    ToDouble "1.5e308".data + ToDouble "1.5e308".data = Double.inf false ∧
    showDouble (Double.inf false) = "inf".data ∧ reread (Double.inf false) = -1 := by
  decide!

/-! ## Deposits and withdrawals -/

/-- C7: `WithdrawMoney` rejects every amount strictly greater than the current
balance.  The amount is discarded and the prompt is repeated in the same state:
the run continues exactly as if the amount had not been entered, and with no
further input no new state is produced.  Whatever else is entered, the withdrawal
that completes never takes that amount off the balance of the session account and
never appends an entry with that amount to its history. -/
theorem C7_withdraw_rejects_overdraft (s : BankSystem) (amount : Double) (date : Str)
    (h : s.currentAccount.balance < amount) :
    (∀ rest, WithdrawMoney s (amount :: rest) date = WithdrawMoney s rest date) ∧
    WithdrawMoney s [amount] date = none ∧
    (∀ amounts s', WithdrawMoney s amounts date = some s' →
      s'.currentAccount.balance ≠ s.currentAccount.balance - amount ∧
      ∀ t ∈ s'.currentAccount.transactionHistory,
        t ∈ s.currentAccount.transactionHistory ∨ t.amount ≠ amount) := by
  have hstep : ∀ rest, WithdrawMoney s (amount :: rest) date = WithdrawMoney s rest date := by
    intro rest
    simp [WithdrawMoney, firstAccepted, h]
  refine ⟨hstep, by rw [hstep]; rfl, ?_⟩
  intro amounts s' hs'
  obtain ⟨a, _, hle, _, hacc⟩ := WithdrawMoney_session s s' amounts date hs'
  have hne : a ≠ amount := fun e => hle (e ▸ h)
  rw [hacc]
  constructor
  · exact Double.sub_ne_sub a s.currentAccount.balance amount h hle
  · intro t ht
    simp only [Account.AddTransaction, Account.UpdateBalance, List.mem_append,
      List.mem_singleton] at ht
    rcases ht with ht | rfl
    · exact Or.inl ht
    · exact Or.inr hne

/-- C7, on the sample store: 600 is more than the balance 500 of `alice`. -/
theorem C7_witness :
    (twoUsers 500 200).currentAccount.balance < 600 ∧
      ((∀ rest, WithdrawMoney (twoUsers 500 200) (600 :: rest) sampleDate =
          WithdrawMoney (twoUsers 500 200) rest sampleDate) ∧
        WithdrawMoney (twoUsers 500 200) [600] sampleDate = none ∧
        (∀ amounts s', WithdrawMoney (twoUsers 500 200) amounts sampleDate = some s' →
          s'.currentAccount.balance ≠ (twoUsers 500 200).currentAccount.balance - 600 ∧
          ∀ t ∈ s'.currentAccount.transactionHistory,
            t ∈ (twoUsers 500 200).currentAccount.transactionHistory ∨ t.amount ≠ 600)) :=
  ⟨by decide!, C7_withdraw_rejects_overdraft (twoUsers 500 200) 600 sampleDate (by decide!)⟩

/-- C5 as stated fails: a deposit of `-50` is not rejected; it takes 50 off the
balance of 500 and is recorded as a `Deposit` entry. -/
theorem C5_counterexample :
    (DepositMoney (twoUsers 500 200) [-50] sampleDate).map
        (fun s => (s.currentAccount.balance, s.currentAccount.transactionHistory.map
          (fun t => (t.type, t.amount, t.balance)), (Map.get s.accountMap 2).balance)) =
      some (450, [("Deposit".data, -50, 450)], 450) := by
  decide!

/-- C5, amended: `DepositMoney` rejects an amount (the prompt is repeated in the
same state) exactly when it is greater than 1,000,000.  Every other amount, zero
and negative amounts included, is accepted: whenever the operation completes, the
amount has been added to the balance of the session account (the sum of two
`double`s, rounded as the machine rounds it) and one `Deposit` entry with that
amount and with the new balance as resulting balance has been appended.  On a well-formed store with an open session the operation does
complete, and `accountMap` then holds that account as it is read back from the
files. -/
theorem C5_deposit (s : BankSystem) (amount : Double) (rest : List Double) (date : Str) :
    (1000000 < amount → DepositMoney s (amount :: rest) date = DepositMoney s rest date) ∧
    (¬ 1000000 < amount →
      (∀ s', DepositMoney s (amount :: rest) date = some s' →
        s'.currentAccount.balance = s.currentAccount.balance + amount ∧
        s'.currentAccount.transactionHistory = s.currentAccount.transactionHistory ++
          [⟨"Deposit".data, date, [], s.currentAccount.balance + amount, amount,
            s.currentUser.accID⟩]) ∧
      (s.WF → s.Session → Clean (chomp date) →
        ∃ s', DepositMoney s (amount :: rest) date = some s' ∧
          Map.find? s'.accountMap s.currentUser.accID = some s'.currentAccount.reread ∧
          s'.userMap = s.userMap)) := by
  constructor
  · intro hgt
    simp [DepositMoney, firstAccepted, hgt]
  · intro hle
    have hacc : firstAccepted (fun a : Double => decide (a > 1000000)) (amount :: rest) =
        some amount := by
      simp [firstAccepted, hle]
    have e' : DepositMoney s (amount :: rest) date = depositBody s amount date := by
      simp only [DepositMoney, hacc]
    constructor
    · intro s' hs'
      rw [e'] at hs'
      have := (UpdateDatabase_session _ _ hs').2
      rw [this]
      exact ⟨rfl, rfl⟩
    · intro h hs hd
      have e := depositBody_eq s amount date h hs hd
      rw [← e'] at e
      refine ⟨_, e, ?_, rfl⟩
      simp only [Map.find?_map_value, Map.find?_set, if_true, Option.map_some']

/-- C5, on the sample store: a deposit of 150 into the account of `alice`. -/
theorem C5_witness :
    ¬ (1000000 : Double) < 150 ∧ (twoUsers 500 200).WF ∧ (twoUsers 500 200).Session ∧
      Clean (chomp sampleDate) ∧
      ∃ s', DepositMoney (twoUsers 500 200) [150] sampleDate = some s' ∧
        (s'.currentAccount.balance = (twoUsers 500 200).currentAccount.balance + 150 ∧
          s'.currentAccount.transactionHistory =
            (twoUsers 500 200).currentAccount.transactionHistory ++
              [⟨"Deposit".data, sampleDate, [],
                (twoUsers 500 200).currentAccount.balance + 150, 150,
                (twoUsers 500 200).currentUser.accID⟩]) ∧
        Map.find? s'.accountMap (twoUsers 500 200).currentUser.accID =
          some s'.currentAccount.reread ∧
        s'.userMap = (twoUsers 500 200).userMap :=
  ⟨by decide!, by decide, by decide, by decide,
    match ((C5_deposit (twoUsers 500 200) 150 [] sampleDate).2 (by decide!)).2
        (by decide) (by decide) (by decide) with
    | ⟨s', hs', hm⟩ =>
      ⟨s', hs', ((C5_deposit (twoUsers 500 200) 150 [] sampleDate).2 (by decide!)).1 s' hs',
        hm⟩⟩

/-- C6 as stated fails: a withdrawal of `-50` is not rejected; it adds 50 to the
balance of 500 and is recorded as a `Withdraw` entry. -/
theorem C6_counterexample :
    (WithdrawMoney (twoUsers 500 200) [-50] sampleDate).map
        (fun s => (s.currentAccount.balance, s.currentAccount.transactionHistory.map
          (fun t => (t.type, t.amount, t.balance)), (Map.get s.accountMap 2).balance)) =
      some (550, [("Withdraw".data, -50, 550)], 550) := by
  decide!

/-- C6, amended: `WithdrawMoney` accepts every amount `≤ 0` on an account whose
balance is not negative: whenever the operation completes, the balance of the
session account has become `balance - amount` (the difference of two `double`s,
rounded as the machine rounds it) and one `Withdraw` entry with that amount and
the new balance has been appended.  On a
well-formed store with an open session the operation does complete, and
`accountMap` then holds that account as it is read back from the files. -/
theorem C6_withdraw_nonpositive (s : BankSystem) (amount : Double) (rest : List Double) (date : Str)
    (hamount : amount ≤ 0) (hbal : 0 ≤ s.currentAccount.balance) :
    (∀ s', WithdrawMoney s (amount :: rest) date = some s' →
      s'.currentAccount.balance = s.currentAccount.balance - amount ∧
      s'.currentAccount.transactionHistory = s.currentAccount.transactionHistory ++
        [⟨"Withdraw".data, date, [], s.currentAccount.balance - amount, amount,
          s.currentUser.accID⟩]) ∧
    (s.WF → s.Session → Clean (chomp date) →
      ∃ s', WithdrawMoney s (amount :: rest) date = some s' ∧
        Map.find? s'.accountMap s.currentUser.accID = some s'.currentAccount.reread) := by
  have hacc : firstAccepted (fun a : Double => decide (s.currentAccount.balance < a)) (amount :: rest) =
      some amount := by
    simp [firstAccepted, Double.not_lt_of_nonpos amount _ hamount hbal]
  have e' : WithdrawMoney s (amount :: rest) date = withdrawBody s amount date := by
    simp only [WithdrawMoney, hacc]
  constructor
  · intro s' hs'
    rw [e'] at hs'
    have := (UpdateDatabase_session _ _ hs').2
    rw [this]
    exact ⟨rfl, rfl⟩
  · intro h hs hd
    have e := withdrawBody_eq s amount date h hs hd
    rw [← e'] at e
    refine ⟨_, e, ?_⟩
    simp only [Map.find?_map_value, Map.find?_set, if_true, Option.map_some']

/-- C6, on the sample store: a withdrawal of `-50` from the account of `alice`. -/
theorem C6_witness :
    (-50 : Double) ≤ 0 ∧ 0 ≤ (twoUsers 500 200).currentAccount.balance ∧
      (twoUsers 500 200).WF ∧ (twoUsers 500 200).Session ∧ Clean (chomp sampleDate) ∧
      ∃ s', WithdrawMoney (twoUsers 500 200) [-50] sampleDate = some s' ∧
        (s'.currentAccount.balance = (twoUsers 500 200).currentAccount.balance - -50 ∧
          s'.currentAccount.transactionHistory =
            (twoUsers 500 200).currentAccount.transactionHistory ++
              [⟨"Withdraw".data, sampleDate, [],
                (twoUsers 500 200).currentAccount.balance - -50, -50,
                (twoUsers 500 200).currentUser.accID⟩]) ∧
        Map.find? s'.accountMap (twoUsers 500 200).currentUser.accID =
          some s'.currentAccount.reread :=
  ⟨by decide!, by decide!, by decide, by decide, by decide,
    match (C6_withdraw_nonpositive (twoUsers 500 200) (-50) [] sampleDate (by decide!)
        (by decide!)).2 (by decide) (by decide) (by decide) with
    | ⟨s', hs', hm⟩ =>
      ⟨s', hs', (C6_withdraw_nonpositive (twoUsers 500 200) (-50) [] sampleDate (by decide!)
        (by decide!)).1 s' hs', hm⟩⟩

/-! ## Transfers -/

/-- The operation `TransferMoney` with an accepted amount and receiver, on a well-formed store
in which the receiver's account exists: the in-memory updates are made and the
maps are then what the files give back. -/
theorem TransferMoney_eq (s : BankSystem) (amount : Double) (amounts : List Double) (receiver : Str)
    (receivers : List Str) (date : Str) (h : s.WF) (hs : s.Session) (hd : Clean (chomp date))
    (hamount : ¬ s.currentAccount.balance < amount)
    (hr : Map.contains s.userMap receiver = true)
    (hacc : Map.contains s.accountMap (Map.get s.userMap receiver).accID = true ∨
      (Map.get s.userMap receiver).accID = s.currentUser.accID) :
    TransferMoney s (amount :: amounts) (receiver :: receivers) date =
      some { transferUpdate s amount receiver date with
        accountMap := (transferUpdate s amount receiver date).accountMap.map
          (fun e => (e.1, e.2.reread)) } := by
  have h1 : firstAccepted (fun a : Double => decide (s.currentAccount.balance < a)) (amount :: amounts) =
      some amount := by
    simp [firstAccepted, hamount]
  have h2 : firstAccepted (fun r => !Map.contains s.userMap r) (receiver :: receivers) =
      some receiver := by
    simp [firstAccepted, hr]
  simp only [TransferMoney, h1, h2]
  exact UpdateDatabase_eq _ (transferUpdate_WF s amount receiver date h hs hd hr hacc)

/-- C1 fails on the code.  `alice` (balance 500) transfers 1 to `bob` (balance
1000000): her account goes to 499, but `UpdateDatabase` writes the new balance
1000001 of `bob` with six significant digits, `1e+06`, and reloads the maps from
the files, so the balance of `bob` in `accountMap` is 1000000 afterwards and the
entry on his account records the resulting balance 1000000. -/
theorem C1_transfer_credit_lost :
    (twoUsers 500 1000000).WF ∧ (twoUsers 500 1000000).Session ∧
    (Map.get (twoUsers 500 1000000).userMap "bob".data).accID ≠
      (twoUsers 500 1000000).currentUser.accID ∧
    (Map.get (twoUsers 500 1000000).accountMap 2).balance = 500 ∧
    (Map.get (twoUsers 500 1000000).accountMap 1).balance = 1000000 ∧
    (TransferMoney (twoUsers 500 1000000) [1] ["bob".data] sampleDate).map
        (fun s => ((Map.get s.accountMap 2).balance, (Map.get s.accountMap 1).balance,
          (Map.get s.accountMap 1).transactionHistory.map (fun t => (t.type, t.amount, t.balance)))) =
      some (499, 1000000, [("Receive".data, 1, 1000000)]) := by
  refine ⟨by decide, by decide, by decide, by decide!, by decide!, by decide!⟩

/-- C8 fails on the code.  `alice` (account 2) renames herself to `rob`, after the
taken name `bob` and her own name were refused: `ChangeUserName` stores her record
under `rob` and does not erase the entry `alice`, so `userMap` still contains
`alice`, has three users instead of two, and two of them share account 2. -/
theorem C8_old_name_kept :
    (twoUsers 500 200).userMap.map (fun e => (e.1, e.2.userName, e.2.accID)) =
      [("alice".data, "alice".data, 2), ("bob".data, "bob".data, 1)] ∧
    (ChangeUserName (twoUsers 500 200) ["bob".data, "alice".data, "rob".data]).map
        (fun s => (s.currentUser.userName,
          s.userMap.map (fun e => (e.1, e.2.userName, e.2.accID)))) =
      some ("rob".data, [("alice".data, "alice".data, 2), ("bob".data, "bob".data, 1),
        ("rob".data, "rob".data, 2)]) := by
  refine ⟨by decide, by decide!⟩

/-! ## The round trip through the files -/

/-- C9 fails on the code.  The store `SignUp` has in memory for a first user with
the deposit 12345.67 (the `double` read from that text) has clean text fields, but
its balance is written with six significant digits, `12345.7`, and the `double`
read from that text is the balance `LoadDatabase` gives back. -/
theorem C9_balance_not_reproduced :
    (oneUser (ToDouble "12345.67".data)).WF ∧
    (Map.get (oneUser (ToDouble "12345.67".data)).accountMap 1).balance =
      ToDouble "12345.67".data ∧
    accountsFile (oneUser (ToDouble "12345.67".data)) = "1,12345.7\n".data ∧
    (LoadDatabase (oneUser (ToDouble "12345.67".data))
        (usersFile (oneUser (ToDouble "12345.67".data)))
        (accountsFile (oneUser (ToDouble "12345.67".data)))
        (historyFile (oneUser (ToDouble "12345.67".data)))).map
        (fun s => (s.userMap.map (fun e => e.1), s.accountMap.map (fun e => (e.1, e.2.balance)))) =
      some (["bob".data], [(1, ToDouble "12345.7".data)]) ∧
    ToDouble "12345.7".data ≠ ToDouble "12345.67".data := by
  refine ⟨by decide, by decide!, by decide!, by decide!, by decide!⟩

/-! ## The history as an audit trail -/

theorem replay_append (start : Double) (h : List TransactionHistory) (t : TransactionHistory) :
    replay start (h ++ [t]) = replay start h + signedAmount t := by
  simp [replay, List.foldl_append]

/-- The balance of the session account is what the replay of its history gives
from the balance `d`, over any run of deposits and withdrawals. -/
theorem runOps_replay (ops : List Op) (s sN : BankSystem) (d : Double)
    (hops : ∀ op ∈ ops, op.isDepositOrWithdraw = true) (hN : runOps s ops = some sN)
    (hbal : s.currentAccount.balance = replay d s.currentAccount.transactionHistory)
    (hlast : ∀ t, s.currentAccount.transactionHistory.getLast? = some t →
      t.balance = s.currentAccount.balance) :
    sN.currentAccount.balance = replay d sN.currentAccount.transactionHistory ∧
      ∀ t, sN.currentAccount.transactionHistory.getLast? = some t →
        t.balance = sN.currentAccount.balance := by
  induction ops generalizing s with
  | nil =>
    simp only [runOps, Option.some.injEq] at hN
    subst hN
    exact ⟨hbal, hlast⟩
  | cons op ops ih =>
    simp only [runOps] at hN
    split at hN
    · exact absurd hN (by simp)
    · rename_i s1 h1
      have hop := hops op (by simp)
      refine ih s1 (fun o ho => hops o (List.mem_cons_of_mem _ ho)) hN ?_ ?_
      · cases op with
        | signUp => simp [Op.isDepositOrWithdraw] at hop
        | transfer => simp [Op.isDepositOrWithdraw] at hop
        | deposit amounts date =>
          obtain ⟨a, _, _, _, hacc⟩ := DepositMoney_session s s1 amounts date h1
          rw [hacc]
          simp only [Account.AddTransaction, Account.UpdateBalance, replay_append, ← hbal]
          simp [signedAmount]
        | withdraw amounts date =>
          obtain ⟨a, _, _, _, hacc⟩ := WithdrawMoney_session s s1 amounts date h1
          rw [hacc]
          simp only [Account.AddTransaction, Account.UpdateBalance, replay_append, ← hbal]
          have : signedAmount ⟨"Withdraw".data, date, [], s.currentAccount.balance + -a, a,
              s.currentUser.accID⟩ = -a := by
            simp only [signedAmount]
            rw [if_neg (by decide)]
            simp
          rw [this]
      · cases op with
        | signUp => simp [Op.isDepositOrWithdraw] at hop
        | transfer => simp [Op.isDepositOrWithdraw] at hop
        | deposit amounts date =>
          obtain ⟨a, _, _, _, hacc⟩ := DepositMoney_session s s1 amounts date h1
          rw [hacc]
          intro t ht
          simp only [Account.AddTransaction, Account.UpdateBalance,
            List.getLast?_concat, Option.some.injEq] at ht ⊢
          rw [← ht]
        | withdraw amounts date =>
          obtain ⟨a, _, _, _, hacc⟩ := WithdrawMoney_session s s1 amounts date h1
          rw [hacc]
          intro t ht
          simp only [Account.AddTransaction, Account.UpdateBalance,
            List.getLast?_concat, Option.some.injEq] at ht ⊢
          rw [← ht]

/-- C3 as stated fails: after `bob` signed up with the deposit 100 and deposited
50 his balance is 150, but the signed amounts of his history, added in order from
zero, give 50: `SignUp` records no entry for the initial deposit.  (Both for the
session account and for the account in `accountMap`.) -/
theorem C3_counterexample :
    (runOps BankSystem.init
        [Op.signUp ["bob".data] samplePassword "Bo".data "B".data "b@x.org".data [100],
         Op.deposit [50] sampleDate]).map
        (fun s => (s.currentAccount.balance, replay 0 s.currentAccount.transactionHistory,
          (Map.get s.accountMap 1).balance,
          replay 0 (Map.get s.accountMap 1).transactionHistory)) =
      some (150, 50, 150, 50) := by
  decide!

/-- C3, amended: for the account `SignUp` creates and every run of completed
deposits and withdrawals after it, the final balance of the session account is
what results from the initial deposit `SignUp` accepted when the signed amounts
of the entries of its history are added to it one after the other, in order
(each sum a `double`, rounded as the machine rounds it: these are the sums the
calls computed); and when the history has an entry, the resulting balance of the
last one is the final balance. -/
theorem C3_balance_replays_from_initial_deposit (s s0 sN : BankSystem) (userNames : List Str)
    (password firstName lastName email : Str) (deposits : List Double) (ops : List Op)
    (h0 : SignUp s userNames password firstName lastName email deposits = some s0)
    (hops : ∀ op ∈ ops, op.isDepositOrWithdraw = true) (hN : runOps s0 ops = some sN) :
    firstAccepted (fun d : Double => decide (d < 100)) deposits =
      some s0.currentAccount.balance ∧
    sN.currentAccount.balance =
      replay s0.currentAccount.balance sN.currentAccount.transactionHistory ∧
    ∀ t, sN.currentAccount.transactionHistory.getLast? = some t →
      t.balance = sN.currentAccount.balance := by
  obtain ⟨hh, hd⟩ := SignUp_session s s0 userNames password firstName lastName email deposits h0
  refine ⟨hd, ?_⟩
  apply runOps_replay ops s0 sN s0.currentAccount.balance hops hN
  · rw [hh]; rfl
  · rw [hh]; intro t ht; simp at ht

/-- C3, on a run where the sums round: `bob` signs up with 100.1 and deposits
0.1 twice; his balance is the `double` 100.29999999999998, which is what the
replay of the two entries from 100.1 gives, and not the `double` nearest to
100.3. -/
theorem C3_witness :
    SignUp BankSystem.init ["bob".data] samplePassword "Bo".data "B".data "b@x.org".data
        [ToDouble "100.1".data] = some (oneUser (ToDouble "100.1".data)) ∧
    (∀ op ∈ [Op.deposit [ToDouble "0.1".data] sampleDate,
        Op.deposit [ToDouble "0.1".data] sampleDate], op.isDepositOrWithdraw = true) ∧
    ∃ sN, runOps (oneUser (ToDouble "100.1".data))
        [Op.deposit [ToDouble "0.1".data] sampleDate,
         Op.deposit [ToDouble "0.1".data] sampleDate] = some sN ∧
      sN.currentAccount.balance = ToDouble "100.29999999999998".data ∧
      sN.currentAccount.balance ≠ ToDouble "100.3".data ∧
      sN.currentAccount.balance =
        replay (ToDouble "100.1".data) sN.currentAccount.transactionHistory ∧
      ∀ t, sN.currentAccount.transactionHistory.getLast? = some t →
        t.balance = sN.currentAccount.balance :=
  ⟨by decide!, by decide,
    match h : runOps (oneUser (ToDouble "100.1".data))
        [Op.deposit [ToDouble "0.1".data] sampleDate,
         Op.deposit [ToDouble "0.1".data] sampleDate] with
    | none => absurd h (by decide!)
    | some sN =>
      ⟨sN, rfl,
        by
          have e : (runOps (oneUser (ToDouble "100.1".data))
            [Op.deposit [ToDouble "0.1".data] sampleDate,
             Op.deposit [ToDouble "0.1".data] sampleDate]).map
              (fun s => s.currentAccount.balance) =
            some (ToDouble "100.29999999999998".data) := by decide!
          rw [h] at e
          simpa using e,
        by
          have e : (runOps (oneUser (ToDouble "100.1".data))
            [Op.deposit [ToDouble "0.1".data] sampleDate,
             Op.deposit [ToDouble "0.1".data] sampleDate]).map
              (fun s => decide (s.currentAccount.balance = ToDouble "100.3".data)) =
            some false := by decide!
          rw [h] at e
          simpa using e,
        (C3_balance_replays_from_initial_deposit BankSystem.init
          (oneUser (ToDouble "100.1".data)) sN ["bob".data] samplePassword "Bo".data "B".data
          "b@x.org".data [ToDouble "100.1".data]
          [Op.deposit [ToDouble "0.1".data] sampleDate,
           Op.deposit [ToDouble "0.1".data] sampleDate] (by decide!) (by decide) h).2⟩⟩

/-! ## Balances are not negative -/

/-- A property of the balances that the balance 0 of `Account()` has holds for
every account `operator[]` gives. -/
theorem Map.get_balance_of (P : Double → Prop) (h0 : P 0) (m : List (Int × Account)) (k : Int)
    (h : ∀ e ∈ m, P e.2.balance) : P (Map.get m k).balance := by
  by_cases hc : Map.contains m k = true
  · exact h _ (Map.get_mem m k hc)
  · have : Map.find? m k = none := by
      unfold Map.contains at hc
      cases hl : Map.find? m k with
      | none => rfl
      | some v => simp [hl] at hc
    simp only [Map.get, this, Option.getD_none]
    exact h0

theorem Map.set_balance_of (P : Double → Prop) (m : List (Int × Account)) (k : Int)
    (v : Account) (h : ∀ e ∈ m, P e.2.balance) (hv : P v.balance) :
    ∀ e ∈ Map.set m k v, P e.2.balance := by
  intro e he
  rcases Map.mem_set _ _ _ _ he with rfl | ⟨hm, _⟩
  · exact hv
  · exact h e hm

theorem loadAccounts_balance_of (P : Double → Prop) (lines : List Str)
    (st st' : List (Int × Account) × Int) (h : loadAccounts lines st = some st')
    (hl : ∀ l ∈ lines, ∀ a, Account.fromLine l = some a → P a.balance)
    (hst : ∀ e ∈ st.1, P e.2.balance) : ∀ e ∈ st'.1, P e.2.balance := by
  induction lines generalizing st with
  | nil =>
    simp only [loadAccounts, Option.some.injEq] at h
    subst h; exact hst
  | cons l ls ih =>
    simp only [loadAccounts] at h
    split at h
    · exact absurd h (by simp)
    · rename_i a ha
      exact ih _ h (fun x hx => hl x (List.mem_cons_of_mem _ hx))
        (Map.set_balance_of P _ _ _ hst (hl l (by simp) a ha))

theorem loadHistory_balance_of (P : Double → Prop) (h0 : P 0) (lines : List Str)
    (m m' : List (Int × Account)) (h : loadHistory lines m = some m')
    (hm : ∀ e ∈ m, P e.2.balance) : ∀ e ∈ m', P e.2.balance := by
  induction lines generalizing m with
  | nil =>
    simp only [loadHistory, Option.some.injEq] at h
    subst h; exact hm
  | cons l ls ih =>
    simp only [loadHistory] at h
    split at h
    · exact absurd h (by simp)
    · rename_i t ht
      exact ih _ h (Map.set_balance_of P _ _ _ hm (Map.get_balance_of P h0 m t.accID hm))

/-- After the reload every balance is the balance written, read back: a balance
that was not negative is not negative, or it was not read and is `-1`. -/
theorem UpdateDatabase_nonneg (s s' : BankSystem) (h : UpdateDatabase s = some s')
    (hm : ∀ e ∈ s.accountMap, (0 : Double) ≤ e.2.balance) :
    ∀ e ∈ s'.accountMap, (0 : Double) ≤ e.2.balance ∨ e.2.balance = -1 := by
  unfold UpdateDatabase LoadDatabase at h
  split at h
  · exact absurd h (by simp)
  · split at h
    · exact absurd h (by simp)
    · rename_i am ham
      split at h
      · exact absurd h (by simp)
      · rename_i am2 ham2
        simp only [Option.some.injEq] at h
        subst h
        apply loadHistory_balance_of (fun b => (0 : Double) ≤ b ∨ b = -1) (Or.inl (by decide))
          _ _ _ ham2
        apply loadAccounts_balance_of (fun b => (0 : Double) ≤ b ∨ b = -1) _ _ _ ham
        · rw [ReadFile_accountsFile]
          intro l hl a ha
          obtain ⟨e, he, rfl⟩ := List.mem_map.mp hl
          rw [fromLine_accountLine] at ha
          simp only [Option.some.injEq] at ha
          rw [← ha]
          exact reread_nonneg e.2.balance (hm e he)
        · intro e he
          exact absurd he (List.not_mem_nil e)

/-- When no balance of the reloaded store is the `-1` of a failed read, the
balances that were not negative are not negative. -/
theorem UpdateDatabase_nonneg_read (s s' : BankSystem) (h : UpdateDatabase s = some s')
    (hm : ∀ e ∈ s.accountMap, (0 : Double) ≤ e.2.balance) (hread : s'.readBack = true) :
    ∀ e ∈ s'.accountMap, (0 : Double) ≤ e.2.balance := by
  intro e he
  rcases UpdateDatabase_nonneg s s' h hm e he with h1 | h1
  · exact h1
  · have := List.all_eq_true.mp hread e he
    simp only [decide_eq_true_eq] at this
    exact absurd h1 this

/-- One call keeps the balances non-negative when the amounts entered are finite,
those entered at a deposit or transfer prompt are not negative, and the reload
reads every balance back. -/
theorem Op.run_nonneg (op : Op) (s s' : BankSystem) (h : op.run s = some s')
    (hfinite : ∀ a ∈ op.amounts, a.isFinite = true)
    (hamounts : ∀ a ∈ op.creditAmounts, (0 : Double) ≤ a)
    (hcur : (0 : Double) ≤ s.currentAccount.balance)
    (hm : ∀ e ∈ s.accountMap, (0 : Double) ≤ e.2.balance) (hread : s'.readBack = true) :
    (0 : Double) ≤ s'.currentAccount.balance ∧
      ∀ e ∈ s'.accountMap, (0 : Double) ≤ e.2.balance := by
  cases op with
  | signUp userNames password firstName lastName email deposits =>
    simp only [Op.run, SignUp] at h
    split at h
    · exact absurd h (by simp)
    · split at h
      · exact absurd h (by simp)
      · rename_i d hd
        have hd0 : (0 : Double) ≤ d := by
          obtain ⟨hmem, hacc⟩ := firstAccepted_mem _ _ _ hd
          simp only [decide_eq_false_iff_not] at hacc
          exact Double.nonneg_of_not_lt_hundred d hacc (hfinite d hmem)
        refine ⟨?_, UpdateDatabase_nonneg_read _ _ h
          (Map.set_balance_of _ _ _ _ hm hd0) hread⟩
        rw [(UpdateDatabase_session _ _ h).2]
        exact hd0
  | deposit amounts date =>
    simp only [Op.run, DepositMoney] at h
    split at h
    · exact absurd h (by simp)
    · rename_i a ha
      have ha0 : (0 : Double) ≤ a := hamounts a (firstAccepted_mem _ _ _ ha).1
      have hb : (0 : Double) ≤ s.currentAccount.balance + a := Double.add_nonneg _ _ hcur ha0
      refine ⟨?_, UpdateDatabase_nonneg_read _ _ h
        (Map.set_balance_of _ _ _ _ hm hb) hread⟩
      rw [(UpdateDatabase_session _ _ h).2]
      exact hb
  | withdraw amounts date =>
    simp only [Op.run, WithdrawMoney] at h
    split at h
    · exact absurd h (by simp)
    · rename_i a ha
      obtain ⟨hmem, hacc⟩ := firstAccepted_mem _ _ _ ha
      simp only [decide_eq_false_iff_not] at hacc
      have hb : (0 : Double) ≤ s.currentAccount.balance + -a :=
        Double.sub_nonneg a _ hcur hacc (hfinite a hmem)
      refine ⟨?_, UpdateDatabase_nonneg_read _ _ h
        (Map.set_balance_of _ _ _ _ hm hb) hread⟩
      rw [(UpdateDatabase_session _ _ h).2]
      exact hb
  | transfer amounts receivers date =>
    simp only [Op.run, TransferMoney] at h
    split at h
    · exact absurd h (by simp)
    · rename_i a ha
      split at h
      · exact absurd h (by simp)
      · rename_i r hr
        obtain ⟨hmem, hacc⟩ := firstAccepted_mem _ _ _ ha
        simp only [decide_eq_false_iff_not] at hacc
        have ha0 : (0 : Double) ≤ a := hamounts a hmem
        have hb : (0 : Double) ≤ s.currentAccount.balance + -a :=
          Double.sub_nonneg a _ hcur hacc (hfinite a hmem)
        have h1 := Map.set_balance_of (fun b => (0 : Double) ≤ b) s.accountMap
          s.currentAccount.accountID
          ((s.currentAccount.UpdateBalance (-a)).AddTransaction
            ⟨"Transfer".data, date, " to (".data ++ r ++ ") ".data,
              s.currentAccount.balance + -a, a, s.currentUser.accID⟩) hm hb
        have h2 := Map.set_balance_of (fun b => (0 : Double) ≤ b) _ (Map.get s.userMap r).accID
          ((Map.get (Map.set s.accountMap s.currentAccount.accountID
            ((s.currentAccount.UpdateBalance (-a)).AddTransaction
              ⟨"Transfer".data, date, " to (".data ++ r ++ ") ".data,
                s.currentAccount.balance + -a, a, s.currentUser.accID⟩))
            (Map.get s.userMap r).accID).UpdateBalance a) h1
          (Double.add_nonneg _ _
            (Map.get_balance_of (fun b => (0 : Double) ≤ b) (by decide) _ _ h1) ha0)
        refine ⟨?_, UpdateDatabase_nonneg_read _ _ h ?_ hread⟩
        · rw [(UpdateDatabase_session _ _ h).2]
          exact hb
        · simp only [transferUpdate]
          apply Map.set_balance_of (fun b => (0 : Double) ≤ b) _ _ _ h2
          exact Map.get_balance_of (fun b => (0 : Double) ≤ b) (by decide) _ _ h2

theorem runOps_nonneg (ops : List Op) (s s' : BankSystem) (h : runOps s ops = some s')
    (hfinite : ∀ op ∈ ops, ∀ a ∈ op.amounts, a.isFinite = true)
    (hamounts : ∀ op ∈ ops, ∀ a ∈ op.creditAmounts, (0 : Double) ≤ a)
    (hread : ∀ pre ∈ ops.inits, ∀ t, runOps s pre = some t → t.readBack = true)
    (hcur : (0 : Double) ≤ s.currentAccount.balance)
    (hm : ∀ e ∈ s.accountMap, (0 : Double) ≤ e.2.balance) :
    (0 : Double) ≤ s'.currentAccount.balance ∧
      ∀ e ∈ s'.accountMap, (0 : Double) ≤ e.2.balance := by
  induction ops generalizing s with
  | nil =>
    simp only [runOps, Option.some.injEq] at h
    subst h; exact ⟨hcur, hm⟩
  | cons op ops ih =>
    simp only [runOps] at h
    split at h
    · exact absurd h (by simp)
    · rename_i s1 h1
      have hr1 : s1.readBack = true := by
        apply hread [op] _ s1
        · simp only [runOps, h1]
        · rw [List.mem_inits]
          exact List.prefix_iff_eq_append.mpr (by simp)
      obtain ⟨hc1, hm1⟩ := Op.run_nonneg op s s1 h1 (hfinite op (by simp))
        (hamounts op (by simp)) hcur hm hr1
      refine ih s1 h (fun o ho => hfinite o (List.mem_cons_of_mem _ ho))
        (fun o ho => hamounts o (List.mem_cons_of_mem _ ho)) ?_ hc1 hm1
      intro pre hpre t ht
      apply hread (op :: pre) _ t
      · simp only [runOps, h1]
        exact ht
      · rw [List.mem_inits] at hpre ⊢
        exact List.cons_prefix_cons.mpr ⟨rfl, hpre⟩

/-- C4 as stated fails: after `bob` signed up with the deposit 100, a deposit of
`-1000` is accepted and leaves his account in `accountMap` with the balance
`-900`. -/
theorem C4_counterexample :
    (runOps BankSystem.init
        [Op.signUp ["bob".data] samplePassword "Bo".data "B".data "b@x.org".data [100],
         Op.deposit [-1000] sampleDate]).map
        (fun s => s.accountMap.map (fun e => (e.1, e.2.balance))) =
      some [(1, -900)] := by
  decide!

/-- C4, amended: in every state reached from the empty store by a sequence of
completed `SignUp`, `DepositMoney`, `WithdrawMoney` and `TransferMoney` calls in
which the amounts entered are finite numbers, no amount entered at a deposit or
transfer prompt is negative, and no reload has failed to read a balance back (no
account, in any state of the run, has the balance `-1` that `ToDouble` returns
for the text `inf` of a balance that has overflowed), every account in
`accountMap` has a balance `≥ 0`.  (The amounts entered at the withdrawal prompt
and the initial deposits are otherwise arbitrary.) -/
theorem C4_balances_nonnegative (ops : List Op) (s : BankSystem)
    (hrun : runOps BankSystem.init ops = some s)
    (hfinite : ∀ op ∈ ops, ∀ a ∈ op.amounts, a.isFinite = true)
    (hamounts : ∀ op ∈ ops, ∀ a ∈ op.creditAmounts, (0 : Double) ≤ a)
    (hread : ∀ pre ∈ ops.inits, ∀ t, runOps BankSystem.init pre = some t → t.readBack = true) :
    ∀ e ∈ s.accountMap, (0 : Double) ≤ e.2.balance :=
  (runOps_nonneg ops BankSystem.init s hrun hfinite hamounts hread (by decide)
    (fun e he => absurd he (List.not_mem_nil e))).2

/-- C4, on the sample run: `bob` signs up with 100, deposits 50, withdraws 30. -/
theorem C4_witness :
    runOps BankSystem.init sampleOps = some sampleAfterOps ∧
    (∀ op ∈ sampleOps, ∀ a ∈ op.amounts, a.isFinite = true) ∧
    (∀ op ∈ sampleOps, ∀ a ∈ op.creditAmounts, (0 : Double) ≤ a) ∧
    (∀ pre ∈ sampleOps.inits, ∀ t, runOps BankSystem.init pre = some t → t.readBack = true) ∧
    ∀ e ∈ sampleAfterOps.accountMap, (0 : Double) ≤ e.2.balance :=
  have hread : ∀ pre ∈ sampleOps.inits, ∀ t, runOps BankSystem.init pre = some t →
      t.readBack = true := by
    have hd : ∀ pre ∈ sampleOps.inits,
        (runOps BankSystem.init pre).all (fun t => t.readBack) = true := by decide!
    intro pre hpre t ht
    have := hd pre hpre
    rw [ht] at this
    exact this
  ⟨by decide!, by decide!, by decide!, hread,
    C4_balances_nonnegative sampleOps sampleAfterOps (by decide!) (by decide!) (by decide!)
      hread⟩

/-- Why the reloads must read every balance back: `bob` signs up with 1.5e308 and
withdraws `-1.5e308`.  The sum overflows, the session balance is the infinity,
the accounts file holds `1,inf`, and the reload gives the account the balance
`-1`. -/
theorem overflow_is_read_back_as_minus_one :
    (runOps BankSystem.init
        [Op.signUp ["bob".data] samplePassword "Bo".data "B".data "b@x.org".data
          [ToDouble "1.5e308".data],
         Op.withdraw [-ToDouble "1.5e308".data] sampleDate]).map
      (fun s => (s.currentAccount.balance, s.accountMap.map (fun e => (e.1, e.2.balance)))) =
    some (Double.inf false, [(1, -1)]) := by
  decide!

/-! ## Loading files whose history refers to a missing account -/

theorem loadUsers_isSome (lines : List Str) (m : List (Str × User))
    (h : ∀ l ∈ lines, (User.fromLine l).isSome = true) : ∃ m', loadUsers lines m = some m' := by
  induction lines generalizing m with
  | nil => exact ⟨m, rfl⟩
  | cons l ls ih =>
    have hl := h l (by simp)
    cases hu : User.fromLine l with
    | none => simp [hu] at hl
    | some u =>
      simp only [loadUsers, hu]
      exact ih _ (fun x hx => h x (List.mem_cons_of_mem _ hx))

theorem loadAccounts_keys (lines : List Str) (st : List (Int × Account) × Int)
    (h : ∀ l ∈ lines, (Account.fromLine l).isSome = true) :
    ∃ st', loadAccounts lines st = some st' ∧
      (∀ k, Map.contains st'.1 k = true ↔ (Map.contains st.1 k = true ∨
        ∃ l ∈ lines, ∃ a, Account.fromLine l = some a ∧ a.accountID = k)) ∧
      ((∀ e ∈ st.1, e.2.transactionHistory = []) → ∀ e ∈ st'.1, e.2.transactionHistory = []) := by
  induction lines generalizing st with
  | nil => exact ⟨st, rfl, fun k => by simp, fun h => h⟩
  | cons l ls ih =>
    have hl := h l (by simp)
    cases ha : Account.fromLine l with
    | none => simp [ha] at hl
    | some a =>
      obtain ⟨st', h1, h2, h3⟩ := ih (Map.set st.1 a.accountID a, max st.2 a.accountID)
        (fun x hx => h x (List.mem_cons_of_mem _ hx))
      refine ⟨st', by simp only [loadAccounts, ha]; exact h1, ?_, ?_⟩
      · intro k
        rw [h2 k, Map.contains_set]
        constructor
        · rintro (hk | ⟨x, hx, b, hb, hbk⟩)
          · simp only [Bool.or_eq_true, decide_eq_true_eq] at hk
            rcases hk with hk | hk
            · exact Or.inr ⟨l, by simp, a, ha, hk.symm⟩
            · exact Or.inl hk
          · exact Or.inr ⟨x, List.mem_cons_of_mem _ hx, b, hb, hbk⟩
        · rintro (hk | ⟨x, hx, b, hb, hbk⟩)
          · exact Or.inl (by simp [hk])
          · rcases List.mem_cons.mp hx with rfl | hx
            · rw [ha] at hb
              simp only [Option.some.injEq] at hb
              subst hb
              exact Or.inl (by simp [hbk])
            · exact Or.inr ⟨x, hx, b, hb, hbk⟩
      · intro hst
        apply h3
        intro e he
        rcases Map.mem_set _ _ _ _ he with rfl | ⟨hm, _⟩
        · simp only [Account.fromLine] at ha
          split at ha
          · simp only [Option.some.injEq] at ha
            rw [← ha]
          · exact absurd ha (by simp)
        · exact hst e hm

theorem Map.get_default {α : Type} [Inhabited α] (m : List (Int × α)) (k : Int)
    (h : Map.contains m k = false) : Map.get m k = default := by
  unfold Map.contains at h
  unfold Map.get
  cases hl : Map.find? m k with
  | none => rfl
  | some v => simp [hl] at h

theorem loadHistory_keys (K : Int → Prop) (lines : List Str) (m : List (Int × Account))
    (h : ∀ l ∈ lines, (TransactionHistory.fromLine l).isSome = true) :
    ∃ m', loadHistory lines m = some m' ∧
      (∀ k, Map.contains m' k = true ↔ (Map.contains m k = true ∨
        ∃ l ∈ lines, ∃ t, TransactionHistory.fromLine l = some t ∧ t.accID = k)) ∧
      ((∀ e ∈ m, ∀ t ∈ e.2.transactionHistory, t.accID = e.1) →
        ∀ e ∈ m', ∀ t ∈ e.2.transactionHistory, t.accID = e.1) ∧
      ((∀ e ∈ m, ¬ K e.1 → e.2.accountID = -1 ∧ e.2.balance = 0) →
        ∀ e ∈ m', ¬ K e.1 → e.2.accountID = -1 ∧ e.2.balance = 0) := by
  induction lines generalizing m with
  | nil => exact ⟨m, rfl, fun k => by simp, fun h => h, fun h => h⟩
  | cons l ls ih =>
    have hl := h l (by simp)
    cases ht : TransactionHistory.fromLine l with
    | none => simp [ht] at hl
    | some t =>
      obtain ⟨m', h1, h2, h3, h4⟩ := ih (Map.set m t.accID ((Map.get m t.accID).AddTransaction t))
        (fun x hx => h x (List.mem_cons_of_mem _ hx))
      refine ⟨m', by simp only [loadHistory, ht]; exact h1, ?_, ?_, ?_⟩
      · intro k
        rw [h2 k, Map.contains_set]
        constructor
        · rintro (hk | ⟨x, hx, b, hb, hbk⟩)
          · simp only [Bool.or_eq_true, decide_eq_true_eq] at hk
            rcases hk with hk | hk
            · exact Or.inr ⟨l, by simp, t, ht, hk.symm⟩
            · exact Or.inl hk
          · exact Or.inr ⟨x, List.mem_cons_of_mem _ hx, b, hb, hbk⟩
        · rintro (hk | ⟨x, hx, b, hb, hbk⟩)
          · exact Or.inl (by simp [hk])
          · rcases List.mem_cons.mp hx with rfl | hx
            · rw [ht] at hb
              simp only [Option.some.injEq] at hb
              subst hb
              exact Or.inl (by simp [hbk])
            · exact Or.inr ⟨x, hx, b, hb, hbk⟩
      · intro hown
        apply h3
        intro e he u hu
        rcases Map.mem_set _ _ _ _ he with rfl | ⟨hm, _⟩
        · simp only [Account.AddTransaction, List.mem_append, List.mem_singleton] at hu
          rcases hu with hu | rfl
          · by_cases hc : Map.contains m t.accID = true
            · exact hown _ (Map.get_mem m t.accID hc) u hu
            · rw [Map.get_default m t.accID (by simpa using hc)] at hu
              exact absurd hu (List.not_mem_nil u)
          · rfl
        · exact hown e hm u hu
      · intro hph
        apply h4
        intro e he hK
        rcases Map.mem_set _ _ _ _ he with rfl | ⟨hm, _⟩
        · simp only [Account.AddTransaction]
          by_cases hc : Map.contains m t.accID = true
          · exact hph _ (Map.get_mem m t.accID hc) hK
          · rw [Map.get_default m t.accID (by simpa using hc)]
            exact ⟨rfl, rfl⟩
        · exact hph e hm hK

/-- The loop over the history lines appends to each account, in the order of the
file, the entries that carry its key. -/
theorem loadHistory_entries (lines : List Str) (m m' : List (Int × Account))
    (h : loadHistory lines m = some m') (k : Int) :
    (Map.get m' k).transactionHistory = (Map.get m k).transactionHistory ++
      (lines.filterMap TransactionHistory.fromLine).filter (fun t => decide (t.accID = k)) := by
  induction lines generalizing m with
  | nil =>
    simp only [loadHistory, Option.some.injEq] at h
    subst h
    simp
  | cons l ls ih =>
    simp only [loadHistory] at h
    split at h
    · exact absurd h (by simp)
    · rename_i t ht
      rw [ih _ h, Map.get_set]
      simp only [List.filterMap_cons, ht]
      by_cases hk : k = t.accID
      · subst hk
        simp [Account.AddTransaction]
      · have hk2 : ¬ t.accID = k := fun e => hk e.symm
        simp [hk, hk2]

/-- C10 as stated fails: the history line `7,Deposit,5,,5,x` refers to account 7,
which is not among the account records (only account 1 is); `LoadDatabase`
neither fails nor skips the line: the loaded `accountMap` has the key 7. -/
theorem C10_counterexample :
    (LoadDatabase BankSystem.init "bob,B,b@x.org,bob,Pw1!aaaa,1\n".data "1,100\n".data
        "7,Deposit,5,,5,x\n".data).map
        (fun s => s.accountMap.map
          (fun e => (e.1, e.2.accountID, e.2.balance, e.2.transactionHistory.length))) =
      some [(1, 1, 100, 0), (7, -1, 0, 1)] := by
  decide!

/-- C10, amended: when every line has the number of fields of its record kind,
`LoadDatabase` succeeds also if a history line names an account that has no
account record.  It creates an account for that identifier (with the `accountID`
`-1` and the balance 0 of `Account()`) and attaches the entry to it.  So the keys
of the loaded `accountMap` are the identifiers of the account records together
with those of the history records, and every loaded entry is stored in the
account under its own `accID`: the history of the account under a key is the
list of the history records with that key, in the order of the file. -/
theorem C10_load_creates_missing_account (s : BankSystem) (users accounts history : Str)
    (hu : ∀ l ∈ ReadFile users, (User.fromLine l).isSome = true)
    (ha : ∀ l ∈ ReadFile accounts, (Account.fromLine l).isSome = true)
    (hh : ∀ l ∈ ReadFile history, (TransactionHistory.fromLine l).isSome = true) :
    ∃ s', LoadDatabase s users accounts history = some s' ∧
      (∀ k, Map.contains s'.accountMap k = true ↔
        ((∃ l ∈ ReadFile accounts, ∃ a, Account.fromLine l = some a ∧ a.accountID = k) ∨
          ∃ l ∈ ReadFile history, ∃ t, TransactionHistory.fromLine l = some t ∧ t.accID = k)) ∧
      (∀ e ∈ s'.accountMap, ∀ t ∈ e.2.transactionHistory, t.accID = e.1) ∧
      (∀ e ∈ s'.accountMap,
        (¬ ∃ l ∈ ReadFile accounts, ∃ a, Account.fromLine l = some a ∧ a.accountID = e.1) →
          e.2.accountID = -1 ∧ e.2.balance = 0) ∧
      (∀ k, (Map.get s'.accountMap k).transactionHistory =
        ((ReadFile history).filterMap TransactionHistory.fromLine).filter
          (fun t => decide (t.accID = k))) := by
  obtain ⟨um, hum⟩ := loadUsers_isSome (ReadFile users) [] hu
  obtain ⟨am, ham, hak, hah⟩ := loadAccounts_keys (ReadFile accounts) ([], s.lastAccountID) ha
  obtain ⟨am2, ham2, hk2, hown, hph⟩ := loadHistory_keys
    (fun k => ∃ l ∈ ReadFile accounts, ∃ a, Account.fromLine l = some a ∧ a.accountID = k)
    (ReadFile history) am.1 hh
  have hnil : ∀ e ∈ am.1, e.2.transactionHistory = [] :=
    hah (fun e he => absurd he (List.not_mem_nil e))
  have hload : LoadDatabase s users accounts history =
      some { s with userMap := um, accountMap := am2, lastAccountID := am.2 } := by
    simp only [LoadDatabase, hum, ham, ham2]
  refine ⟨_, hload, ?_, ?_, ?_, ?_⟩
  rotate_right
  · intro k
    show (Map.get am2 k).transactionHistory = _
    rw [loadHistory_entries _ _ _ ham2 k]
    have : (Map.get am.1 k).transactionHistory = [] := by
      by_cases hc : Map.contains am.1 k = true
      · exact hnil _ (Map.get_mem am.1 k hc)
      · rw [Map.get_default am.1 k (by simpa using hc)]
        rfl
    rw [this, List.nil_append]
  · intro k
    rw [hk2 k, hak k]
    simp [Map.contains, Map.find?]
  · apply hown
    intro e he t ht
    rw [hnil e he] at ht
    exact absurd ht (List.not_mem_nil t)
  · apply hph
    intro e he hK
    exfalso
    apply hK
    have hc : Map.contains am.1 e.1 = true :=
      (Map.contains_iff am.1 e.1).mpr (List.mem_map.mpr ⟨e, he, rfl⟩)
    rcases (hak e.1).mp hc with h0 | h0
    · simp [Map.contains, Map.find?] at h0
    · exact h0

/-- C10, on sample files: one account record, one history line for another
account. -/
theorem C10_witness :
    (∀ l ∈ ReadFile "bob,B,b@x.org,bob,Pw1!aaaa,1\n".data, (User.fromLine l).isSome = true) ∧
    (∀ l ∈ ReadFile "1,100\n".data, (Account.fromLine l).isSome = true) ∧
    (∀ l ∈ ReadFile "7,Deposit,5,,5,x\n".data, (TransactionHistory.fromLine l).isSome = true) ∧
    ∃ s', LoadDatabase BankSystem.init "bob,B,b@x.org,bob,Pw1!aaaa,1\n".data "1,100\n".data
        "7,Deposit,5,,5,x\n".data = some s' ∧
      (∀ k, Map.contains s'.accountMap k = true ↔
        ((∃ l ∈ ReadFile "1,100\n".data, ∃ a, Account.fromLine l = some a ∧ a.accountID = k) ∨
          ∃ l ∈ ReadFile "7,Deposit,5,,5,x\n".data,
            ∃ t, TransactionHistory.fromLine l = some t ∧ t.accID = k)) ∧
      (∀ e ∈ s'.accountMap, ∀ t ∈ e.2.transactionHistory, t.accID = e.1) ∧
      (∀ e ∈ s'.accountMap,
        (¬ ∃ l ∈ ReadFile "1,100\n".data, ∃ a, Account.fromLine l = some a ∧
          a.accountID = e.1) → e.2.accountID = -1 ∧ e.2.balance = 0) ∧
      (∀ k, (Map.get s'.accountMap k).transactionHistory =
        ((ReadFile "7,Deposit,5,,5,x\n".data).filterMap TransactionHistory.fromLine).filter
          (fun t => decide (t.accID = k))) :=
  ⟨by decide!, by decide!, by decide!,
    C10_load_creates_missing_account BankSystem.init "bob,B,b@x.org,bob,Pw1!aaaa,1\n".data
      "1,100\n".data "7,Deposit,5,,5,x\n".data (by decide!) (by decide!) (by decide!)⟩

/-! ## Supporting facts: what holds when the text form is exact -/

/-- A transfer between two different accounts of a well-formed store: the session
account is debited and gets the `Transfer` entry, the receiver's account is
credited and gets the `Receive` entry; `accountMap` holds both as read back from
the files. -/
theorem TransferMoney_distinct (s : BankSystem) (amount : Double) (amounts : List Double) (receiver : Str)
    (receivers : List Str) (date : Str) (h : s.WF) (hs : s.Session) (hd : Clean (chomp date))
    (hamount : ¬ s.currentAccount.balance < amount)
    (hr : Map.contains s.userMap receiver = true)
    (hB : Map.contains s.accountMap (Map.get s.userMap receiver).accID = true)
    (hne : (Map.get s.userMap receiver).accID ≠ s.currentUser.accID) :
    ∃ s', TransferMoney s (amount :: amounts) (receiver :: receivers) date = some s' ∧
      s'.currentAccount = (s.currentAccount.UpdateBalance (-amount)).AddTransaction
        ⟨"Transfer".data, date, " to (".data ++ receiver ++ ") ".data,
          s.currentAccount.balance - amount, amount, s.currentUser.accID⟩ ∧
      Map.find? s'.accountMap s.currentUser.accID = some s'.currentAccount.reread ∧
      Map.find? s'.accountMap (Map.get s.userMap receiver).accID = some (Account.reread
        (((Map.get s.accountMap (Map.get s.userMap receiver).accID).UpdateBalance
          amount).AddTransaction
            ⟨"Receive".data, date, " from (".data ++ s.currentUser.userName ++ ") ".data,
              (Map.get s.accountMap (Map.get s.userMap receiver).accID).balance + amount,
              amount, (Map.get s.userMap receiver).accID⟩)) := by
  have e := TransferMoney_eq s amount amounts receiver receivers date h hs hd hamount hr
    (Or.inl hB)
  have hid : s.currentAccount.accountID = s.currentUser.accID := hs.2.1.1
  refine ⟨_, e, ?_, ?_, ?_⟩
  · rfl
  · simp only [Map.find?_map_value, transferUpdate, Account.AddTransaction,
      Account.UpdateBalance, hid, Map.find?_set, Map.get_set,
      if_neg (Ne.symm hne), if_true, Option.map_some']
  · simp only [Map.find?_map_value, transferUpdate, hid, Map.find?_set, Map.get_set,
      if_neg hne, if_true, Option.map_some', Account.AddTransaction, Account.UpdateBalance]

/-- The round trip holds for a well-formed store whose accounts are exact, that
is, whose numbers are read back from their six-digit text as they are and whose
dates have no line break at the end. -/
theorem UpdateDatabase_exact (s : BankSystem) (h : s.WF)
    (hexact : ∀ e ∈ s.accountMap, e.2.reread = e.2) : UpdateDatabase s = some s := by
  rw [UpdateDatabase_eq s h]
  have : s.accountMap.map (fun e => (e.1, e.2.reread)) = s.accountMap := by
    have hm : ∀ e ∈ s.accountMap, (fun e : Int × Account => (e.1, e.2.reread)) e = id e := by
      intro e he
      simp [hexact e he]
    rw [List.map_congr_left hm, List.map_id]
  rw [this]

/-- The example of the specification: a transfer of 150 from an account with 500
to an account with 200 leaves 350 on both, with one `Transfer` and one `Receive`
entry of 150 and resulting balance 350. -/
theorem TransferMoney_example :
    (TransferMoney (twoUsers 500 200) [150] ["bob".data] sampleDate).map
        (fun s => ((Map.get s.accountMap 2).balance,
          (Map.get s.accountMap 2).transactionHistory.map
            (fun t => (t.type, t.amount, t.balance)))) =
      some (350, [("Transfer".data, 150, 350)]) ∧
    (TransferMoney (twoUsers 500 200) [150] ["bob".data] sampleDate).map
        (fun s => ((Map.get s.accountMap 1).balance,
          (Map.get s.accountMap 1).transactionHistory.map
            (fun t => (t.type, t.amount, t.balance)))) =
      some (350, [("Receive".data, 150, 350)]) := by
  refine ⟨by decide!, by decide!⟩

/-- A user name with a comma is accepted by the prompt of `SignUp`, but the
record written for it has seven fields and the reload stops at the `assert`. -/
theorem SignUp_comma_aborts :
    SignUp BankSystem.init ["a,b".data] samplePassword "Bo".data "B".data "b@x.org".data [100] =
      none := by
  decide!

/-- What `ChangeUserName` does with an accepted name, on every store: the record
of the current user is stored under the new name, and every other entry of
`userMap`, the one under the old name included, stays as it is. -/
theorem ChangeUserName_keeps_entries (s : BankSystem) (newUserName : Str) (rest : List Str)
    (hfree : Map.contains s.userMap newUserName = false)
    (hnew : s.currentUser.userName ≠ newUserName) :
    ∃ s', ChangeUserName s (newUserName :: rest) = some s' ∧
      s'.currentUser = { s.currentUser with userName := newUserName } ∧
      Map.find? s'.userMap newUserName = some s'.currentUser ∧
      ∀ k, k ≠ newUserName → Map.find? s'.userMap k = Map.find? s.userMap k := by
  have hacc : firstAccepted (fun n => Map.contains s.userMap n ||
      decide (s.currentUser.userName = n)) (newUserName :: rest) = some newUserName := by
    simp [firstAccepted, hfree, hnew]
  have e : ChangeUserName s (newUserName :: rest) =
      some { s with currentUser := { s.currentUser with userName := newUserName },
                    userMap := Map.set s.userMap newUserName
                      { s.currentUser with userName := newUserName } } := by
    simp only [ChangeUserName, hacc]
  refine ⟨_, e, rfl, ?_, ?_⟩
  · simp only [Map.find?_set, if_true]
  · intro k hk
    simp only [Map.find?_set, if_neg hk]

/-! ## The user codec (C13) -/

/-- C13 (user codec round trip).  For every user whose firstName, lastName, email,
userName and password contain no comma (the accountID being a 32-bit `int`, as
in the source), `User::ToString` yields the six fields in the order
firstName,lastName,email,userName,password,accountID with one comma between
neighbours, `SplitString` on that line returns exactly those six fields, and
constructing a user from the line gives back the original user. -/
theorem C13_user_codec_round_trip (u : User)
    (hfirst : ',' ∉ u.firstName) (hlast : ',' ∉ u.lastName) (hemail : ',' ∉ u.email)
    (hname : ',' ∉ u.userName) (hpass : ',' ∉ u.password) (hid : IntOK u.accID) :
    u.ToString = u.firstName ++ ',' :: (u.lastName ++ ',' :: (u.email ++ ',' ::
        (u.userName ++ ',' :: (u.password ++ ',' :: showInt u.accID)))) ∧
    SplitString u.ToString =
      [u.firstName, u.lastName, u.email, u.userName, u.password, showInt u.accID] ∧
    (SplitString u.ToString).length = 6 ∧
    User.fromLine u.ToString = some u := by
  have hs : SplitString u.ToString =
      [u.firstName, u.lastName, u.email, u.userName, u.password, showInt u.accID] := by
    apply SplitString_joinComma
    intro f hf
    simp only [List.mem_cons, List.mem_singleton, List.not_mem_nil, or_false] at hf
    rcases hf with rfl | rfl | rfl | rfl | rfl | rfl
    · exact hfirst
    · exact hlast
    · exact hemail
    · exact hname
    · exact hpass
    · exact showInt_no_comma _
  refine ⟨rfl, hs, by rw [hs]; rfl, ?_⟩
  simp only [User.fromLine, hs, ToInt_showInt _ hid]

/-- C13 at the user `alice`, whose line is `Al,Ice,a@x.org,alice,Pw1!aaaa,2`. -/
theorem C13_witness :
    alice.ToString = "Al,Ice,a@x.org,alice,Pw1!aaaa,2".data ∧
    SplitString alice.ToString =
      [alice.firstName, alice.lastName, alice.email, alice.userName, alice.password,
       showInt alice.accID] ∧
    User.fromLine alice.ToString = some alice :=
  have h := C13_user_codec_round_trip alice (by decide) (by decide) (by decide) (by decide)
    (by decide) (by decide)
  ⟨by decide, h.2.1, h.2.2.2⟩

/-! ## Decoding a record line (C12) -/

theorem takeWhile_noDigit (l : Str) (h : ∀ c ∈ l, c.isDigit = false) :
    l.takeWhile Char.isDigit = [] := by
  cases l with
  | nil => rfl
  | cons c cs => simp [List.takeWhile, h c (List.mem_cons_self _ _)]

theorem readSign_mem (s : Str) (c : Char) (h : c ∈ (readSign s).2) : c ∈ s := by
  unfold readSign at h
  split at h
  · exact List.mem_cons_of_mem _ h
  · exact List.mem_cons_of_mem _ h
  · exact h

theorem readFraction_noDigit (l : Str) (h : ∀ c ∈ l, c.isDigit = false) :
    (readFraction l).1 = [] := by
  unfold readFraction
  split
  · exact takeWhile_noDigit _ (fun c hc => h c (List.mem_cons_of_mem _ hc))
  · rfl

/-- The extraction of an `int` from a field without any digit fails. -/
theorem readInt_noDigit (field : Str) (h : ∀ c ∈ field, c.isDigit = false) :
    readInt field = none := by
  have hs : ∀ c ∈ (readSign (field.dropWhile isSpace)).2, c.isDigit = false := fun c hc =>
    h c ((List.dropWhile_suffix _).subset (readSign_mem _ _ hc))
  simp [readInt, takeWhile_noDigit _ hs]

/-- The extraction of a `double` from a field without any digit fails. -/
theorem readDouble_noDigit (field : Str) (h : ∀ c ∈ field, c.isDigit = false) :
    readDouble field = none := by
  have hs : ∀ c ∈ (readSign (field.dropWhile isSpace)).2, c.isDigit = false := fun c hc =>
    h c ((List.dropWhile_suffix _).subset (readSign_mem _ _ hc))
  have hd : ∀ c ∈ (readSign (field.dropWhile isSpace)).2.dropWhile Char.isDigit,
      c.isDigit = false := fun c hc => hs c ((List.dropWhile_suffix _).subset hc)
  simp [readDouble, parseFloat, takeWhile_noDigit _ hs, readFraction_noDigit _ hd]

/-- The extraction of a `double` from digits followed by the exponent letter and
nothing else fails. -/
theorem readDouble_bare_exponent (ds : Str) (hd : AllDigits ds) (hne : ds ≠ []) :
    readDouble (ds ++ ['e']) = none := by
  obtain ⟨c, r, rfl⟩ := List.exists_cons_of_ne_nil hne
  have hc := isDigit_not_special c (hd c (by simp))
  have h1 : readSign (List.dropWhile isSpace (c :: r ++ ['e'])) = (false, c :: r ++ ['e']) := by
    simp only [List.cons_append, List.dropWhile, hc.1]
    unfold readSign
    split
    · rename_i heq; exact absurd (List.cons.inj heq).1 hc.2.1
    · rename_i heq; exact absurd (List.cons.inj heq).1 hc.2.2.1
    · rfl
  have h2 := takeWhile_allDigits (c :: r) ['e'] hd (by simp)
  have h3 : ((c :: r).isEmpty && (readFraction ['e']).1.isEmpty) = false := rfl
  simp only [readDouble, h1, parseFloat, h2.1, h2.2, h3]
  simp [readFraction, readExponent, readSign]

theorem fromLine_userLine_none (line : Str) :
    User.fromLine line = none ↔ (SplitString line).length ≠ 6 := by
  unfold User.fromLine
  split
  · next h => simp [h]
  · next h =>
    simp only [true_iff]
    intro hl
    match hs : SplitString line, hl with
    | [c0, c1, c2, c3, c4, c5], _ => exact h _ _ _ _ _ _ hs

theorem fromLine_accountLine_none (line : Str) :
    Account.fromLine line = none ↔ (SplitString line).length ≠ 2 := by
  unfold Account.fromLine
  split
  · next h => simp [h]
  · next h =>
    simp only [true_iff]
    intro hl
    match hs : SplitString line, hl with
    | [c0, c1], _ => exact h _ _ hs

theorem fromLine_entryLine_none (line : Str) :
    TransactionHistory.fromLine line = none ↔ (SplitString line).length ≠ 6 := by
  unfold TransactionHistory.fromLine
  split
  · next h => simp [h]
  · next h =>
    simp only [true_iff]
    intro hl
    match hs : SplitString line, hl with
    | [c0, c1, c2, c3, c4, c5], _ => exact h _ _ _ _ _ _ hs

/-- C12, counterexample.  The account line `abc,xyz` has the two fields of an
account and neither is read as a number, yet the constructor yields a record, the
account `-1` with the balance `-1`; in the same way the user line with the
accountID `none` and the transaction line with the fields `x`, `much` and `more`
yield records that hold `-1`. -/
theorem C12_counterexample :
    readInt "abc".data = none ∧ readDouble "xyz".data = none ∧
    Account.fromLine "abc,xyz".data = some ⟨-1, -1, []⟩ ∧
    User.fromLine "Bo,B,b@x.org,bob,Pw1!aaaa,none".data =
      some ⟨"Bo".data, "B".data, "b@x.org".data, "bob".data, "Pw1!aaaa".data, -1⟩ ∧
    TransactionHistory.fromLine "x,Deposit,much,,more,Sat Oct 31".data =
      some ⟨"Deposit".data, "Sat Oct 31".data, [], -1, -1, -1⟩ := by
  decide!

/-- C12, as the code has it.  Decoding a line as a user, an account or a
transaction fails, by the constructor's `assert`, exactly when the number of
comma-separated fields differs from 6, 2 and 6.  A line with the expected number
of fields always yields a record; each numeric field of the record is the number
extracted from the field text, and `-1` when the extraction fails.  The
extraction fails for a field without any digit; for an `int` it fails exactly
when the number written is outside the 32-bit range; for a `double` it fails when
the exponent letter is not followed by a digit and when the number is outside
the range of `double` (`1e400`), while a number too small for a `double` is read
as zero (`1e-400`).  Text after the number is ignored (`12abc` is 12). -/
theorem C12_decoding_fails_on_field_count_only (line : Str) :
    (User.fromLine line = none ↔ (SplitString line).length ≠ 6) ∧
    (Account.fromLine line = none ↔ (SplitString line).length ≠ 2) ∧
    (TransactionHistory.fromLine line = none ↔ (SplitString line).length ≠ 6) ∧
    (∀ c0 c1 c2 c3 c4 c5 : Str, SplitString line = [c0, c1, c2, c3, c4, c5] →
      User.fromLine line = some ⟨c0, c1, c2, c3, c4, (readInt c5).getD (-1)⟩ ∧
      TransactionHistory.fromLine line =
        some ⟨c1, c5, c3, (readDouble c4).getD (-1), (readDouble c2).getD (-1),
          (readInt c0).getD (-1)⟩) ∧
    (∀ c0 c1 : Str, SplitString line = [c0, c1] →
      Account.fromLine line = some ⟨(readInt c0).getD (-1), (readDouble c1).getD (-1), []⟩) ∧
    (∀ field : Str, (∀ c ∈ field, c.isDigit = false) →
      readInt field = none ∧ readDouble field = none) ∧
    (∀ i : Int, readInt (showInt i) = if IntOK i then some i else none) ∧
    (∀ ds : Str, AllDigits ds → ds ≠ [] → readDouble (ds ++ ['e']) = none) ∧
    readDouble "1e400".data = none ∧ readDouble "1e-400".data = some 0 ∧
    readInt "12abc".data = some 12 ∧ readDouble "12.5abc".data = some (Double.fin (25 / 2)) := by
  refine ⟨fromLine_userLine_none line, fromLine_accountLine_none line,
    fromLine_entryLine_none line, ?_, ?_, ?_, readInt_showInt, readDouble_bare_exponent,
    by decide!, by decide!, by decide!, by decide!⟩
  · intro c0 c1 c2 c3 c4 c5 h
    simp only [User.fromLine, TransactionHistory.fromLine, h, ToInt, ToDouble, and_self]
  · intro c0 c1 h
    simp only [Account.fromLine, h, ToInt, ToDouble]
  · intro field h
    exact ⟨readInt_noDigit field h, readDouble_noDigit field h⟩

/-- C12 at the line `2147483648,1e`: it has two fields, so it is not a user and
not a transaction; the first field is outside the range of `int` and the second
has a bare exponent letter, so it is the account `-1` with the balance `-1`. -/
theorem C12_witness :
    User.fromLine "2147483648,1e".data = none ∧
    TransactionHistory.fromLine "2147483648,1e".data = none ∧
    Account.fromLine "2147483648,1e".data =
      some ⟨(readInt "2147483648".data).getD (-1), (readDouble "1e".data).getD (-1), []⟩ ∧
    readInt (showInt 2147483648) = none ∧ readDouble ("1".data ++ ['e']) = none ∧
    Account.fromLine "2147483648,1e".data = some ⟨-1, -1, []⟩ :=
  have h := C12_decoding_fails_on_field_count_only "2147483648,1e".data
  ⟨h.1.2 (by decide), h.2.2.1.2 (by decide),
   h.2.2.2.2.1 "2147483648".data "1e".data (by decide),
   (h.2.2.2.2.2.2.1 2147483648).trans (by decide),
   h.2.2.2.2.2.2.2.1 "1".data (by unfold AllDigits; decide) (by decide),
   by decide!⟩

/-! ## The two guards of `SignUp` (C11) -/

/-- A user name that is already a key of `userMap` is asked for again. -/
theorem SignUp_retry_userName (s : BankSystem) (userName : Str) (userNames : List Str)
    (password firstName lastName email : Str) (deposits : List Double)
    (h : Map.contains s.userMap userName = true) :
    SignUp s (userName :: userNames) password firstName lastName email deposits =
      SignUp s userNames password firstName lastName email deposits := by
  simp only [SignUp, firstAccepted, h, if_true]

/-- An initial deposit below 100 is asked for again. -/
theorem SignUp_retry_deposit (s : BankSystem) (userNames : List Str)
    (password firstName lastName email : Str) (initialDeposit : Double) (deposits : List Double)
    (h : initialDeposit < 100) :
    SignUp s userNames password firstName lastName email (initialDeposit :: deposits) =
      SignUp s userNames password firstName lastName email deposits := by
  simp only [SignUp, firstAccepted, h, decide_True, if_true]

/-- A new user name with a deposit that is not below 100 is registered under the
next account number and persisted. -/
theorem SignUp_accept (s : BankSystem) (userName : Str) (userNames : List Str)
    (password firstName lastName email : Str) (initialDeposit : Double) (deposits : List Double)
    (hn : Map.contains s.userMap userName = false) (hd : ¬ initialDeposit < 100) :
    SignUp s (userName :: userNames) password firstName lastName email
        (initialDeposit :: deposits) =
      UpdateDatabase
        ⟨⟨firstName, lastName, email, userName, password, wrapInt (s.lastAccountID + 1)⟩,
         ⟨wrapInt (s.lastAccountID + 1), initialDeposit, []⟩,
         Map.set s.userMap userName
           ⟨firstName, lastName, email, userName, password, wrapInt (s.lastAccountID + 1)⟩,
         Map.set s.accountMap (wrapInt (s.lastAccountID + 1))
           ⟨wrapInt (s.lastAccountID + 1), initialDeposit, []⟩,
         wrapInt (s.lastAccountID + 1)⟩ := by
  simp [SignUp, firstAccepted, hn, hd]

/-- The store `SignUp` hands to `UpdateDatabase` is well formed when the store
before was and the new record can be held by the files. -/
theorem WF_signUp {s : BankSystem} (h : s.WF) (u : User) (d : Double) (hu : u.WF)
    (hid : u.accID = s.lastAccountID + 1) :
    BankSystem.WF ⟨u, ⟨s.lastAccountID + 1, d, []⟩, Map.set s.userMap u.userName u,
      Map.set s.accountMap (s.lastAccountID + 1) ⟨s.lastAccountID + 1, d, []⟩,
      s.lastAccountID + 1⟩ := by
  obtain ⟨h1, h2, h3, h4⟩ := h
  refine ⟨Map.set_sorted _ _ _ h1, ?_, Map.set_sorted _ _ _ h3, ?_⟩
  · intro e he
    rcases Map.mem_set _ _ _ _ he with rfl | ⟨hm, _⟩
    · exact ⟨rfl, hu⟩
    · exact h2 e hm
  · intro e he
    rcases Map.mem_set _ _ _ _ he with rfl | ⟨hm, _⟩
    · refine ⟨⟨rfl, ?_, ?_⟩, le_refl _⟩
      · rw [← hid]; exact hu.2.2.2.2.2
      · intro t ht; simp at ht
    · exact ⟨(h4 e hm).1, by have := (h4 e hm).2; show e.1 ≤ s.lastAccountID + 1; omega⟩

/-- In a map with distinct keys exactly one entry is stored under a key it has. -/
theorem Map.one_entry {κ α : Type} [DecidableEq κ] (m : List (κ × α)) (k : κ)
    (hn : (m.map Prod.fst).Nodup) (hk : k ∈ m.map Prod.fst) :
    (m.filter (fun e => decide (e.1 = k))).length = 1 := by
  induction m with
  | nil => simp at hk
  | cons e es ih =>
    simp only [List.map_cons, List.nodup_cons] at hn
    by_cases he : e.1 = k
    · have hnot : ∀ x ∈ es, ¬ x.1 = k := by
        intro x hx hxk
        exact hn.1 (by rw [he, ← hxk]; exact List.mem_map_of_mem _ hx)
      have : es.filter (fun e => decide (e.1 = k)) = [] := by
        apply List.filter_eq_nil_iff.mpr
        intro x hx
        simpa using hnot x hx
      simp [List.filter_cons, he, this]
    · have hk2 : k ∈ es.map Prod.fst := by
        simp only [List.map_cons, List.mem_cons] at hk
        rcases hk with hk | hk
        · exact absurd hk.symm he
        · exact hk
      simp [List.filter_cons, he, ih hn.2 hk2]

/-- C11 (sign-up is rejected exactly for a duplicate user name or a deposit below
100).  For every store, userName and initialDeposit:
* a userName that is a key of `userMap` is rejected: `SignUp` goes on with the same
  store as if it had not been entered;
* an initialDeposit below 100 is rejected in the same way, the maps untouched;
* a userName that is no key of `userMap`, with an initialDeposit that is not below
  100, is accepted whatever is entered after it: the user and the account are put
  into the maps under the next account number (`lastAccountID + 1`, taken back
  into the range of `int`) and the store is persisted; on a well-formed store,
  for text the files can hold and a next account number within the range of
  `int`, the call completes, the new user and account are found in the maps, the
  map holds exactly one user of that name, and a further sign-up with it is
  rejected. -/
theorem C11_signUp_rejected_iff_duplicate_or_small_deposit (s : BankSystem)
    (userName password firstName lastName email : Str) (initialDeposit : Double) :
    (Map.contains s.userMap userName = true →
      ∀ (userNames : List Str) (deposits : List Double),
        SignUp s (userName :: userNames) password firstName lastName email deposits =
          SignUp s userNames password firstName lastName email deposits) ∧
    (initialDeposit < 100 →
      ∀ (userNames : List Str) (deposits : List Double),
        SignUp s userNames password firstName lastName email (initialDeposit :: deposits) =
          SignUp s userNames password firstName lastName email deposits) ∧
    (Map.contains s.userMap userName = false → ¬ initialDeposit < 100 →
      ∀ (userNames : List Str) (deposits : List Double),
        SignUp s (userName :: userNames) password firstName lastName email
            (initialDeposit :: deposits) =
          SignUp s [userName] password firstName lastName email [initialDeposit] ∧
        (∀ s', SignUp s [userName] password firstName lastName email [initialDeposit] = some s' →
          s'.currentUser =
            ⟨firstName, lastName, email, userName, password, wrapInt (s.lastAccountID + 1)⟩ ∧
          s'.currentAccount = ⟨wrapInt (s.lastAccountID + 1), initialDeposit, []⟩) ∧
        (s.WF → Clean userName → Clean password → Clean firstName → Clean lastName →
          Clean email → IntOK (s.lastAccountID + 1) →
          ∃ s', SignUp s [userName] password firstName lastName email [initialDeposit] =
              some s' ∧
            s'.userMap = Map.set s.userMap userName
              ⟨firstName, lastName, email, userName, password, s.lastAccountID + 1⟩ ∧
            Map.find? s'.userMap userName =
              some ⟨firstName, lastName, email, userName, password, s.lastAccountID + 1⟩ ∧
            Map.find? s'.accountMap (s.lastAccountID + 1) =
              some ⟨s.lastAccountID + 1, reread initialDeposit, []⟩ ∧
            (∀ k, k ≠ s.lastAccountID + 1 →
              Map.find? s'.accountMap k = (Map.find? s.accountMap k).map Account.reread) ∧
            s'.lastAccountID = s.lastAccountID + 1 ∧
            (s'.userMap.filter (fun e => decide (e.1 = userName))).length = 1 ∧
            Map.contains s'.userMap userName = true)) := by
  refine ⟨fun h userNames deposits => SignUp_retry_userName s userName userNames _ _ _ _ _ h,
    fun h userNames deposits => SignUp_retry_deposit s userNames _ _ _ _ _ deposits h, ?_⟩
  intro hn hd userNames deposits
  have e1 := SignUp_accept s userName userNames password firstName lastName email
    initialDeposit deposits hn hd
  have e2 := SignUp_accept s userName [] password firstName lastName email
    initialDeposit [] hn hd
  refine ⟨e1.trans e2.symm, ?_, ?_⟩
  · intro s' h
    rw [e2] at h
    exact UpdateDatabase_session _ _ h
  · intro hs c1 c2 c3 c4 c5 hid
    rw [wrapInt_eq _ hid] at e2
    have hw := WF_signUp hs
      ⟨firstName, lastName, email, userName, password, s.lastAccountID + 1⟩ initialDeposit
      ⟨c3, c4, c5, c1, c2, hid⟩ rfl
    have hc : Map.contains (Map.set s.userMap userName
        (⟨firstName, lastName, email, userName, password, s.lastAccountID + 1⟩ : User))
        userName = true := by
      rw [Map.contains_set]; simp
    refine ⟨_, e2.trans (UpdateDatabase_eq _ hw), rfl, ?_, ?_, ?_, rfl, ?_, hc⟩
    · show Map.find? (Map.set s.userMap userName _) userName = _
      rw [Map.find?_set]; simp
    · show Map.find? ((Map.set s.accountMap (s.lastAccountID + 1) _).map _) _ = _
      rw [Map.find?_map_value, Map.find?_set]
      simp [Account.reread]
    · intro k hk
      show Map.find? ((Map.set s.accountMap (s.lastAccountID + 1) _).map _) _ = _
      rw [Map.find?_map_value, Map.find?_set]
      simp [hk]
    · exact Map.one_entry _ _ (KeysSorted.nodup hw.1) ((Map.contains_iff _ _).mp hc)

/-- C11 on the store that holds `bob` with 100: the user name `bob` is rejected,
the deposit 99.99 is rejected, and `alice` with the deposit 100.00 is accepted,
which gives the store of the two users; and on a store whose last account number
is 2147483647 the new user gets the number `-2147483648`. -/
theorem C11_witness :
    ToDouble "99.99".data < 100 ∧ ¬ ToDouble "100.00".data < 100 ∧
    SignUp (oneUser 100) ["bob".data] samplePassword "Al".data "Ice".data "a@x.org".data
        [100] = none ∧
    SignUp (oneUser 100) ["alice".data] samplePassword "Al".data "Ice".data "a@x.org".data
        [ToDouble "99.99".data] = none ∧
    SignUp (oneUser 100) ["bob".data, "alice".data] samplePassword "Al".data "Ice".data
        "a@x.org".data [ToDouble "99.99".data, ToDouble "100.00".data] =
      some (twoUsers 100 100) ∧
    ((twoUsers 100 100).userMap.filter (fun e => decide (e.1 = "bob".data))).length = 1 ∧
    (∀ s', SignUp { BankSystem.init with lastAccountID := 2147483647 } ["bob".data]
        samplePassword "Bo".data "B".data "b@x.org".data [100] = some s' →
      s'.currentUser.accID = -2147483648) :=
  have hw := C11_signUp_rejected_iff_duplicate_or_small_deposit
    { BankSystem.init with lastAccountID := 2147483647 } "bob".data
    samplePassword "Bo".data "B".data "b@x.org".data 100
  have hb := C11_signUp_rejected_iff_duplicate_or_small_deposit (oneUser 100) "bob".data
    samplePassword "Al".data "Ice".data "a@x.org".data (ToDouble "99.99".data)
  have ha := C11_signUp_rejected_iff_duplicate_or_small_deposit (oneUser 100) "alice".data
    samplePassword "Al".data "Ice".data "a@x.org".data (ToDouble "100.00".data)
  have hlow : ToDouble "99.99".data < 100 := by decide!
  have hok : ¬ ToDouble "100.00".data < 100 := by decide!
  have hacc : SignUp (oneUser 100) ["alice".data] samplePassword "Al".data "Ice".data
      "a@x.org".data [ToDouble "100.00".data] = some (twoUsers 100 100) := by decide!
  ⟨hlow, hok, (hb.1 (by decide) [] [100]).trans rfl,
   (hb.2.1 hlow ["alice".data] []).trans rfl,
   (hb.1 (by decide) ["alice".data] [ToDouble "99.99".data, ToDouble "100.00".data]).trans
     ((hb.2.1 hlow ["alice".data] [ToDouble "100.00".data]).trans
       (((ha.2.2 (by decide) hok [] []).1).trans hacc)),
   by decide,
   fun s' hs' => by
     have h1 := ((hw.2.2 (by decide) (by decide!) [] []).2.1 s' hs').1
     rw [h1]
     decide⟩

/-- At the last account number of the range the increment of `lastAccountID`
wraps around: the new account gets the number `-2147483648`. -/
theorem SignUp_account_number_wraps :
    (SignUp { BankSystem.init with lastAccountID := 2147483647 } ["bob".data] samplePassword
        "Bo".data "B".data "b@x.org".data [100]).map
      (fun s => (s.currentUser.accID, s.accountMap.map (fun e => e.1), s.lastAccountID)) =
    some (-2147483648, [-2147483648], -2147483648) := by
  decide!

/-! ## The session copy and the stored account (C14) -/

/-- C14 fails on the code.  `alice` logs in (her balance is 500, no entry yet) and
transfers 100 to `alice`.  `TransferMoney` debits the session copy and stores it,
then credits the stored account as the receiver's without touching the session
copy, so afterwards the session's `currentAccount` has the balance 400 and one
entry, while `accountMap[currentUser.accountID]` has the balance 500 and two
entries; a deposit of 10 made next stores the session copy, and the stored
balance goes from 500 to 410. -/
theorem C14_session_stale_after_self_transfer :
    Login (Logout (twoUsers 500 300)) [("alice".data, samplePassword)] =
      some (twoUsers 500 300) ∧
    (TransferMoney (twoUsers 500 300) [100] ["alice".data] sampleDate).map
      (fun s => (s.currentUser.accID, s.currentAccount.balance,
        (Map.get s.accountMap s.currentUser.accID).balance)) = some (2, 400, 500) ∧
    (TransferMoney (twoUsers 500 300) [100] ["alice".data] sampleDate).map
      (fun s => s.currentAccount.transactionHistory.map (fun t => t.type)) =
      some ["Transfer".data] ∧
    (TransferMoney (twoUsers 500 300) [100] ["alice".data] sampleDate).map
      (fun s => (Map.get s.accountMap s.currentUser.accID).transactionHistory.map
        (fun t => t.type)) = some ["Transfer".data, "Receive".data] ∧
    ((TransferMoney (twoUsers 500 300) [100] ["alice".data] sampleDate).bind
      (fun s => DepositMoney s [10] sampleDate)).map
      (fun s => (s.currentAccount.balance, (Map.get s.accountMap s.currentUser.accID).balance)) =
      some (410, 410) := by
  refine ⟨by decide!, by decide!, by decide!, by decide!, by decide!⟩

/-! ## Where the session copy and the stored account do agree -/

theorem Map.contains_map_value {κ α : Type} [DecidableEq κ] (f : α → α) (m : List (κ × α))
    (k : κ) : Map.contains (m.map (fun e => (e.1, f e.2))) k = Map.contains m k := by
  unfold Map.contains
  rw [Map.find?_map_value]
  cases Map.find? m k <;> rfl

/-- Storing the session account under the current user's identifier and reloading
keeps the store well formed and leaves in `accountMap` the session account as
read back. -/
theorem commit_inv (s t : BankSystem) (acc : Account) (h : s.WF) (hs : s.Session)
    (he : s.AccountsExist) (hacc : acc.WF s.currentUser.accID)
    (ht : t = ⟨s.currentUser, acc, s.userMap,
      (Map.set s.accountMap s.currentUser.accID acc).map (fun e => (e.1, e.2.reread)),
      s.lastAccountID⟩) :
    t.WF ∧ t.Session ∧ t.AccountsExist ∧ t.userMap = s.userMap ∧
      t.currentUser = s.currentUser ∧
      Map.find? t.accountMap t.currentUser.accID = some t.currentAccount.reread := by
  subst ht
  refine ⟨WF_reread_store (WF_setAccount h s.currentUser.accID acc acc hacc hs.2.2),
    ⟨hs.1, hacc, hs.2.2⟩, ?_, rfl, rfl, ?_⟩
  · intro e hm
    show Map.contains ((Map.set s.accountMap s.currentUser.accID acc).map _) _ = true
    rw [Map.contains_map_value, Map.contains_set, he e hm, Bool.or_true]
  · show Map.find? ((Map.set s.accountMap s.currentUser.accID acc).map _) _ = _
    rw [Map.find?_map_value, Map.find?_set, if_pos rfl]
    rfl

/-- A completed deposit keeps the store well formed and the two copies of the
account equal up to the round trip through the files. -/
theorem DepositMoney_inv (s s' : BankSystem) (amounts : List Double) (date : Str) (h : s.WF)
    (hs : s.Session) (he : s.AccountsExist) (hd : Clean (chomp date))
    (hrun : DepositMoney s amounts date = some s') :
    s'.WF ∧ s'.Session ∧ s'.AccountsExist ∧ s'.userMap = s.userMap ∧
      s'.currentUser = s.currentUser ∧
      Map.find? s'.accountMap s'.currentUser.accID = some s'.currentAccount.reread := by
  unfold DepositMoney at hrun
  split at hrun
  · exact absurd hrun (by simp)
  · rename_i a _
    rw [depositBody_eq s a date h hs hd] at hrun
    simp only [Option.some.injEq] at hrun
    subst hrun
    have hent : TransactionHistory.WF s.currentUser.accID
        ⟨"Deposit".data, date, [], s.currentAccount.balance + a, a, s.currentUser.accID⟩ :=
      ⟨rfl, (by decide : Clean "Deposit".data), (by decide : Clean []), hd⟩
    exact commit_inv s _ _ h hs he (WF_addEntry hs.2.1 a _ hent) rfl

/-- A completed withdrawal keeps the store well formed and the two copies of the
account equal up to the round trip through the files. -/
theorem WithdrawMoney_inv (s s' : BankSystem) (amounts : List Double) (date : Str) (h : s.WF)
    (hs : s.Session) (he : s.AccountsExist) (hd : Clean (chomp date))
    (hrun : WithdrawMoney s amounts date = some s') :
    s'.WF ∧ s'.Session ∧ s'.AccountsExist ∧ s'.userMap = s.userMap ∧
      s'.currentUser = s.currentUser ∧
      Map.find? s'.accountMap s'.currentUser.accID = some s'.currentAccount.reread := by
  unfold WithdrawMoney at hrun
  split at hrun
  · exact absurd hrun (by simp)
  · rename_i a _
    rw [withdrawBody_eq s a date h hs hd] at hrun
    simp only [Option.some.injEq] at hrun
    subst hrun
    have hent : TransactionHistory.WF s.currentUser.accID
        ⟨"Withdraw".data, date, [], s.currentAccount.balance + -a, a, s.currentUser.accID⟩ :=
      ⟨rfl, (by decide : Clean "Withdraw".data), (by decide : Clean []), hd⟩
    exact commit_inv s _ _ h hs he (WF_addEntry hs.2.1 (-a) _ hent) rfl

/-- A completed transfer to another user's account keeps the store well formed
and the two copies of the sender's account equal up to the round trip through the
files. -/
theorem TransferMoney_inv (s s' : BankSystem) (amounts : List Double) (receivers : List Str)
    (date : Str) (h : s.WF) (hs : s.Session) (he : s.AccountsExist) (hd : Clean (chomp date))
    (hother : ∀ r ∈ receivers, Map.contains s.userMap r = true →
      (Map.get s.userMap r).accID ≠ s.currentUser.accID)
    (hrun : TransferMoney s amounts receivers date = some s') :
    s'.WF ∧ s'.Session ∧ s'.AccountsExist ∧ s'.userMap = s.userMap ∧
      s'.currentUser = s.currentUser ∧
      Map.find? s'.accountMap s'.currentUser.accID = some s'.currentAccount.reread := by
  unfold TransferMoney at hrun
  split at hrun
  · exact absurd hrun (by simp)
  · rename_i a _
    split at hrun
    · exact absurd hrun (by simp)
    · rename_i r hr
      obtain ⟨hrm, hrc⟩ := firstAccepted_mem _ _ _ hr
      have hrc2 : Map.contains s.userMap r = true := by simpa using hrc
      have hne := hother r hrm hrc2
      have hB : Map.contains s.accountMap (Map.get s.userMap r).accID = true :=
        he _ (Map.get_mem _ _ hrc2)
      have hw := transferUpdate_WF s a r date h hs hd hrc2 (Or.inl hB)
      rw [UpdateDatabase_eq _ hw] at hrun
      simp only [Option.some.injEq] at hrun
      subst hrun
      have hid : s.currentAccount.accountID = s.currentUser.accID := hs.2.1.1
      have hsend : TransactionHistory.WF s.currentUser.accID
          ⟨"Transfer".data, date, " to (".data ++ r ++ ") ".data,
            s.currentAccount.balance + -a, a, s.currentUser.accID⟩ := by
        have hrclean : Clean r := by
          have hm := h.2.1 _ (Map.get_mem _ _ hrc2)
          have := hm.2.2.2.2.1
          rw [hm.1] at this
          exact this
        exact ⟨rfl, (by decide : Clean "Transfer".data),
          clean_append _ _ (clean_append _ _ (by decide) hrclean) (by decide), hd⟩
      refine ⟨WF_reread_store hw, ⟨hs.1, ?_, hs.2.2⟩, ?_, rfl, rfl, ?_⟩
      · exact WF_addEntry hs.2.1 (-a) _ hsend
      · intro e hm
        show Map.contains ((transferUpdate s a r date).accountMap.map _) _ = true
        rw [Map.contains_map_value]
        simp only [transferUpdate, Map.contains_set, he e hm, Bool.or_true]
      · show Map.find? ((transferUpdate s a r date).accountMap.map _) s.currentUser.accID = _
        simp only [Map.find?_map_value, transferUpdate, Account.AddTransaction,
          Account.UpdateBalance, hid, Map.find?_set, Map.get_set,
          if_neg (Ne.symm hne), if_true, Option.map_some']

/-- One deposit, withdrawal or transfer to another user's account keeps the
store well formed and the two copies of the session account equal up to the round
trip through the files. -/
theorem Op.run_inv (op : Op) (s s' : BankSystem) (h : s.WF) (hs : s.Session)
    (he : s.AccountsExist) (hop : op.isMoneyCall = true) (hd : Clean (chomp op.date))
    (hother : ∀ r ∈ op.receivers, Map.contains s.userMap r = true →
      (Map.get s.userMap r).accID ≠ s.currentUser.accID)
    (hrun : op.run s = some s') :
    s'.WF ∧ s'.Session ∧ s'.AccountsExist ∧ s'.userMap = s.userMap ∧
      s'.currentUser = s.currentUser ∧
      Map.find? s'.accountMap s'.currentUser.accID = some s'.currentAccount.reread := by
  cases op with
  | signUp userNames password firstName lastName email deposits =>
    simp [Op.isMoneyCall] at hop
  | deposit amounts date => exact DepositMoney_inv s s' amounts date h hs he hd hrun
  | withdraw amounts date => exact WithdrawMoney_inv s s' amounts date h hs he hd hrun
  | transfer amounts receivers date =>
    exact TransferMoney_inv s s' amounts receivers date h hs he hd hother hrun

/-- The session copy and the stored account agree, up to the round trip through
the files, after every completed run of deposits, withdrawals and transfers to
other users' accounts that starts in a well-formed store with an open session
whose two copies agree. -/
theorem runOps_coherent (ops : List Op) (s s' : BankSystem) (h : s.WF) (hs : s.Session)
    (he : s.AccountsExist) (hc : s.Coherent)
    (hops : ∀ op ∈ ops, op.isMoneyCall = true ∧ Clean (chomp op.date) ∧
      ∀ r ∈ op.receivers, Map.contains s.userMap r = true →
        (Map.get s.userMap r).accID ≠ s.currentUser.accID)
    (hrun : runOps s ops = some s') :
    s'.WF ∧ s'.Session ∧ s'.AccountsExist ∧ s'.Coherent := by
  induction ops generalizing s with
  | nil =>
    simp only [runOps, Option.some.injEq] at hrun
    subst hrun
    exact ⟨h, hs, he, hc⟩
  | cons op ops ih =>
    simp only [runOps] at hrun
    split at hrun
    · exact absurd hrun (by simp)
    · rename_i s1 h1
      obtain ⟨ho1, ho2, ho3⟩ := hops op (List.mem_cons_self _ _)
      obtain ⟨i1, i2, i3, i4, i5, i6⟩ := Op.run_inv op s s1 h hs he ho1 ho2 ho3 h1
      refine ih s1 i1 i2 i3 (Or.inr i6) ?_ hrun
      intro op' hm
      rw [i4, i5]
      exact hops op' (List.mem_cons_of_mem _ hm)

/-- A completed `Login` on a well-formed store in which every user has an account
opens a session whose account is the stored one. -/
theorem Login_inv (creds : List (Str × Str)) (s s' : BankSystem) (h : s.WF)
    (he : s.AccountsExist) (hrun : Login s creds = some s') :
    s'.WF ∧ s'.Session ∧ s'.AccountsExist ∧
      Map.find? s'.accountMap s'.currentUser.accID = some s'.currentAccount := by
  induction creds generalizing s with
  | nil => simp [Login] at hrun
  | cons c rest ih =>
    obtain ⟨userName, password⟩ := c
    simp only [Login] at hrun
    split at hrun
    · refine ih _ ?_ ?_ hrun
      · exact h
      · exact he
    · rename_i hin
      split at hrun
      · refine ih _ ?_ ?_ hrun
        · exact h
        · exact he
      · have hin2 : Map.contains s.userMap userName = true := by simpa using hin
        have hm := Map.get_mem _ _ hin2
        have hacc : Map.contains s.accountMap (Map.get s.userMap userName).accID = true :=
          he _ hm
        simp only [hacc, if_true, Option.some.injEq] at hrun
        subst hrun
        have ha := h.2.2.2 _ (Map.get_mem _ _ hacc)
        exact ⟨h, ⟨(h.2.1 _ hm).2, ha.1, ha.2⟩, he, Map.find?_of_contains _ _ hacc⟩

/-- A completed `SignUp` on a well-formed store in which every user has an
account, with text the files can hold, opens a session whose account is stored as
read back. -/
theorem SignUp_inv (s s' : BankSystem) (userNames : List Str)
    (password firstName lastName email : Str) (deposits : List Double) (h : s.WF)
    (he : s.AccountsExist) (hnames : ∀ u ∈ userNames, Clean u) (hp : Clean password)
    (hf : Clean firstName) (hl : Clean lastName) (hm : Clean email)
    (hid : IntOK (s.lastAccountID + 1))
    (hrun : SignUp s userNames password firstName lastName email deposits = some s') :
    s'.WF ∧ s'.Session ∧ s'.AccountsExist ∧
      Map.find? s'.accountMap s'.currentUser.accID = some s'.currentAccount.reread := by
  unfold SignUp at hrun
  split at hrun
  · exact absurd hrun (by simp)
  · rename_i u hu
    split at hrun
    · exact absurd hrun (by simp)
    · rename_i d _
      have hclean := hnames u (firstAccepted_mem _ _ _ hu).1
      have huw : User.WF ⟨firstName, lastName, email, u, password, s.lastAccountID + 1⟩ :=
        ⟨hf, hl, hm, hclean, hp, hid⟩
      have hw := WF_signUp h ⟨firstName, lastName, email, u, password, s.lastAccountID + 1⟩ d
        huw rfl
      simp only [wrapInt_eq _ hid] at hrun
      rw [UpdateDatabase_eq _ hw] at hrun
      simp only [Option.some.injEq] at hrun
      subst hrun
      refine ⟨WF_reread_store hw, ⟨huw, ⟨rfl, hid, ?_⟩, le_refl _⟩, ?_, ?_⟩
      · intro t ht
        simp at ht
      · intro e hmem
        show Map.contains ((Map.set s.accountMap (s.lastAccountID + 1) _).map _) _ = true
        rw [Map.contains_map_value, Map.contains_set]
        rcases Map.mem_set _ _ _ _ hmem with rfl | ⟨hmem2, _⟩
        · simp
        · simp [he e hmem2]
      · show Map.find? ((Map.set s.accountMap (s.lastAccountID + 1) _).map _)
          (s.lastAccountID + 1) = _
        rw [Map.find?_map_value, Map.find?_set, if_pos rfl]
        rfl

/-- After a completed `Login` and any completed run of deposits, withdrawals and
transfers to other users' accounts, `accountMap` holds for the current user the
session's `currentAccount`, as it is or as it is after the round trip through the
files. -/
theorem Login_runOps_coherent (creds : List (Str × Str)) (ops : List Op)
    (s s0 s' : BankSystem) (h : s.WF) (he : s.AccountsExist)
    (hlogin : Login s creds = some s0)
    (hops : ∀ op ∈ ops, op.isMoneyCall = true ∧ Clean (chomp op.date) ∧
      ∀ r ∈ op.receivers, Map.contains s0.userMap r = true →
        (Map.get s0.userMap r).accID ≠ s0.currentUser.accID)
    (hrun : runOps s0 ops = some s') : s'.Coherent := by
  obtain ⟨i1, i2, i3, i4⟩ := Login_inv creds s s0 h he hlogin
  exact (runOps_coherent ops s0 s' i1 i2 i3 (Or.inl i4) hops hrun).2.2.2

/-- The same after a completed `SignUp` with text the files can hold. -/
theorem SignUp_runOps_coherent (ops : List Op) (s s0 s' : BankSystem) (userNames : List Str)
    (password firstName lastName email : Str) (deposits : List Double) (h : s.WF)
    (he : s.AccountsExist) (hnames : ∀ u ∈ userNames, Clean u) (hp : Clean password)
    (hf : Clean firstName) (hl : Clean lastName) (hm : Clean email)
    (hid : IntOK (s.lastAccountID + 1))
    (hsign : SignUp s userNames password firstName lastName email deposits = some s0)
    (hops : ∀ op ∈ ops, op.isMoneyCall = true ∧ Clean (chomp op.date) ∧
      ∀ r ∈ op.receivers, Map.contains s0.userMap r = true →
        (Map.get s0.userMap r).accID ≠ s0.currentUser.accID)
    (hrun : runOps s0 ops = some s') : s'.Coherent := by
  obtain ⟨i1, i2, i3, i4⟩ := SignUp_inv s s0 userNames password firstName lastName email
    deposits h he hnames hp hf hl hm hid hsign
  exact (runOps_coherent ops s0 s' i1 i2 i3 (Or.inr i4) hops hrun).2.2.2

/-- The run of `alice` who logs in, deposits 50 and transfers 100 to `bob`
completes, and the two copies of her account agree up to the round trip. -/
theorem Login_runOps_coherent_example :
    (runOps (twoUsers 500 300)
      [Op.deposit [50] sampleDate, Op.transfer [100] ["bob".data] sampleDate]).isSome = true ∧
    ∀ s', runOps (twoUsers 500 300)
      [Op.deposit [50] sampleDate, Op.transfer [100] ["bob".data] sampleDate] = some s' →
      s'.Coherent := by
  refine ⟨by decide!, fun s' hrun => ?_⟩
  refine Login_runOps_coherent [("alice".data, samplePassword)]
    [Op.deposit [50] sampleDate, Op.transfer [100] ["bob".data] sampleDate]
    (Logout (twoUsers 500 300)) (twoUsers 500 300) s' (by decide) (by decide) (by decide!)
    ?_ hrun
  intro op hop
  simp only [List.mem_cons, List.mem_singleton, List.not_mem_nil, or_false] at hop
  rcases hop with rfl | rfl
  · exact ⟨rfl, by decide, by simp [Op.receivers]⟩
  · refine ⟨rfl, by decide, ?_⟩
    intro r hr
    simp only [Op.receivers, List.mem_singleton] at hr
    subst hr
    intro _
    decide

end Bank
